import Mathlib

/-!
Shallow embedding of the pyChess rule engine (src/game.py, src/board.py,
src/pieces.py, src/utils.py) and verification of the claims C1-C10.

Modelling conventions:
* Python objects (`Piece` instances) are modelled with an explicit object
  store ("heap"): a piece is referred to by a numeric id (`Nat`), and the
  heap maps ids to the piece's mutable data.  This is necessary because the
  source aliases the same piece objects from `Game.pieces`, `Board.squares`
  and the captured lists, and several claims depend on that aliasing
  (an attribute assignment through one reference is visible through all).
  `copy.deepcopy` of a piece is modelled by allocating a fresh id carrying
  the same data (`Piece.__deepcopy__` copies color, location and the other
  attributes).
* `utils.Location` is a validated two character string; arithmetic uses
  `ord(file)` and `int(rank)`.  We model a coordinate as a pair of integers
  (`Square`), with validity (`a`-`h` / `1`-`8`) as a separate predicate,
  matching the fact that the source freely builds coordinate strings (for
  instance the en-passant target) without re-validating them.  Only
  differences of files ever matter, so using 0-7 instead of ord values is
  exact.
* `Game.enpassants` holds `None` or a two character square string (the
  empty list set by `Game.reset` behaves like `None` in every read of the
  field, so both are modelled as `none`).  Containment of one two-character
  square string in another (`location in game.enpassants` in
  `Pawn.can_take`) is equality of the squares.
* `King.can_move_to` recurses through the opposing pieces' `can_take`; with
  two kings this recursion can fail to terminate (a Python
  `RecursionError`).  The model adds a fuel parameter, decremented at the
  king branch; exhausted fuel yields `false`.  Theorems either quantify
  over the fuel or use a concrete fuel large enough for the concrete
  position (the recursion either terminates within a handful of king
  levels or repeats a call and diverges).
* Exceptions: the engine raises exceptions, sometimes after having already
  mutated the game.  Fallible operations return
  `Except (MErr × GameState) GameState`; the error value carries the state
  at the moment the exception is raised, mirroring the fact that the
  Python caller still holds the (possibly mutated) game object.
-/

set_option linter.unusedVariables false

namespace PyChess

/-- Color enum of utils.py. -/
inductive Color where
  | white
  | black
deriving DecidableEq, Repr

/-- Piece.anticolor of pieces.py. -/
def anticolor : Color → Color
  | .white => .black
  | .black => .white

/-- The six concrete subclasses of `Piece` in pieces.py. -/
inductive Kind where
  | pawn
  | knight
  | bishop
  | rook
  | queen
  | king
deriving DecidableEq, Repr

/-- A coordinate: `file` encodes the letter (a=0 .. h=7, the source keeps
`ord(letter)`; only differences are ever used), `rank` the digit. -/
structure Square where
  file : Int
  rank : Int
deriving DecidableEq, Repr

/-- Board.is_valid_square_name / the constructor check of utils.Location. -/
def Square.isValid (s : Square) : Bool :=
  0 ≤ s.file ∧ s.file ≤ 7 ∧ 1 ≤ s.rank ∧ s.rank ≤ 8

/-- The mutable attributes of a `Piece` object (pieces.py).  `points` is a
constant per kind and is omitted; `kind` stands for the Python class. -/
structure PieceData where
  kind : Kind
  color : Color
  loc : Option Square
  hasMoved : Bool
deriving DecidableEq, Repr

/-- One entry of `Game.moves` (game.py finalize_move): either the pair of
square strings together with the two board references, or a castle token. -/
inductive MoveRec where
  | stdRec (s e : Square) (ps pe : Option Nat)
  | castleRec (kingside : Bool)
deriving DecidableEq, Repr

/-- The error kinds raised on the paths modelled here.  `attrNone` stands
for a Python `AttributeError`/`TypeError` on `None` (for instance
`piece_piece.location = end` when `piece_piece is None`). -/
inductive MErr where
  | invalidSquare
  | emptySource
  | cannotCapture
  | cannotMoveTo
  | noEffectsTarget
  | pieceNone
  | cannotCastle
  | attrNone
deriving DecidableEq, Repr

/-- The mutable state of a `Game` object (game.py `__init__`), with the
piece object store made explicit.  `boardEnpassants` is the separate
`enpassants` attribute of the owned `Board` object (board.py), which the
base `Piece.move_effects` writes to. -/
structure GameState where
  heap : List (Nat × PieceData)
  nextId : Nat
  board : List (Square × Nat)
  whitePieces : List Nat
  blackPieces : List Nat
  capturedWhite : List Nat
  capturedBlack : List Nat
  moves : List MoveRec
  activePlayer : Color
  turnNumber : Int
  halfmove : Int
  enpassants : Option Square
  boardEnpassants : List Square
deriving DecidableEq, Repr

/-- Move arguments accepted by `Game.move`: a castle token or a pair of
coordinates (possibly invalid, as the source validates them itself). -/
inductive MoveInput where
  | castleIn (kingside : Bool)
  | stdIn (s e : Square)
deriving DecidableEq, Repr

section AssocList

variable {α : Type} {β : Type} [DecidableEq α]

/-- First-match association lookup (Python dict access / object lookup). -/
def alookup (k : α) : List (α × β) → Option β
  | [] => none
  | (k', v) :: t => if k' = k then some v else alookup k t

/-- Replace the first binding of `k` (append if absent): `d[k] = v`. -/
def aset (k : α) (v : β) : List (α × β) → List (α × β)
  | [] => [(k, v)]
  | (k', v') :: t => if k' = k then (k, v) :: t else (k', v') :: aset k v t

/-- Drop the first binding of `k`: `d[k] = None` for the board table, whose
unoccupied squares we simply leave absent. -/
def aerase (k : α) : List (α × β) → List (α × β)
  | [] => []
  | (k', v') :: t => if k' = k then t else (k', v') :: aerase k t

/-- Apply `f` to the value bound to `k` (an attribute assignment on the
object `k`; keys are unchanged). -/
def amodify (k : α) (f : β → β) : List (α × β) → List (α × β)
  | [] => []
  | (k', v) :: t => if k' = k then (k', f v) :: amodify k f t else (k', v) :: amodify k f t

end AssocList

/-! State primitives: object store, board table, registries. -/

/-- Read a piece object's data by id. -/
def heapGet (g : GameState) (i : Nat) : Option PieceData :=
  alookup i g.heap

/-- Mutate the attributes of the object `i` in place (object identity and
the set of allocated ids are unchanged). -/
def heapModify (g : GameState) (i : Nat) (f : PieceData → PieceData) : GameState :=
  { g with heap := amodify i f g.heap }

/-- The location setter of `Piece` (pieces.py `location.setter`). -/
def heapSetLoc (g : GameState) (i : Nat) (v : Option Square) : GameState :=
  heapModify g i (fun d => { d with loc := v })

/-- Allocate a fresh object carrying `d` (`copy.deepcopy` of a piece:
`Piece.__deepcopy__` builds a new object with the same color, location and
remaining attributes). -/
def alloc (g : GameState) (d : PieceData) : GameState × Nat :=
  ({ g with heap := g.heap ++ [(g.nextId, d)], nextId := g.nextId + 1 }, g.nextId)

/-- `Board.__getitem__`: the occupant id of a square, if any. -/
def boardGet (g : GameState) (s : Square) : Option Nat :=
  alookup s g.board

/-- `Board.__setitem__` (board.py lines 137-140): store the reference, and
when it is a piece also update that piece's own location field. -/
def boardSet (g : GameState) (s : Square) : Option Nat → GameState
  | none => { g with board := aerase s g.board }
  | some i => heapSetLoc { g with board := aset s i g.board } i (some s)

/-- The per-color live registry lists (`Game.pieces`). -/
def piecesOf (g : GameState) : Color → List Nat
  | .white => g.whitePieces
  | .black => g.blackPieces

/-- Replace a per-color registry list. -/
def setPiecesOf (g : GameState) : Color → List Nat → GameState
  | .white, l => { g with whitePieces := l }
  | .black, l => { g with blackPieces := l }

/-- The per-color captured lists (`Game.captured_pieces`). -/
def capturedOf (g : GameState) : Color → List Nat
  | .white => g.capturedWhite
  | .black => g.capturedBlack

/-- Replace a per-color captured list. -/
def setCapturedOf (g : GameState) : Color → List Nat → GameState
  | .white, l => { g with capturedWhite := l }
  | .black, l => { g with capturedBlack := l }

/-- `Game.antiplayer`. -/
def antiplayer (g : GameState) : Color :=
  anticolor g.activePlayer

/-- Board occupancy as observable piece data (dereference the occupant). -/
def obsBoard (g : GameState) (s : Square) : Option PieceData :=
  (boardGet g s).bind (heapGet g)

/-! Geometry (board.py): move distances, intermediate squares, clearance. -/

/-- The signed integers strictly between `a` and `b`, walked from `a`
towards `b` (the ranges produced by `Board.get_intermediate_squares`). -/
def intsBetween (a b : Int) : List Int :=
  let step : Int := if a < b then 1 else -1
  (List.range ((b - a).natAbs - 1)).map (fun i => a + step * (i + 1))

/-- Board.get_intermediate_squares: the strictly-between squares for a
vertical, horizontal or diagonal move; any other input yields no squares. -/
def get_intermediate_squares (s e : Square) : List Square :=
  let horizontal : Int := (e.file - s.file).natAbs
  let vertical : Int := e.rank - s.rank
  if horizontal = 0 then
    (intsBetween s.rank e.rank).map (fun r => ⟨s.file, r⟩)
  else if vertical = 0 then
    (intsBetween s.file e.file).map (fun f => ⟨f, e.rank⟩)
  else if horizontal = vertical.natAbs then
    let stepx : Int := if s.file < e.file then 1 else -1
    let stepy : Int := if s.rank < e.rank then 1 else -1
    (List.range ((e.file - s.file).natAbs - 1)).map
      (fun i => ⟨s.file + stepx * (i + 1), s.rank + stepy * (i + 1)⟩)
  else []

/-- Board.is_move_clear: no intermediate square is occupied. -/
def is_move_clear (g : GameState) (s e : Square) : Bool :=
  (get_intermediate_squares s e).all (fun sq => boardGet g sq = none)

/-! Piece movement predicates (pieces.py).  `can_move_to` of the King
iterates the opposing registry and asks each opposing piece `can_take`,
which for non-pawns is `can_move_to` again (`Piece.can_take` with its
occupancy-and-color condition commented out in the source); the fuel bounds
that recursion. -/

/-- Pawn.can_take (pieces.py lines 150-158): a one-square forward diagonal
in the pawn's direction, or the recorded en-passant square when that square
is occupied by a Pawn.  (`location in game.enpassants` on two-character
square strings is equality; a pawn with no location raises in the source,
modelled as `false`.) -/
def pawn_can_take (d : PieceData) (loc : Square) (g : GameState) : Bool :=
  match d.loc with
  | none => false
  | some l =>
    let mdf := l.file - loc.file
    let mdr := l.rank - loc.rank
    if (mdf = 1 ∨ mdf = -1) ∧
        ((mdr = -1 ∧ d.color = .white) ∨ (mdr = 1 ∧ d.color = .black)) then
      true
    else if g.enpassants ≠ none ∧ g.enpassants = some loc then
      match obsBoard g loc with
      | some pd => pd.kind = .pawn
      | none => false
    else false

/-- Pawn.can_move_to: straight forward one square, or two from an unmoved
pawn, with the path clear (destination occupancy is not examined here). -/
def pawn_can_move_to (d : PieceData) (loc : Square) (g : GameState) : Bool :=
  match d.loc with
  | none => false
  | some l =>
    let mdf := loc.file - l.file
    let mdr := loc.rank - l.rank
    if mdf ≠ 0 then false
    else if ¬ is_move_clear g l loc then false
    else
      let colorDir : Int := if d.color = .white then 1 else -1
      if mdr = 1 * colorDir then true
      else if mdr = 2 * colorDir ∧ ¬ d.hasMoved then true
      else false

/-- Knight.can_move_to. -/
def knight_can_move_to (d : PieceData) (loc : Square) : Bool :=
  match d.loc with
  | none => false
  | some l =>
    let mdf := l.file - loc.file
    let mdr := l.rank - loc.rank
    ((mdf = 1 ∨ mdf = -1) ∧ (mdr = 2 ∨ mdr = -2)) ∨
      ((mdf = 2 ∨ mdf = -2) ∧ (mdr = 1 ∨ mdr = -1))

/-- Bishop.can_move_to. -/
def bishop_can_move_to (d : PieceData) (loc : Square) (g : GameState) : Bool :=
  match d.loc with
  | none => false
  | some l =>
    if ¬ is_move_clear g l loc then false
    else (l.file - loc.file).natAbs = (l.rank - loc.rank).natAbs

/-- Rook.can_move_to. -/
def rook_can_move_to (d : PieceData) (loc : Square) (g : GameState) : Bool :=
  match d.loc with
  | none => false
  | some l =>
    if l.file - loc.file ≠ 0 ∧ l.rank - loc.rank ≠ 0 then false
    else if ¬ is_move_clear g l loc then false
    else true

/-- Queen.can_move_to. -/
def queen_can_move_to (d : PieceData) (loc : Square) (g : GameState) : Bool :=
  match d.loc with
  | none => false
  | some l =>
    if (l.file - loc.file).natAbs ≠ (l.rank - loc.rank).natAbs ∧
        (l.file - loc.file ≠ 0 ∧ l.rank - loc.rank ≠ 0) then false
    else if ¬ is_move_clear g l loc then false
    else true

/-- The dynamic dispatch of `can_move_to`.  The King case (pieces.py lines
293-304) rejects the move when any opposing registry piece `can_take` the
destination; that recursion consumes fuel (exhausted fuel stands for the
unbounded recursion two adjacent kings produce in the source).  The
opposing piece's `can_take` dispatch (Pawn rule versus base
`Piece.can_take`, i.e. `can_move_to`) is inlined in the King branch so that
the recursion is structural on the fuel; the wrapper `can_take` below is
the same dispatch. -/
def can_move_to : Nat → PieceData → Square → GameState → Bool
  | fuel, d, loc, g =>
    match d.kind with
    | .pawn => pawn_can_move_to d loc g
    | .knight => knight_can_move_to d loc
    | .bishop => bishop_can_move_to d loc g
    | .rook => rook_can_move_to d loc g
    | .queen => queen_can_move_to d loc g
    | .king =>
      match d.loc with
      | none => false
      | some l =>
        let mdf := l.file - loc.file
        let mdr := l.rank - loc.rank
        if ¬ ((mdf = 1 ∨ mdf = 0 ∨ mdf = -1) ∧ (mdr = 1 ∨ mdr = 0 ∨ mdr = -1)) then
          false
        else
          match fuel with
          | 0 => false
          | f + 1 =>
            (piecesOf g (anticolor d.color)).all (fun q =>
              match heapGet g q with
              | none => true
              | some qd =>
                match qd.kind with
                | .pawn => ¬ pawn_can_take qd loc g
                | _ => ¬ can_move_to f qd loc g)

/-- The dynamic dispatch of `can_take`: the Pawn has its own rule; every
other piece uses the base `Piece.can_take`, which is `can_move_to` with the
opposing-occupancy conjunct commented out (pieces.py lines 62-66). -/
def can_take (fuel : Nat) (d : PieceData) (loc : Square) (g : GameState) : Bool :=
  match d.kind with
  | .pawn => pawn_can_take d loc g
  | _ => can_move_to fuel d loc g

/-! Query operations of Game (game.py). -/

/-- The registry filter of `Game.who_can_capture`: class-name filter, file
filter (a piece without a location raises in the source; such pieces never
sit in a registry in well-formed states), then `can_take`. -/
def captureFilter (fuel : Nat) (g : GameState) (loc : Square) (kindF : Option Kind)
    (fileF : Option Int) (i : Nat) : Bool :=
  match heapGet g i with
  | none => false
  | some d =>
    (match kindF with
     | some k => decide (d.kind = k)
     | none => true) &&
    (match fileF with
     | some f => (match d.loc with
       | some l => decide (l.file = f)
       | none => false)
     | none => true) &&
    can_take fuel d loc g

/-- Game.who_can_capture (lines 431-448) before its final `deepcopy`: the
matching registry pieces themselves.  When no color filter is given, the
color is the captured target's anticolor, or the antiplayer for an empty
target square. -/
def who_can_capture_ids (fuel : Nat) (g : GameState) (loc : Square) (kindF : Option Kind)
    (fileF : Option Int) (colorF : Option Color) : List Nat :=
  let cf : Color :=
    match colorF with
    | some c => c
    | none =>
      match boardGet g loc with
      | none => antiplayer g
      | some tid =>
        match heapGet g tid with
        | none => antiplayer g
        | some td => anticolor td.color
  (piecesOf g cf).filter (captureFilter fuel g loc kindF fileF)

/-- The registry filter of `Game.who_can_move_to`. -/
def moveToFilter (fuel : Nat) (g : GameState) (loc : Square) (kindF : Option Kind)
    (fileF : Option Int) (i : Nat) : Bool :=
  match heapGet g i with
  | none => false
  | some d =>
    (match kindF with
     | some k => decide (d.kind = k)
     | none => true) &&
    (match fileF with
     | some f => (match d.loc with
       | some l => decide (l.file = f)
       | none => false)
     | none => true) &&
    can_move_to fuel d loc g

/-- Game.who_can_move_to (lines 352-370) before its final `deepcopy`.  The
color filter must be supplied: the source's default substitutes the string
`active_player.value`, which is not a registry key. -/
def who_can_move_to_ids (fuel : Nat) (g : GameState) (loc : Square) (colorF : Color)
    (kindF : Option Kind) (fileF : Option Int) : List Nat :=
  (piecesOf g colorF).filter (moveToFilter fuel g loc kindF fileF)

/-- `copy.deepcopy` of a list of pieces: allocate a fresh object per list
entry carrying the same data.  (The deepcopy memo collapses duplicate
references; registry lists are duplicate-free in well-formed states.) -/
def deepcopyList (g : GameState) : List Nat → GameState × List Nat
  | [] => (g, [])
  | i :: t =>
    match heapGet g i with
    | none => deepcopyList g t
    | some d =>
      let a := alloc g d
      let r := deepcopyList a.1 t
      (r.1, a.2 :: r.2)

/-- Game.who_can_capture including the `deepcopy` of the result list. -/
def who_can_capture (fuel : Nat) (g : GameState) (loc : Square) (kindF : Option Kind)
    (fileF : Option Int) (colorF : Option Color) : GameState × List Nat :=
  deepcopyList g (who_can_capture_ids fuel g loc kindF fileF colorF)

/-- Game.who_can_move_to including the `deepcopy` of the result list. -/
def who_can_move_to (fuel : Nat) (g : GameState) (loc : Square) (colorF : Color)
    (kindF : Option Kind) (fileF : Option Int) : GameState × List Nat :=
  deepcopyList g (who_can_move_to_ids fuel g loc colorF kindF fileF)

/-! Castling (game.py lines 372-406). -/

/-- Occupied by a piece that has not moved (`board[sq] is not None and not
board[sq].has_moved`). -/
def occUnmoved (g : GameState) (sq : Square) : Bool :=
  match obsBoard g sq with
  | some d => ¬ d.hasMoved
  | none => false

/-- `not self.who_can_capture(sq, color_filter=c)`. -/
def noCapturers (fuel : Nat) (g : GameState) (sq : Square) (c : Color) : Bool :=
  who_can_capture_ids fuel g sq none none (some c) = []

/-- One side's castling eligibility as computed by `Game.can_castle`. -/
structure CastleRights where
  queenside : Bool
  kingside : Bool
deriving DecidableEq, Repr

/-- Game.can_castle (lines 390-406).  For each color: the king square must
be occupied, unmoved and uncapturable; queenside further needs the rook
square occupied-unmoved and the two squares d/c empty and uncapturable
(the b square is never examined), kingside needs h occupied-unmoved and
f/g empty and uncapturable. -/
def can_castle (fuel : Nat) (g : GameState) : Color → CastleRights :=
  let mk (rank : Int) (enemy : Color) : CastleRights :=
    if occUnmoved g ⟨4, rank⟩ ∧ noCapturers fuel g ⟨4, rank⟩ enemy then
      { queenside := occUnmoved g ⟨0, rank⟩ ∧
          boardGet g ⟨3, rank⟩ = none ∧ noCapturers fuel g ⟨3, rank⟩ enemy ∧
          boardGet g ⟨2, rank⟩ = none ∧ noCapturers fuel g ⟨2, rank⟩ enemy,
        kingside := occUnmoved g ⟨7, rank⟩ ∧
          boardGet g ⟨5, rank⟩ = none ∧ noCapturers fuel g ⟨5, rank⟩ enemy ∧
          boardGet g ⟨6, rank⟩ = none ∧ noCapturers fuel g ⟨6, rank⟩ enemy }
    else { queenside := false, kingside := false }
  fun c =>
    match c with
    | .white => mk 1 .black
    | .black => mk 8 .white

/-- The last registry piece of color `c` whose location equals `s` (the
`for x in self.pieces[...]` search loops of `Game.move` / `Game._force_move`
overwrite `piece_piece` on every match). -/
def findLastLoc (g : GameState) (c : Color) (s : Square) : Option Nat :=
  (piecesOf g c).foldl (fun acc i =>
    match heapGet g i with
    | some d => if d.loc = some s then some i else acc
    | none => acc) none

/-- Everything of a game state except the object store and the allocation
counter: the observable containers and scalars. -/
def scalarObs (g : GameState) :=
  (g.board, g.whitePieces, g.blackPieces, g.capturedWhite, g.capturedBlack,
   g.moves, g.activePlayer, g.turnNumber, g.halfmove, g.enpassants, g.boardEnpassants)

/-- All piece references reachable from the game's containers. -/
def liveIds (g : GameState) : List Nat :=
  g.board.map Prod.snd ++ g.whitePieces ++ g.blackPieces ++ g.capturedWhite ++ g.capturedBlack

/-- Allocated ids sit below the allocation counter. -/
def heapBound (g : GameState) : Prop :=
  ∀ k ∈ g.heap.map Prod.fst, k < g.nextId

instance (g : GameState) : Decidable (heapBound g) := by
  unfold heapBound
  infer_instance

/-- The back-rank of the active player (`rank` in `Game.castle`). -/
def castleRank (g : GameState) : Int := if g.activePlayer = .white then 1 else 8

/-- The relevant Rook's home square for a castle side. -/
def castleRookSq (g : GameState) (ks : Bool) : Square :=
  if ks then ⟨7, castleRank g⟩ else ⟨0, castleRank g⟩

/-- The emptiness checks `Game.can_castle` actually performs: kingside f
and g, queenside d and c only (the b-file square is never examined). -/
def castleBetweenCode (rank : Int) (ks : Bool) : List Square :=
  if ks then [⟨5, rank⟩, ⟨6, rank⟩] else [⟨3, rank⟩, ⟨2, rank⟩]

/-- The accumulator step of `findLastLoc`, named for the proofs below. -/
def flStep (g : GameState) (s : Square) (acc : Option Nat) (i : Nat) : Option Nat :=
  match heapGet g i with
  | some d => if d.loc = some s then some i else acc
  | none => acc

/-- Game._force_move (lines 408-420): set the registry piece's location,
then relocate the board reference.  A missing registry piece is the
source's `AttributeError` on `piece_piece.location = end`. -/
def force_move (g : GameState) (s e : Square) : Except (MErr × GameState) GameState :=
  match findLastLoc g g.activePlayer s with
  | none => .error (.attrNone, g)
  | some pp =>
    let g1 := heapSetLoc g pp (some e)
    let pc := boardGet g1 s
    let g2 := boardSet g1 s none
    .ok (boardSet g2 e pc)

/-- `self.board[sq].has_moved = True` (raises on an empty square). -/
def setHasMovedAt (g : GameState) (sq : Square) : Except (MErr × GameState) GameState :=
  match boardGet g sq with
  | none => .error (.attrNone, g)
  | some i => .ok (heapModify g i (fun d => { d with hasMoved := true }))

/-- Game.castle (lines 372-388): gate on `can_castle`, then two forced
moves and two has-moved flags (kingside e->g, h->f; queenside e->c, a->d). -/
def castle (fuel : Nat) (g : GameState) (kingside : Bool) :
    Except (MErr × GameState) GameState :=
  let can := can_castle fuel g
  let rank : Int := if g.activePlayer = .white then 1 else 8
  if kingside then
    if ¬ (can g.activePlayer).kingside then .error (.cannotCastle, g)
    else do
      let g1 ← force_move g ⟨4, rank⟩ ⟨6, rank⟩
      let g2 ← force_move g1 ⟨7, rank⟩ ⟨5, rank⟩
      let g3 ← setHasMovedAt g2 ⟨6, rank⟩
      setHasMovedAt g3 ⟨5, rank⟩
  else
    if ¬ (can g.activePlayer).queenside then .error (.cannotCastle, g)
    else do
      let g1 ← force_move g ⟨4, rank⟩ ⟨2, rank⟩
      let g2 ← force_move g1 ⟨0, rank⟩ ⟨3, rank⟩
      let g3 ← setHasMovedAt g2 ⟨2, rank⟩
      setHasMovedAt g3 ⟨3, rank⟩

/-! Per-piece move side effects (pieces.py `move_effects`). -/

/-- The side effects of the moved piece: a Pawn zeroes the half-move
counter, records the en-passant target after a two-square advance and
clears it otherwise, and sets has-moved; Rook and King set has-moved; every
other piece runs the base `Piece.move_effects`, which assigns to the
*Board* object's `enpassants` attribute, not the Game's. -/
def pieceMoveEffects (g : GameState) (i : Nat) (d : PieceData) (s e : Square) : GameState :=
  match d.kind with
  | .pawn =>
    match d.loc with
    | none => g
    | some l =>
      let g1 := { g with halfmove := 0 }
      let g2 :=
        if (s.file - e.file = 0 ∧ s.rank - e.rank = 2) ∨
            (s.file - e.file = 0 ∧ s.rank - e.rank = -2) then
          { g1 with enpassants := some (if d.color = .black then ⟨l.file, l.rank + 1⟩
            else ⟨l.file, l.rank - 1⟩) }
        else { g1 with enpassants := none }
      heapModify g2 i (fun dd => { dd with hasMoved := true })
  | .rook => heapModify g i (fun dd => { dd with hasMoved := true })
  | .king => heapModify g i (fun dd => { dd with hasMoved := true })
  | _ => { g with boardEnpassants := [] }

/-- Game.move_effects (lines 221-226): dispatch to the piece now sitting on
the destination square, or raise. -/
def move_effects (g : GameState) (s e : Square) : Except (MErr × GameState) GameState :=
  match boardGet g e with
  | none => .error (.noEffectsTarget, g)
  | some i =>
    match heapGet g i with
    | none => .error (.noEffectsTarget, g)
    | some d => .ok (pieceMoveEffects g i d s e)

/-- Game.handle_enpassant (lines 341-350): deep-copy the piece one rank
behind the destination, clear its square, force-move the capturing piece,
append the copy to the captured list, then run the mover's side effects.
With nothing behind the destination the source still clears the square and
force-moves before crashing on `captured_piece.color`. -/
def handle_enpassant (g : GameState) (s e : Square) :
    Except (MErr × GameState) (GameState × Nat) :=
  let capRank : Int := if g.activePlayer = .white then 5 else 4
  let sqCap : Square := ⟨e.file, capRank⟩
  match boardGet g sqCap with
  | none =>
    let g1 := boardSet g sqCap none
    match force_move g1 s e with
    | .error p => .error p
    | .ok g2 => .error (.attrNone, g2)
  | some pid =>
    match heapGet g pid with
    | none => .error (.attrNone, g)
    | some d =>
      let a := alloc g d
      let g2 := boardSet a.1 sqCap none
      match force_move g2 s e with
      | .error p => .error p
      | .ok g3 =>
        let g4 := setCapturedOf g3 d.color (capturedOf g3 d.color ++ [a.2])
        let g5 :=
          match boardGet g4 e with
          | some j =>
            match heapGet g4 j with
            | some jd => pieceMoveEffects g4 j jd s e
            | none => g4
          | none => g4
        .ok (g5, a.2)

/-! The captured-piece bookkeeping block of `Game.move` (lines 209-214). -/

/-- Piece.__eq__ (pieces.py lines 30-31): color and location only. -/
def pieceEqPy (g : GameState) (i : Nat) (cd : PieceData) : Bool :=
  match heapGet g i with
  | some d => d.color = cd.color ∧ d.loc = cd.loc
  | none => false

/-- `list.remove(x)`: drop the first element equal (`Piece.__eq__`) to the
captured piece. -/
def removeFirstEq (g : GameState) (cd : PieceData) : List Nat → List Nat
  | [] => []
  | i :: t => if pieceEqPy g i cd then t else i :: removeFirstEq g cd t

/-- The `for piece in self.pieces[...]` loop that removes pieces equal to
the captured piece while iterating: CPython's iterator advances by index
over the shrinking list, so a removal skips the following element.  The
step budget makes the recursion structural; the list never grows and the
index always advances, so the initial length is budget enough. -/
def pyRemoveLoopAux (g : GameState) (cd : PieceData) : Nat → List Nat → Nat → List Nat
  | 0, l, _ => l
  | fuel + 1, l, i =>
    if h : i < l.length then
      if pieceEqPy g (l.get ⟨i, h⟩) cd then
        pyRemoveLoopAux g cd fuel (removeFirstEq g cd l) (i + 1)
      else
        pyRemoveLoopAux g cd fuel l (i + 1)
    else l

/-- The removal loop at its natural step budget. -/
def pyRemoveLoop (g : GameState) (cd : PieceData) (l : List Nat) (i : Nat) : List Nat :=
  pyRemoveLoopAux g cd l.length l i

/-- Lines 209-214 of `Game.move`: append the captured piece to its color's
captured list, run the removal loop over that color's registry, then null
the captured piece's location. -/
def captured_block (g : GameState) (cid : Nat) : GameState :=
  match heapGet g cid with
  | none => g
  | some cd =>
    let g1 := setCapturedOf g cd.color (capturedOf g cd.color ++ [cid])
    let g2 := setPiecesOf g1 cd.color (pyRemoveLoop g1 cd (piecesOf g1 cd.color) 0)
    heapSetLoc g2 cid none

/-- Game.finalize_move (lines 319-328): append the move log entry (with the
current board references), flip the active player, bump the counters.
`check_for_checkmate` only reads state (its result is discarded), so it
does not appear here. -/
def finalize_move (g : GameState) (inp : MoveInput) : GameState :=
  let g1 :=
    match inp with
    | .stdIn s e => { g with moves := g.moves ++ [MoveRec.stdRec s e (boardGet g s) (boardGet g e)] }
    | .castleIn ks => { g with moves := g.moves ++ [MoveRec.castleRec ks] }
  let g2 := { g1 with activePlayer := anticolor g1.activePlayer }
  let g3 := { g2 with halfmove := g2.halfmove + 1 }
  if g3.activePlayer = .white then { g3 with turnNumber := g3.turnNumber + 1 } else g3

/-- Lines 204-207 of `Game.move`: `board[end] = board[start]`,
`board[start] = None`, then the side-effect dispatch. -/
def board_relocate (g : GameState) (s e : Square) : Except (MErr × GameState) GameState :=
  let pc := boardGet g s
  let g1 := boardSet g e pc
  let g2 := boardSet g1 s none
  move_effects g2 s e

/-- Game.move (lines 167-219) for a coordinate pair: validate the two
coordinates, remember the last active-registry piece standing on `start`,
require an occupant at `start`, then branch: the en-passant handler when
`end` equals the recorded target, otherwise capture (via `can_take`) or
plain move (via `can_move_to`) followed by the board relocation and side
effects; afterwards the captured-piece block, the late `piece_piece` null
check, its location assignment and the finalization. -/
def move_std (fuel : Nat) (g : GameState) (s e : Square) :
    Except (MErr × GameState) GameState :=
  if ¬ s.isValid then .error (.invalidSquare, g)
  else if ¬ e.isValid then .error (.invalidSquare, g)
  else
    let piecePiece := findLastLoc g g.activePlayer s
    if boardGet g s = none then .error (.emptySource, g)
    else
      let phase1 : Except (MErr × GameState) (GameState × Option Nat) :=
        if some e = g.enpassants then
          match handle_enpassant g s e with
          | .error p => .error p
          | .ok (g1, cid) => .ok (g1, some cid)
        else
          match obsBoard g s with
          | none => .error (.attrNone, g)
          | some sd =>
            if boardGet g e ≠ none then
              if ¬ can_take fuel sd e g then .error (.cannotCapture, g)
              else
                let cap := boardGet g e
                let g1 := { g with enpassants := none }
                match board_relocate g1 s e with
                | .error p => .error p
                | .ok g2 => .ok (g2, cap)
            else
              if ¬ can_move_to fuel sd e g then .error (.cannotMoveTo, g)
              else
                match board_relocate g s e with
                | .error p => .error p
                | .ok g2 => .ok (g2, none)
      match phase1 with
      | .error p => .error p
      | .ok (g2, cap) =>
        let g3 :=
          match cap with
          | some cid => captured_block g2 cid
          | none => g2
        match piecePiece with
        | none => .error (.pieceNone, g3)
        | some pp => .ok (finalize_move (heapSetLoc g3 pp (some e)) (.stdIn s e))

/-- Game.move: the castle tokens short-circuit into `Game.castle` followed
by finalization; coordinates go through the standard path. -/
def move (fuel : Nat) (g : GameState) : MoveInput → Except (MErr × GameState) GameState
  | .castleIn ks =>
    match castle fuel g ks with
    | .error p => .error p
    | .ok g1 => .ok (finalize_move g1 (.castleIn ks))
  | .stdIn s e => move_std fuel g s e

/-! Checkmate detection (pieces.py King.is_checkmate, game.py
check_for_checkmate). -/

/-- King.is_checkmate (lines 281-291): scan the eight neighbour squares in
source iteration order; off-board squares are skipped, every other square
is probed with `can_move_to`; checkmate when none succeeds.  (A king
without a location would crash in the source; such a king is never reached
from `check_for_checkmate` on a well-formed state.) -/
def is_checkmate (fuel : Nat) (d : PieceData) (g : GameState) : Bool :=
  match d.loc with
  | none => true
  | some l =>
    let offs : List (Int × Int) :=
      [(-1, -1), (0, -1), (1, -1), (-1, 0), (1, 0), (-1, 1), (0, 1), (1, 1)]
    offs.all (fun o =>
      let t : Square := ⟨l.file + o.1, l.rank + o.2⟩
      if ¬ t.isValid then true
      else ¬ can_move_to fuel d t g)

/-- Game.check_for_checkmate (lines 467-475): the first King in the
antiplayer's registry, if any, is probed with `is_checkmate`. -/
def check_for_checkmate (fuel : Nat) (g : GameState) : Bool :=
  match (piecesOf g (antiplayer g)).filter (fun i =>
      match heapGet g i with
      | some d => d.kind = .king
      | none => false) with
  | [] => false
  | k :: _ =>
    match heapGet g k with
    | some d => is_checkmate fuel d g
    | none => false

/-! The rollback scope (board.py Board.TempMove, lines 41-58).
`Game.does_move_cause_self_check` (game.py line 312) enters it as
`self.board.TempMove(self)`: the managed object is the GAME, not the
Board.  `__enter__` deep-copies it; `__exit__` first runs
`self.board.pieces.clear(); self.board.pieces.update(self.temp_board.pieces)`,
re-pointing the two live-piece registries at the snapshot's copied lists,
and then crashes with `AttributeError` at `self.board.squares.clear()`,
because a `Game` object has no `squares` attribute (and no `__getattr__`):
board occupancy, the captured lists, the move log and every scalar keep
their in-scope values, and the exception propagates out of the `with`
block.  The snapshot is unreachable from the game during the scope, so no
in-scope mutation can touch it; the deep copy is modelled by re-allocating
the snapshot's objects at fresh ids on exit, which preserves all
observable values.  (The console and logger objects the real deep copy
would also traverse are outside the model.) -/

/-- TempMove.__exit__ on the Game: only the two live-piece registries are
restored from the entry snapshot `snap` (their references re-allocated at
fresh ids) before the `AttributeError` on the missing `squares` attribute
aborts the restoration; the board, the captured lists, the move log and
all scalars keep their in-scope values. -/
def temp_exit (snap cur : GameState) : GameState :=
  let n := cur.nextId
  { cur with
    heap := cur.heap ++ snap.heap.map (fun e => (e.1 + n, e.2)),
    nextId := n + snap.nextId,
    whitePieces := snap.whitePieces.map (· + n),
    blackPieces := snap.blackPieces.map (· + n) }

/-- A sequence of `Game.move` calls inside the scope: an exception aborts
the block (leaving the state the exception carried), as in the source,
where the error propagates to `__exit__`. -/
def run_scope (fuel : Nat) (g : GameState) : List MoveInput → GameState
  | [] => g
  | m :: ms =>
    match move fuel g m with
    | .ok g1 => run_scope fuel g1 ms
    | .error (_, g1) => g1

/-! The consistency invariant of claim C1 and structural well-formedness. -/

/-- The occupant of a square records that square as its own location. -/
def occLocOk (g : GameState) (i : Nat) (sq : Square) : Bool :=
  match heapGet g i with
  | some d => d.loc = some sq
  | none => false

/-- A registry piece of color `c` exists, has that color, and stands on the
board at its recorded location. -/
def regPieceOk (g : GameState) (c : Color) (i : Nat) : Bool :=
  match heapGet g i with
  | some d =>
    decide (d.color = c) &&
      (match d.loc with
       | some sq => boardGet g sq = some i
       | none => false)
  | none => false

/-- The number of Kings in a color's live registry. -/
def kingCount (g : GameState) (c : Color) : Nat :=
  ((piecesOf g c).filter (fun i =>
    match heapGet g i with
    | some d => d.kind = .king
    | none => false)).length

/-- The invariant of claim C1: board occupancy and live-piece locations
agree bidirectionally, and each color has exactly one King among its live
pieces. -/
def inv (g : GameState) : Prop :=
  (∀ p ∈ g.board, occLocOk g p.2 p.1 = true) ∧
  (∀ i ∈ g.whitePieces, regPieceOk g .white i = true) ∧
  (∀ i ∈ g.blackPieces, regPieceOk g .black i = true) ∧
  kingCount g .white = 1 ∧ kingCount g .black = 1

instance (g : GameState) : Decidable (inv g) := by
  unfold inv
  infer_instance

/-- Structural well-formedness of the object graph: distinct allocated ids,
all below the allocation counter, distinct board keys, and the two
registries jointly duplicate-free. -/
def wf (g : GameState) : Prop :=
  (g.heap.map Prod.fst).Nodup ∧
  (∀ i ∈ g.heap.map Prod.fst, i < g.nextId) ∧
  (g.board.map Prod.fst).Nodup ∧
  (g.whitePieces ++ g.blackPieces).Nodup

instance (g : GameState) : Decidable (wf g) := by
  unfold wf
  infer_instance

/-- Result state of a successful step (error states keep the state carried
by the exception), used to chain concrete executions in theorems. -/
def stepState (r : Except (MErr × GameState) GameState) : GameState :=
  match r with
  | .ok g => g
  | .error p => p.2

/-- Whether a move call returned normally. -/
def isOkB (r : Except (MErr × GameState) GameState) : Bool :=
  match r with
  | .ok _ => true
  | .error _ => false

/-- The error kind of a failed call, if any. -/
def errOf (r : Except (MErr × GameState) GameState) : Option MErr :=
  match r with
  | .error p => some p.1
  | .ok _ => none

/-- Result state of `handle_enpassant` (ok or carried by the exception). -/
def epState (r : Except (MErr × GameState) (GameState × Nat)) : GameState :=
  match r with
  | .ok p => p.1
  | .error p => p.2

/-- The side conditions under which the amended claim C1 holds: any piece
the move takes (the destination occupant, or for en passant the piece on
the capture-rank square behind the destination, whose square must itself
be empty) belongs to the opponent and is not a King.  Castling and moves
to an empty non-en-passant square carry no condition. -/
def goodMoveB (g : GameState) : MoveInput → Bool
  | .castleIn _ => true
  | .stdIn _ e =>
    if some e = g.enpassants then
      decide (boardGet g e = none) &&
        (match boardGet g ⟨e.file, if g.activePlayer = Color.white then (5 : Int) else 4⟩ with
         | some o =>
           match heapGet g o with
           | some od => decide (¬ od.color = g.activePlayer) && decide (¬ od.kind = Kind.king)
           | none => true
         | none => true)
    else
      match boardGet g e with
      | some cid =>
        match heapGet g cid with
        | some cdo => decide (¬ cdo.color = g.activePlayer) && decide (¬ cdo.kind = Kind.king)
        | none => true
      | none => true

/-! Claim-side definitions, written from the spec's words, for comparison
with the definitions translated from the source. -/

/-- Scanned king-path squares and strictly-between squares of the two
castle sides, per the claim: kingside between e and h: f, g; queenside
between e and a: d, c, b.  King path: start, transit, destination. -/
def castleBetween (rank : Int) (kingside : Bool) : List Square :=
  if kingside then [⟨5, rank⟩, ⟨6, rank⟩] else [⟨3, rank⟩, ⟨2, rank⟩, ⟨1, rank⟩]

/-- King start, transit and destination squares of a castle side. -/
def castleKingPath (rank : Int) (kingside : Bool) : List Square :=
  if kingside then [⟨4, rank⟩, ⟨5, rank⟩, ⟨6, rank⟩] else [⟨4, rank⟩, ⟨3, rank⟩, ⟨2, rank⟩]

/-- The castling-legality condition exactly as claim C3 states it: the King
and the relevant Rook both never moved, all squares strictly between them
empty, and the King's start, transit and destination squares not attacked
by any opposing piece. -/
def castle_claim_conds (fuel : Nat) (g : GameState) (kingside : Bool) : Bool :=
  let rank : Int := if g.activePlayer = .white then 1 else 8
  let enemy := antiplayer g
  let rookSq : Square := if kingside then ⟨7, rank⟩ else ⟨0, rank⟩
  occUnmoved g ⟨4, rank⟩ && occUnmoved g rookSq &&
    (castleBetween rank kingside).all (fun sq => boardGet g sq = none) &&
    (castleKingPath rank kingside).all (fun sq => noCapturers fuel g sq enemy)

/-- The checkmate test exactly as claim C7 states it: zero legal
destinations among the eight adjacent squares, where off-board squares and
squares occupied by a same-color piece are excluded, and each remaining
candidate is tested with `can_move_to`. -/
def is_checkmate_claim (fuel : Nat) (d : PieceData) (g : GameState) : Bool :=
  match d.loc with
  | none => true
  | some l =>
    let offs : List (Int × Int) :=
      [(-1, -1), (0, -1), (1, -1), (-1, 0), (1, 0), (-1, 1), (0, 1), (1, 1)]
    offs.all (fun o =>
      let t : Square := ⟨l.file + o.1, l.rank + o.2⟩
      let sameColorOcc : Bool :=
        match obsBoard g t with
        | some od => od.color = d.color
        | none => false
      if ¬ t.isValid then true
      else if sameColorOcc then true
      else ¬ can_move_to fuel d t g)

/-- Claim C7's detection entry point with the claim's exclusion rule. -/
def check_for_checkmate_claim (fuel : Nat) (g : GameState) : Bool :=
  match (piecesOf g (antiplayer g)).filter (fun i =>
      match heapGet g i with
      | some d => d.kind = .king
      | none => false) with
  | [] => false
  | k :: _ =>
    match heapGet g k with
    | some d => is_checkmate_claim fuel d g
    | none => false

/-- Pawn capture eligibility exactly as claim C9 states it: one square
diagonally forward-left or forward-right in the pawn's direction, or a
destination equal to the recorded en-passant target square. -/
def pawn_can_take_claim (d : PieceData) (loc : Square) (g : GameState) : Bool :=
  match d.loc with
  | none => false
  | some l =>
    let dir : Int := if d.color = .white then 1 else -1
    decide ((loc.file = l.file + 1 ∨ loc.file = l.file - 1) ∧ loc.rank = l.rank + dir) ||
      decide (g.enpassants = some loc)

/-- Checkmate per the code's actual rule, stated square-wise (claim C7
amended): every adjacent on-board square fails `can_move_to`; destination
occupancy, of either color, is not examined. -/
def is_checkmate_quantified (fuel : Nat) (d : PieceData) (g : GameState) : Prop :=
  ∀ o ∈ [((-1 : Int), (-1 : Int)), (0, -1), (1, -1), (-1, 0), (1, 0), (-1, 1), (0, 1), (1, 1)],
    ∀ l, d.loc = some l →
      (Square.mk (l.file + o.1) (l.rank + o.2)).isValid = true →
      can_move_to fuel d ⟨l.file + o.1, l.rank + o.2⟩ g = false

/-! Concrete states used by the counterexample and failing-input theorems. -/

/-- White Rook a1, White Pawn a2, White King e1, Black King e8; White to
move.  The Rook "capturing" its own Pawn on a2 is accepted by the engine. -/
def stSame : GameState :=
  { heap := [(0, ⟨.rook, .white, some ⟨0, 1⟩, false⟩), (1, ⟨.pawn, .white, some ⟨0, 2⟩, false⟩),
             (2, ⟨.king, .white, some ⟨4, 1⟩, false⟩), (3, ⟨.king, .black, some ⟨4, 8⟩, false⟩)],
    nextId := 4,
    board := [(⟨0, 1⟩, 0), (⟨0, 2⟩, 1), (⟨4, 1⟩, 2), (⟨4, 8⟩, 3)],
    whitePieces := [0, 1, 2], blackPieces := [3],
    capturedWhite := [], capturedBlack := [],
    moves := [], activePlayer := .white, turnNumber := 1, halfmove := 0,
    enpassants := none, boardEnpassants := [] }

/-- White Pawn e5 and Knight b1, Black Pawn d7 and Knight b8; Black to
move.  Used to trace the life of the en-passant target across plies. -/
def stEnpTrace : GameState :=
  { heap := [(0, ⟨.pawn, .white, some ⟨4, 5⟩, true⟩), (1, ⟨.knight, .white, some ⟨1, 1⟩, false⟩),
             (2, ⟨.pawn, .black, some ⟨3, 7⟩, false⟩), (3, ⟨.knight, .black, some ⟨1, 8⟩, false⟩)],
    nextId := 4,
    board := [(⟨4, 5⟩, 0), (⟨1, 1⟩, 1), (⟨3, 7⟩, 2), (⟨1, 8⟩, 3)],
    whitePieces := [0, 1], blackPieces := [2, 3],
    capturedWhite := [], capturedBlack := [],
    moves := [], activePlayer := .black, turnNumber := 1, halfmove := 0,
    enpassants := none, boardEnpassants := [] }

/-- After Black plays d7-d5 in `stEnpTrace` (target becomes d6). -/
def stEnpTrace1 : GameState := stepState (move 4 stEnpTrace (.stdIn ⟨3, 7⟩ ⟨3, 5⟩))

/-- After White then plays the Knight b1-c3. -/
def stEnpTrace2 : GameState := stepState (move 4 stEnpTrace1 (.stdIn ⟨1, 1⟩ ⟨2, 3⟩))

/-- After Black then plays the Knight b8-c6. -/
def stEnpTrace3 : GameState := stepState (move 4 stEnpTrace2 (.stdIn ⟨1, 8⟩ ⟨2, 6⟩))

/-- Black Pawn e7 alone with a White Rook a1; White to move.  Feeding the
Black pawn's square to `Game.move` exercises the wrong-turn path. -/
def stWrongTurn : GameState :=
  { heap := [(0, ⟨.pawn, .black, some ⟨4, 7⟩, false⟩), (1, ⟨.rook, .white, some ⟨0, 1⟩, false⟩)],
    nextId := 2,
    board := [(⟨4, 7⟩, 0), (⟨0, 1⟩, 1)],
    whitePieces := [1], blackPieces := [0],
    capturedWhite := [], capturedBlack := [],
    moves := [], activePlayer := .white, turnNumber := 1, halfmove := 0,
    enpassants := none, boardEnpassants := [] }

/-- A single White Pawn on e2; White to move.  Entry state of the rollback
counterexample. -/
def stScope : GameState :=
  { heap := [(0, ⟨.pawn, .white, some ⟨4, 2⟩, false⟩)], nextId := 1,
    board := [(⟨4, 2⟩, 0)],
    whitePieces := [0], blackPieces := [],
    capturedWhite := [], capturedBlack := [],
    moves := [], activePlayer := .white, turnNumber := 1, halfmove := 0,
    enpassants := none, boardEnpassants := [] }

/-- White King e1, Rook a1 and Knight b1 (all unmoved), Black King h8;
White to move.  Queenside castling with b1 occupied. -/
def stCastleB1 : GameState :=
  { heap := [(0, ⟨.king, .white, some ⟨4, 1⟩, false⟩), (1, ⟨.rook, .white, some ⟨0, 1⟩, false⟩),
             (2, ⟨.knight, .white, some ⟨1, 1⟩, false⟩), (3, ⟨.king, .black, some ⟨7, 8⟩, false⟩)],
    nextId := 4,
    board := [(⟨4, 1⟩, 0), (⟨0, 1⟩, 1), (⟨1, 1⟩, 2), (⟨7, 8⟩, 3)],
    whitePieces := [0, 1, 2], blackPieces := [3],
    capturedWhite := [], capturedBlack := [],
    moves := [], activePlayer := .white, turnNumber := 1, halfmove := 0,
    enpassants := none, boardEnpassants := [] }

/-- Black King a8 with its own Rook on b8, against a lone White Rook h7;
White to move.  Every empty neighbour of the Black King is attacked; its
only `can_move_to` "escape" is its own Rook's square b8. -/
def stOwnRook : GameState :=
  { heap := [(0, ⟨.king, .black, some ⟨0, 8⟩, false⟩), (1, ⟨.rook, .black, some ⟨1, 8⟩, false⟩),
             (2, ⟨.rook, .white, some ⟨7, 7⟩, false⟩)],
    nextId := 3,
    board := [(⟨0, 8⟩, 0), (⟨1, 8⟩, 1), (⟨7, 7⟩, 2)],
    whitePieces := [2], blackPieces := [0, 1],
    capturedWhite := [], capturedBlack := [],
    moves := [], activePlayer := .white, turnNumber := 1, halfmove := 0,
    enpassants := none, boardEnpassants := [] }

/-- Scenario D: Black King a8 alone versus White Queen b6 and White King
c6 (registry order Queen before King, as the repository's own test builds
it); White to move. -/
def stScenarioD : GameState :=
  { heap := [(0, ⟨.queen, .white, some ⟨1, 6⟩, false⟩), (1, ⟨.king, .white, some ⟨2, 6⟩, false⟩),
             (2, ⟨.king, .black, some ⟨0, 8⟩, false⟩)],
    nextId := 3,
    board := [(⟨1, 6⟩, 0), (⟨2, 6⟩, 1), (⟨0, 8⟩, 2)],
    whitePieces := [0, 1], blackPieces := [2],
    capturedWhite := [], capturedBlack := [],
    moves := [], activePlayer := .white, turnNumber := 1, halfmove := 0,
    enpassants := none, boardEnpassants := [] }

/-- A lone White Pawn a2 while the en-passant target d6 is recorded and d6
is empty. -/
def stFarPawn : GameState :=
  { heap := [(0, ⟨.pawn, .white, some ⟨0, 2⟩, false⟩)], nextId := 1,
    board := [(⟨0, 2⟩, 0)],
    whitePieces := [0], blackPieces := [],
    capturedWhite := [], capturedBlack := [],
    moves := [], activePlayer := .white, turnNumber := 1, halfmove := 0,
    enpassants := some ⟨3, 6⟩, boardEnpassants := [] }

/-- Scenario B: White Pawn e5, Black Pawn d7; Black to move. -/
def stScenB : GameState :=
  { heap := [(0, ⟨.pawn, .white, some ⟨4, 5⟩, true⟩), (1, ⟨.pawn, .black, some ⟨3, 7⟩, false⟩)],
    nextId := 2,
    board := [(⟨4, 5⟩, 0), (⟨3, 7⟩, 1)],
    whitePieces := [0], blackPieces := [1],
    capturedWhite := [], capturedBlack := [],
    moves := [], activePlayer := .black, turnNumber := 1, halfmove := 0,
    enpassants := none, boardEnpassants := [] }

/-- After Black's d7-d5 in scenario B. -/
def stScenB1 : GameState := stepState (move 4 stScenB (.stdIn ⟨3, 7⟩ ⟨3, 5⟩))

/-- After White's e5xd6 en passant in scenario B. -/
def stScenB2 : GameState := stepState (move 4 stScenB1 (.stdIn ⟨4, 5⟩ ⟨3, 6⟩))

/-- Scenario B with Kings on their home squares (White Pawn e5 and King
e1, Black Pawn d7 and King e8; Black to move), so that the invariant
holds; witness position of the amended claim C8. -/
def stScenBK : GameState :=
  { heap := [(0, ⟨.pawn, .white, some ⟨4, 5⟩, true⟩), (1, ⟨.pawn, .black, some ⟨3, 7⟩, false⟩),
             (2, ⟨.king, .white, some ⟨4, 1⟩, false⟩), (3, ⟨.king, .black, some ⟨4, 8⟩, false⟩)],
    nextId := 4,
    board := [(⟨4, 5⟩, 0), (⟨3, 7⟩, 1), (⟨4, 1⟩, 2), (⟨4, 8⟩, 3)],
    whitePieces := [0, 2], blackPieces := [1, 3],
    capturedWhite := [], capturedBlack := [],
    moves := [], activePlayer := .black, turnNumber := 1, halfmove := 0,
    enpassants := none, boardEnpassants := [] }

/-- After Black's d7-d5 in the scenario with Kings (target d6 recorded). -/
def stScenBK1 : GameState := stepState (move 4 stScenBK (.stdIn ⟨3, 7⟩ ⟨3, 5⟩))

/-! Association-list lemmas. -/

section AssocListLemmas

variable {α : Type} {β : Type} [DecidableEq α]

@[simp] theorem alookup_nil (k : α) : alookup k ([] : List (α × β)) = none := rfl

theorem alookup_cons (k k' : α) (v : β) (t : List (α × β)) :
    alookup k ((k', v) :: t) = if k' = k then some v else alookup k t := rfl

@[simp] theorem alookup_aset_self (k : α) (v : β) (l : List (α × β)) :
    alookup k (aset k v l) = some v := by
  induction l with
  | nil => simp [aset, alookup]
  | cons h t ih =>
    obtain ⟨k', v'⟩ := h
    by_cases hk : k' = k <;> simp [aset, alookup, hk, ih]

@[simp] theorem alookup_aset_ne (k j : α) (v : β) (l : List (α × β)) (h : j ≠ k) :
    alookup j (aset k v l) = alookup j l := by
  have hkj : ¬ k = j := fun hh => h hh.symm
  induction l with
  | nil => simp [aset, alookup, hkj]
  | cons hd t ih =>
    obtain ⟨k', v'⟩ := hd
    by_cases hk : k' = k
    · subst hk
      simp [aset, alookup, hkj]
    · simp only [aset, if_neg hk, alookup]
      by_cases hj : k' = j <;> simp [hj, ih]

/-- A key absent from the keys is not found. -/
theorem alookup_eq_none_of_not_mem (k : α) (l : List (α × β))
    (h : k ∉ l.map Prod.fst) : alookup k l = none := by
  induction l with
  | nil => rfl
  | cons hd t ih =>
    obtain ⟨k', v'⟩ := hd
    simp only [List.map_cons, List.mem_cons, not_or] at h
    simp only [alookup, if_neg (fun hh : k' = k => h.1 hh.symm)]
    exact ih h.2

@[simp] theorem alookup_aerase_self (k : α) (l : List (α × β))
    (hnd : (l.map Prod.fst).Nodup) : alookup k (aerase k l) = none := by
  induction l with
  | nil => simp [aerase]
  | cons hd t ih =>
    obtain ⟨k', v'⟩ := hd
    simp only [List.map_cons, List.nodup_cons] at hnd
    by_cases hk : k' = k
    · subst hk
      simp only [aerase, if_pos rfl]
      exact alookup_eq_none_of_not_mem _ _ hnd.1
    · simp only [aerase, if_neg hk, alookup, if_neg hk]
      exact ih hnd.2

@[simp] theorem alookup_aerase_ne (k j : α) (l : List (α × β)) (h : j ≠ k) :
    alookup j (aerase k l) = alookup j l := by
  have hkj : ¬ k = j := fun hh => h hh.symm
  induction l with
  | nil => simp [aerase]
  | cons hd t ih =>
    obtain ⟨k', v'⟩ := hd
    by_cases hk : k' = k
    · subst hk
      simp [aerase, alookup, hkj]
    · simp only [aerase, if_neg hk, alookup]
      by_cases hj : k' = j <;> simp [hj, ih]

theorem aset_map_fst (k : α) (v : β) (l : List (α × β)) :
    (aset k v l).map Prod.fst = if k ∈ l.map Prod.fst then l.map Prod.fst
      else l.map Prod.fst ++ [k] := by
  induction l with
  | nil => simp [aset]
  | cons hd t ih =>
    obtain ⟨k', v'⟩ := hd
    by_cases hk : k' = k
    · subst hk
      simp [aset]
    · have hkk : ¬ k = k' := fun hh => hk hh.symm
      simp only [aset, if_neg hk, List.map_cons, ih]
      by_cases hm : k ∈ t.map Prod.fst <;>
        simp [hm, List.mem_cons, hk, hkk]

theorem aerase_map_fst_subset (k : α) (l : List (α × β)) :
    ∀ j ∈ (aerase k l).map Prod.fst, j ∈ l.map Prod.fst := by
  induction l with
  | nil => simp [aerase]
  | cons hd t ih =>
    obtain ⟨k', v'⟩ := hd
    by_cases hk : k' = k
    · subst hk
      intro j hj
      simp only [aerase, if_pos rfl] at hj
      exact List.mem_cons_of_mem _ hj
    · intro j hj
      simp only [aerase, if_neg hk, List.map_cons, List.mem_cons] at hj
      rcases hj with hj | hj
      · simp [hj]
      · exact List.mem_cons_of_mem _ (ih j hj)

theorem aerase_map_fst_nodup (k : α) (l : List (α × β))
    (h : (l.map Prod.fst).Nodup) : ((aerase k l).map Prod.fst).Nodup := by
  induction l with
  | nil => simp [aerase]
  | cons hd t ih =>
    obtain ⟨k', v'⟩ := hd
    simp only [List.map_cons, List.nodup_cons] at h
    by_cases hk : k' = k
    · subst hk
      simpa [aerase] using h.2
    · simp only [aerase, if_neg hk, List.map_cons, List.nodup_cons]
      exact ⟨fun hm => h.1 (aerase_map_fst_subset k t _ hm), ih h.2⟩

end AssocListLemmas

/-! Lemmas for the state primitives. -/

theorem alookup_amodify {α β : Type} [DecidableEq α] (k : α) (f : β → β) (l : List (α × β)) (j : α) :
    alookup j (amodify k f l) = if j = k then (alookup k l).map f else alookup j l := by
  induction l with
  | nil => by_cases h : j = k <;> simp [amodify, h]
  | cons hd t ih =>
    obtain ⟨k', v⟩ := hd
    by_cases hk : k' = k
    · subst hk
      by_cases hj : k' = j
      · subst hj
        simp [amodify, alookup]
      · have hji : ¬ j = k' := fun hh => hj hh.symm
        simp [amodify, alookup, hj, hji, ih]
    · by_cases hj : k' = j
      · have hjk : ¬ j = k := fun hh => hk (hj.trans hh)
        simp [amodify, alookup, hk, hj, hjk]
      · simp [amodify, alookup, hk, hj, ih]

@[simp] theorem heapGet_heapModify (g : GameState) (i : Nat) (f : PieceData → PieceData) (j : Nat) :
    heapGet (heapModify g i f) j = if j = i then (heapGet g i).map f else heapGet g j := by
  simp [heapGet, heapModify, alookup_amodify]

@[simp] theorem boardGet_boardSet_some_self (g : GameState) (s : Square) (i : Nat) :
    boardGet (boardSet g s (some i)) s = some i := by
  simp [boardGet, boardSet, heapSetLoc, heapModify]

@[simp] theorem boardGet_boardSet_some_ne (g : GameState) (s t : Square) (i : Nat) (h : t ≠ s) :
    boardGet (boardSet g s (some i)) t = boardGet g t := by
  simp [boardGet, boardSet, heapSetLoc, heapModify, alookup_aset_ne _ _ _ _ h]

@[simp] theorem boardGet_boardSet_none_ne (g : GameState) (s t : Square) (h : t ≠ s) :
    boardGet (boardSet g s none) t = boardGet g t := by
  simp [boardGet, boardSet, alookup_aerase_ne _ _ _ h]

theorem boardGet_boardSet_none_self (g : GameState) (s : Square)
    (hnd : (g.board.map Prod.fst).Nodup) :
    boardGet (boardSet g s none) s = none := by
  simp [boardGet, boardSet, alookup_aerase_self _ _ hnd]

@[simp] theorem heapGet_boardSet_none (g : GameState) (s : Square) (j : Nat) :
    heapGet (boardSet g s none) j = heapGet g j := rfl

theorem heapGet_boardSet_some (g : GameState) (s : Square) (i j : Nat) :
    heapGet (boardSet g s (some i)) j =
      if j = i then (heapGet g i).map (fun d => { d with loc := some s }) else heapGet g j := by
  simp [boardSet, heapSetLoc, heapGet, heapModify, alookup_amodify]

theorem findLastLoc_eq_foldl (g : GameState) (c : Color) (s : Square) :
    findLastLoc g c s = (piecesOf g c).foldl (flStep g s) none := rfl

theorem flStep_no_match (g : GameState) (s : Square) (l : List Nat) (acc : Option Nat)
    (h : ∀ i ∈ l, ∀ d, heapGet g i = some d → d.loc ≠ some s) :
    l.foldl (flStep g s) acc = acc := by
  induction l generalizing acc with
  | nil => rfl
  | cons i t ih =>
    have hstep : flStep g s acc i = acc := by
      unfold flStep
      cases hg : heapGet g i with
      | none => rfl
      | some d => simp [h i (by simp) d hg]
    rw [List.foldl_cons, hstep]
    exact ih acc (fun j hj => h j (by simp [hj]))

theorem flStep_match (g : GameState) (s : Square) (l : List Nat) (acc : Option Nat)
    (h : ∃ i ∈ l, ∃ d, heapGet g i = some d ∧ d.loc = some s) :
    ∃ pp, l.foldl (flStep g s) acc = some pp ∧ pp ∈ l ∧
      ∃ d, heapGet g pp = some d ∧ d.loc = some s := by
  induction l generalizing acc with
  | nil => simp at h
  | cons i t ih =>
    rw [List.foldl_cons]
    by_cases ht : ∃ j ∈ t, ∃ d, heapGet g j = some d ∧ d.loc = some s
    · obtain ⟨pp, hpp, hmem, hd⟩ := ih (flStep g s acc i) ht
      exact ⟨pp, hpp, by simp [hmem], hd⟩
    · obtain ⟨j, hj, d, hgd, hds⟩ := h
      have hji : j = i := by
        rcases List.mem_cons.mp hj with hh | hh
        · exact hh
        · exact absurd ⟨j, hh, d, hgd, hds⟩ ht
      subst hji
      have hstep : flStep g s acc j = some j := by
        unfold flStep
        simp [hgd, hds]
      rw [hstep]
      rw [flStep_no_match g s t (some j) (by
        intro x hx dx hdx hloc
        exact ht ⟨x, hx, dx, hdx, hloc⟩)]
      exact ⟨j, rfl, by simp, d, hgd, hds⟩

theorem findLastLoc_some (g : GameState) (c : Color) (s : Square)
    (h : ∃ i ∈ piecesOf g c, ∃ d, heapGet g i = some d ∧ d.loc = some s) :
    ∃ pp, findLastLoc g c s = some pp ∧ pp ∈ piecesOf g c ∧
      ∃ d, heapGet g pp = some d ∧ d.loc = some s := by
  rw [findLastLoc_eq_foldl]
  exact flStep_match g s _ none h

theorem removeFirstEq_length_le (g : GameState) (cd : PieceData) (l : List Nat) :
    (removeFirstEq g cd l).length ≤ l.length := by
  induction l with
  | nil => simp [removeFirstEq]
  | cons i t ih =>
    by_cases h : pieceEqPy g i cd = true
    · simp [removeFirstEq, h]
    · rw [removeFirstEq, if_neg h, List.length_cons, List.length_cons]
      omega


/-! Helper lemmas about the state primitives and the castle path. -/

theorem alookup_mem {α β : Type} [DecidableEq α] {k : α} {v : β} {l : List (α × β)}
    (h : alookup k l = some v) : (k, v) ∈ l := by
  induction l with
  | nil => simp [alookup] at h
  | cons hd t ih =>
    obtain ⟨k', v'⟩ := hd
    by_cases hk : k' = k
    · subst hk
      rw [alookup_cons, if_pos rfl] at h
      obtain rfl : v' = v := Option.some.inj h
      simp
    · rw [alookup_cons, if_neg hk] at h
      exact List.mem_cons_of_mem _ (ih h)

@[simp] theorem piecesOf_heapModify (g : GameState) (i : Nat) (f : PieceData → PieceData) (c : Color) :
    piecesOf (heapModify g i f) c = piecesOf g c := by cases c <;> rfl

@[simp] theorem piecesOf_boardSet (g : GameState) (s : Square) (v : Option Nat) (c : Color) :
    piecesOf (boardSet g s v) c = piecesOf g c := by cases v <;> cases c <;> rfl

@[simp] theorem activePlayer_heapModify (g : GameState) (i : Nat) (f : PieceData → PieceData) :
    (heapModify g i f).activePlayer = g.activePlayer := rfl

@[simp] theorem activePlayer_boardSet (g : GameState) (s : Square) (v : Option Nat) :
    (boardSet g s v).activePlayer = g.activePlayer := by cases v <;> rfl

@[simp] theorem boardGet_heapModify (g : GameState) (i : Nat) (f : PieceData → PieceData) (t : Square) :
    boardGet (heapModify g i f) t = boardGet g t := rfl

theorem regPieceOk_spec {g : GameState} {c : Color} {i : Nat} (h : regPieceOk g c i = true) :
    ∃ d, heapGet g i = some d ∧ d.color = c ∧ ∃ sq, d.loc = some sq ∧ boardGet g sq = some i := by
  unfold regPieceOk at h
  cases hg : heapGet g i with
  | none => rw [hg] at h; simp at h
  | some d =>
    rw [hg] at h
    simp only at h
    cases hl : d.loc with
    | none => rw [hl] at h; simp at h
    | some sq =>
      rw [hl] at h
      simp only [Bool.and_eq_true, decide_eq_true_eq] at h
      exact ⟨d, rfl, h.1, sq, hl, h.2⟩

theorem occLocOk_spec {g : GameState} {i : Nat} {sq : Square} (h : occLocOk g i sq = true) :
    ∃ d, heapGet g i = some d ∧ d.loc = some sq := by
  unfold occLocOk at h
  cases hg : heapGet g i with
  | none => rw [hg] at h; simp at h
  | some d =>
    rw [hg] at h
    simp only [decide_eq_true_eq] at h
    exact ⟨d, rfl, h⟩

theorem occUnmoved_spec {g : GameState} {sq : Square} (h : occUnmoved g sq = true) :
    ∃ i d, boardGet g sq = some i ∧ heapGet g i = some d ∧ d.hasMoved = false := by
  unfold occUnmoved obsBoard at h
  cases hb : boardGet g sq with
  | none => rw [hb] at h; simp at h
  | some i =>
    rw [hb] at h
    simp only [Option.bind_some, Option.some_bind] at h
    cases hg : heapGet g i with
    | none => rw [hg] at h; simp at h
    | some d =>
      rw [hg] at h
      simp only [decide_eq_true_eq, Bool.not_eq_true'] at h
      exact ⟨i, d, rfl, hg, by simpa using h⟩

theorem inv_reg {g : GameState} (hinv : inv g) (c : Color) {i : Nat}
    (h : i ∈ piecesOf g c) : regPieceOk g c i = true := by
  cases c
  · exact hinv.2.1 i h
  · exact hinv.2.2.1 i h

theorem inv_board {g : GameState} (hinv : inv g) {sq : Square} {i : Nat}
    (h : boardGet g sq = some i) : occLocOk g i sq = true :=
  hinv.1 (sq, i) (alookup_mem h)

theorem force_move_ok (g : GameState) (s e : Square) (pp : Nat)
    (hfl : findLastLoc g g.activePlayer s = some pp) :
    force_move g s e = .ok (boardSet (boardSet (heapSetLoc g pp (some e)) s none) e
      (boardGet (heapSetLoc g pp (some e)) s)) := by
  simp [force_move, hfl]

@[simp] theorem activePlayer_heapSetLoc (g : GameState) (i : Nat) (v : Option Square) :
    (heapSetLoc g i v).activePlayer = g.activePlayer := rfl

@[simp] theorem piecesOf_heapSetLoc (g : GameState) (i : Nat) (v : Option Square) (c : Color) :
    piecesOf (heapSetLoc g i v) c = piecesOf g c := by cases c <;> rfl

@[simp] theorem boardGet_heapSetLoc (g : GameState) (i : Nat) (v : Option Square) (t : Square) :
    boardGet (heapSetLoc g i v) t = boardGet g t := rfl

theorem heapGet_heapSetLoc (g : GameState) (i : Nat) (v : Option Square) (j : Nat) :
    heapGet (heapSetLoc g i v) j =
      if j = i then (heapGet g i).map (fun d => { d with loc := v }) else heapGet g j := by
  simp [heapSetLoc]

theorem castle_chain_ok (g : GameState) (eSq rSq dSq tSq : Square)
    (ki ri : Nat) (kd rd : PieceData)
    (hde : dSq ≠ eSq) (hdr : dSq ≠ rSq) (hdt : dSq ≠ tSq)
    (hte : tSq ≠ eSq) (htr : tSq ≠ rSq) (hre : rSq ≠ eSq)
    (hbk : boardGet g eSq = some ki) (hgk : heapGet g ki = some kd)
    (hkloc : kd.loc = some eSq) (hkreg : ki ∈ piecesOf g g.activePlayer)
    (hbr : boardGet g rSq = some ri) (hgr : heapGet g ri = some rd)
    (hrloc : rd.loc = some rSq) (hrreg : ri ∈ piecesOf g g.activePlayer) :
    ∃ g', (force_move g eSq dSq).bind
      (fun g1 => (force_move g1 rSq tSq).bind
        (fun g2 => (setHasMovedAt g2 dSq).bind
          (fun g3 => setHasMovedAt g3 tSq))) = .ok g' := by
  have hrki : ri ≠ ki := by
    intro hh
    rw [hh, hgk] at hgr
    have h1 : kd = rd := Option.some.inj hgr
    rw [← h1, hkloc] at hrloc
    exact hre (Option.some.inj hrloc).symm
  obtain ⟨pp, hfl1, hppmem, pd, hgpp, hppl⟩ :=
    findLastLoc_some g g.activePlayer eSq ⟨ki, hkreg, kd, hgk, hkloc⟩
  have hrpp : ri ≠ pp := by
    intro hh
    rw [hh, hgpp] at hgr
    have h1 : pd = rd := Option.some.inj hgr
    rw [← h1, hppl] at hrloc
    exact hre (Option.some.inj hrloc).symm
  rw [force_move_ok g eSq dSq pp hfl1]
  have hpc1 : boardGet (heapSetLoc g pp (some dSq)) eSq = some ki := by
    simp [heapSetLoc, hbk]
  rw [hpc1]
  simp only [Except.bind]
  set gA := boardSet (boardSet (heapSetLoc g pp (some dSq)) eSq none) dSq (some ki) with hgA
  have hAactive : gA.activePlayer = g.activePlayer := by simp [hgA]
  have hAreg : piecesOf gA gA.activePlayer = piecesOf g g.activePlayer := by
    rw [hAactive]
    simp [hgA]
  have hAri : heapGet gA ri = some rd := by
    rw [hgA]
    rw [heapGet_boardSet_some, if_neg hrki]
    rw [heapGet_boardSet_none]
    simp [heapSetLoc, hrpp, hgr]
  obtain ⟨pr, hfl2, hprmem, qd, hgqd, hqdl⟩ :=
    findLastLoc_some gA gA.activePlayer rSq (by
      rw [hAreg]
      exact ⟨ri, hrreg, rd, hAri, hrloc⟩)
  rw [force_move_ok gA rSq tSq pr hfl2]
  have hAbr : boardGet gA rSq = some ri := by
    rw [hgA]
    rw [boardGet_boardSet_some_ne _ _ _ _ (fun hh => hdr hh.symm)]
    rw [boardGet_boardSet_none_ne _ _ _ hre]
    simp [heapSetLoc, hbr]
  rw [boardGet_heapSetLoc, hAbr]
  simp only [Except.bind]
  set gB := boardSet (boardSet (heapSetLoc gA pr (some tSq)) rSq none) tSq (some ri) with hgB
  have hBdest : boardGet gB dSq = some ki := by
    rw [hgB]
    rw [boardGet_boardSet_some_ne _ _ _ _ hdt]
    rw [boardGet_boardSet_none_ne _ _ _ hdr]
    rw [show boardGet (heapSetLoc gA pr (some tSq)) dSq = boardGet gA dSq from rfl]
    rw [hgA]
    exact boardGet_boardSet_some_self _ _ _
  rw [setHasMovedAt, hBdest]
  simp only [Except.bind]
  have hCtr : boardGet (heapModify gB ki (fun d => { d with hasMoved := true })) tSq = some ri := by
    rw [boardGet_heapModify, hgB]
    exact boardGet_boardSet_some_self _ _ _
  rw [setHasMovedAt, hCtr]
  exact ⟨_, rfl⟩

theorem castle_gate_iff (fuel : Nat) (g : GameState) (ks : Bool) :
    (if ks then (can_castle fuel g g.activePlayer).kingside
     else (can_castle fuel g g.activePlayer).queenside) = true ↔
      (occUnmoved g ⟨4, castleRank g⟩ = true ∧ occUnmoved g (castleRookSq g ks) = true ∧
       (∀ sq ∈ castleBetweenCode (castleRank g) ks, boardGet g sq = none) ∧
       (∀ sq ∈ castleKingPath (castleRank g) ks, noCapturers fuel g sq (antiplayer g) = true)) := by
  cases hap : g.activePlayer <;> cases ks <;>
    simp [can_castle, castleRank, castleRookSq, castleBetweenCode, castleKingPath, hap,
      antiplayer, anticolor, apply_ite] <;>
    by_cases h1 : occUnmoved g ⟨4, if g.activePlayer = Color.white then 1 else 8⟩ = true <;>
    simp_all <;> tauto


/-! Counterexample and failing-input theorems for the claims. -/

/-- C1 counterexample: from a state satisfying the invariant (White Rook
a1, White Pawn a2, Kings e1/e8), the call `move(a1, a2)` returns
successfully, yet afterwards the invariant is broken: the engine accepts
the same-color "capture", removes the Rook (the first registry piece whose
color and location match the captured Pawn) from the live registry while
it still occupies a2, and leaves the Pawn in the registry with no
location. -/
theorem C1_counterexample :
    inv stSame ∧ wf stSame ∧
    isOkB (move 4 stSame (.stdIn ⟨0, 1⟩ ⟨0, 2⟩)) = true ∧
    ¬ inv (stepState (move 4 stSame (.stdIn ⟨0, 1⟩ ⟨0, 2⟩))) := by decide

/-- C2: the claimed rollback never happens.  With a lone White Pawn e2
(`stScope`) and the single in-scope move e2-e4, exiting the `TempMove`
scope re-points only the two live-piece registries at the snapshot (their
dereferenced piece data equal the entry registries' data) and restores
nothing else, because `__exit__` — entered with the Game object, which has
no `squares` attribute — raises `AttributeError` right after the registry
lines: the board still has the pawn on e4 and none on e2, the in-scope
move-log entry is kept rather than discarded, and the en-passant target,
the half-move counter and the active player keep their in-scope values,
each differing from its snapshotted entry value. -/
theorem C2_exit_restores_registries_only :
    (temp_exit stScope (run_scope 4 stScope [.stdIn ⟨4, 2⟩ ⟨4, 4⟩])).whitePieces.map
        (heapGet (temp_exit stScope (run_scope 4 stScope [.stdIn ⟨4, 2⟩ ⟨4, 4⟩]))) =
      stScope.whitePieces.map (heapGet stScope) ∧
    (temp_exit stScope (run_scope 4 stScope [.stdIn ⟨4, 2⟩ ⟨4, 4⟩])).blackPieces = [] ∧
    boardGet stScope ⟨4, 2⟩ = some 0 ∧
    boardGet (temp_exit stScope (run_scope 4 stScope [.stdIn ⟨4, 2⟩ ⟨4, 4⟩])) ⟨4, 2⟩
      = none ∧
    boardGet (temp_exit stScope (run_scope 4 stScope [.stdIn ⟨4, 2⟩ ⟨4, 4⟩])) ⟨4, 4⟩
      = some 0 ∧
    (temp_exit stScope (run_scope 4 stScope [.stdIn ⟨4, 2⟩ ⟨4, 4⟩])).moves.length = 1 ∧
    stScope.moves = [] ∧
    (temp_exit stScope (run_scope 4 stScope [.stdIn ⟨4, 2⟩ ⟨4, 4⟩])).enpassants
      = some ⟨4, 3⟩ ∧
    stScope.enpassants = none ∧
    (temp_exit stScope (run_scope 4 stScope [.stdIn ⟨4, 2⟩ ⟨4, 4⟩])).halfmove = 1 ∧
    stScope.halfmove = 0 ∧
    (temp_exit stScope (run_scope 4 stScope [.stdIn ⟨4, 2⟩ ⟨4, 4⟩])).activePlayer
      = Color.black ∧
    stScope.activePlayer = Color.white := by decide

/-- C3 counterexample: White King e1, Rook a1 and Knight b1 all unmoved,
Black King far away.  The claimed legality condition is false (b1, strictly
between King and Rook, is occupied), yet `O-O-O` succeeds and the King
lands on c1: `Game.can_castle` never examines the b-file square. -/
theorem C3_counterexample :
    castle_claim_conds 4 stCastleB1 false = false ∧
    boardGet stCastleB1 ⟨1, 1⟩ = some 2 ∧
    isOkB (move 4 stCastleB1 (.castleIn false)) = true ∧
    boardGet (stepState (move 4 stCastleB1 (.castleIn false))) ⟨2, 1⟩ = some 0 := by decide

/-- C4 failing input: after Black's d7-d5 the target d6 is recorded; White
then plays the Knight b1-c3 and Black the Knight b8-c6, neither of which
clears the Game's target (`Piece.move_effects` assigns to the Board
object's `enpassants` attribute instead); two plies after the advance,
e5xd6 is still accepted as an en-passant capture, removing the d5 pawn. -/
theorem C4_enpassant_target_survives :
    stEnpTrace1.enpassants = some ⟨3, 6⟩ ∧
    isOkB (move 4 stEnpTrace1 (.stdIn ⟨1, 1⟩ ⟨2, 3⟩)) = true ∧
    stEnpTrace2.enpassants = some ⟨3, 6⟩ ∧
    stEnpTrace3.enpassants = some ⟨3, 6⟩ ∧
    isOkB (move 4 stEnpTrace3 (.stdIn ⟨4, 5⟩ ⟨3, 6⟩)) = true ∧
    (stepState (move 4 stEnpTrace3 (.stdIn ⟨4, 5⟩ ⟨3, 6⟩))).capturedBlack = [4, 4] ∧
    boardGet (stepState (move 4 stEnpTrace3 (.stdIn ⟨4, 5⟩ ⟨3, 6⟩))) ⟨3, 5⟩ = none := by decide

/-- C5 failing input: with only a Black Pawn on e7 (White to move),
`move(e7, e6)` does not fail up front with a wrong-turn error: the Black
pawn is relocated to e6 and its side effects run, and only then does the
late `piece_piece is None` check raise — with the board already mutated. -/
theorem C5_wrong_turn_mutates :
    errOf (move 4 stWrongTurn (.stdIn ⟨4, 7⟩ ⟨4, 6⟩)) = some .pieceNone ∧
    boardGet stWrongTurn ⟨4, 6⟩ = none ∧
    boardGet (stepState (move 4 stWrongTurn (.stdIn ⟨4, 7⟩ ⟨4, 6⟩))) ⟨4, 6⟩ = some 0 ∧
    boardGet (stepState (move 4 stWrongTurn (.stdIn ⟨4, 7⟩ ⟨4, 6⟩))) ⟨4, 7⟩ = none := by decide

/-- C6 failing input: the White Rook on a1 "captures" the White Pawn on
a2.  `Piece.can_take` has its color condition commented out, so the move
succeeds: the Rook is relocated to a2 and the own Pawn lands in White's
captured list — no illegal-capture error is raised. -/
theorem C6_same_color_capture_succeeds :
    isOkB (move 4 stSame (.stdIn ⟨0, 1⟩ ⟨0, 2⟩)) = true ∧
    boardGet (stepState (move 4 stSame (.stdIn ⟨0, 1⟩ ⟨0, 2⟩))) ⟨0, 2⟩ = some 0 ∧
    (stepState (move 4 stSame (.stdIn ⟨0, 1⟩ ⟨0, 2⟩))).capturedWhite = [1] := by decide

/-- C7 counterexample: Black King a8 with its own Rook b8 against a White
Rook h7.  Under the claim's rule (same-color-occupied squares excluded)
this is checkmate, but the code reports no checkmate: `King.is_checkmate`
never excludes b8, and the King's `can_move_to` accepts the own-piece
square because it ignores destination occupancy. -/
theorem C7_counterexample :
    check_for_checkmate 6 stOwnRook = false ∧
    check_for_checkmate_claim 6 stOwnRook = true := by decide

/-- C8 counterexample: running scenario B (d7-d5 then e5xd6 en passant)
appends the captured Black Pawn to the captured list twice — once inside
`handle_enpassant` and once in the captured-piece block of `Game.move` —
not exactly once as claimed. -/
theorem C8_counterexample :
    isOkB (move 4 stScenB1 (.stdIn ⟨4, 5⟩ ⟨3, 6⟩)) = true ∧
    stScenB2.capturedBlack.length = 2 := by decide

/-- C9 counterexample: a White Pawn on a2 while the en-passant target d6
is recorded and d6 is empty.  The claim's formula (diagonal-forward, or
destination equals the recorded target) is true of d6, but `Pawn.can_take`
returns false: its en-passant clause additionally requires a Pawn to be
standing on the target square, which in a real en-passant position is
empty. -/
theorem C9_counterexample :
    pawn_can_take_claim ⟨.pawn, .white, some ⟨0, 2⟩, false⟩ ⟨3, 6⟩ stFarPawn = true ∧
    can_take 4 ⟨.pawn, .white, some ⟨0, 2⟩, false⟩ ⟨3, 6⟩ stFarPawn = false := by decide


/-- C9 amended: for a Pawn with a location, `can_take` is true exactly
when the destination is one square diagonally forward-left or
forward-right in the pawn's direction, or when the recorded en-passant
target equals the destination and the destination square is occupied by a
Pawn (the extra occupancy condition is what the source's en-passant clause
actually tests; it is distinct from the pawn's forward-move rule and never
consults the moving pawn's own geometry). -/
theorem C9_pawn_can_take_iff (fuel : Nat) (d : PieceData) (l loc : Square) (g : GameState)
    (hk : d.kind = .pawn) (hl : d.loc = some l) :
    can_take fuel d loc g = true ↔
      ((loc.file = l.file + 1 ∨ loc.file = l.file - 1) ∧
         loc.rank = l.rank + (if d.color = .white then 1 else -1)) ∨
      (g.enpassants = some loc ∧ ∃ pd, obsBoard g loc = some pd ∧ pd.kind = .pawn) := by
  obtain ⟨kind, color, dloc, hm⟩ := d
  simp only at hk hl
  subst hk
  subst hl
  simp only [can_take, pawn_can_take]
  have hgeo : ((loc.file = l.file + 1 ∨ loc.file = l.file - 1) ∧
      loc.rank = l.rank + (if color = Color.white then 1 else -1)) ↔
      ((l.file - loc.file = 1 ∨ l.file - loc.file = -1) ∧
      ((l.rank - loc.rank = -1 ∧ color = Color.white) ∨
        (l.rank - loc.rank = 1 ∧ color = Color.black))) := by
    cases color <;> simp <;> omega
  by_cases h1 : (l.file - loc.file = 1 ∨ l.file - loc.file = -1) ∧
      ((l.rank - loc.rank = -1 ∧ color = Color.white) ∨ (l.rank - loc.rank = 1 ∧ color = Color.black))
  · rw [if_pos h1]
    simp only [true_iff]
    exact Or.inl (hgeo.mpr h1)
  · rw [if_neg h1]
    have hgeo2 : ¬ ((loc.file = l.file + 1 ∨ loc.file = l.file - 1) ∧
        loc.rank = l.rank + (if color = Color.white then 1 else -1)) := fun hc => h1 (hgeo.mp hc)
    by_cases h2 : g.enpassants ≠ none ∧ g.enpassants = some loc
    · rw [if_pos h2]
      cases hob : obsBoard g loc with
      | none => simp [hob, hgeo2, h2.2]
      | some pd =>
        by_cases hpk : pd.kind = .pawn
        · simp [hob, hpk, h2.2]
        · simp [hob, hpk, hgeo2, h2.2]
    · rw [if_neg h2]
      have hne : ¬ g.enpassants = some loc := fun hh => h2 ⟨by simp [hh], hh⟩
      simp [hgeo2, hne]

/-- C9 witness: the amended equivalence instantiated for the White Pawn e5
against destination d6 in the position after Black's d7-d5. -/
theorem C9_pawn_can_take_iff_witness :
    can_take 4 ⟨.pawn, .white, some ⟨4, 5⟩, true⟩ ⟨3, 6⟩ stScenB1 = true ↔
      ((Square.mk 3 6).file = (Square.mk 4 5).file + 1 ∨
        (Square.mk 3 6).file = (Square.mk 4 5).file - 1) ∧
        (Square.mk 3 6).rank = (Square.mk 4 5).rank +
          (if (PieceData.mk .pawn .white (some ⟨4, 5⟩) true).color = .white then 1 else -1) ∨
      (stScenB1.enpassants = some ⟨3, 6⟩ ∧
        ∃ pd, obsBoard stScenB1 ⟨3, 6⟩ = some pd ∧ pd.kind = .pawn) :=
  C9_pawn_can_take_iff 4 ⟨.pawn, .white, some ⟨4, 5⟩, true⟩ ⟨4, 5⟩ ⟨3, 6⟩ stScenB1 rfl rfl

/-- C7 amended: checkmate detection reports checkmate exactly when every
adjacent on-board square of the defending King fails the King's
`can_move_to` — only off-board squares are excluded; squares occupied by a
same-color piece are probed like any other (and `can_move_to` ignores
destination occupancy).  On scenario D (Black King a8 versus White Queen
b6 and King c6, White to move) detection reports true. -/
theorem C7_checkmate_iff :
    (∀ fuel d g, is_checkmate fuel d g = true ↔ is_checkmate_quantified fuel d g) ∧
    check_for_checkmate 6 stScenarioD = true := by
  constructor
  · intro fuel d g
    unfold is_checkmate is_checkmate_quantified
    cases hdl : d.loc with
    | none =>
      simp only [true_iff]
      intro o ho l hl
      exact absurd hl (by simp)
    | some l =>
      rw [List.all_eq_true]
      constructor
      · intro h o ho l' hl'
        have hll : l' = l := (Option.some.inj hl').symm
        subst hll
        intro hv
        have hx := h o ho
        rw [if_neg (by simp [hv])] at hx
        simpa using hx
      · intro h x hx
        by_cases hv : (Square.mk (l.file + x.1) (l.rank + x.2)).isValid = true
        · have := h x hx l rfl hv
          simp [hv, this]
        · simp only []
          rw [if_pos]
          simp [hv]
  · decide


/-- C3 amended: from a consistent state in which any occupant of the King
and relevant Rook home squares belongs to the active player, castling
succeeds if and only if the pieces on the King and Rook home squares have
never moved, the squares `Game.can_castle` scans between them are empty
(kingside f and g — exactly the strictly-between squares; queenside only d
and c, with the b-file square never examined), and the King's start,
transit and destination squares are attacked by no opposing piece;
otherwise the castling error is raised. -/
theorem C3_castle_iff (fuel : Nat) (g : GameState) (ks : Bool)
    (hinv : inv g)
    (hhome : ∀ i, boardGet g ⟨4, castleRank g⟩ = some i ∨ boardGet g (castleRookSq g ks) = some i →
        i ∈ piecesOf g g.activePlayer) :
    isOkB (move fuel g (.castleIn ks)) = true ↔
      (occUnmoved g ⟨4, castleRank g⟩ = true ∧ occUnmoved g (castleRookSq g ks) = true ∧
       (∀ sq ∈ castleBetweenCode (castleRank g) ks, boardGet g sq = none) ∧
       (∀ sq ∈ castleKingPath (castleRank g) ks, noCapturers fuel g sq (antiplayer g) = true)) := by
  rw [← castle_gate_iff fuel g ks]
  constructor
  · intro hok
    by_contra hg
    cases ks <;>
      simp [move, castle, Bool.not_eq_true _ ▸ hg, isOkB] at hok hg <;>
      simp [move, castle, hg, isOkB] at hok
  · intro hgate
    have hkocc : occUnmoved g ⟨4, castleRank g⟩ = true := ((castle_gate_iff fuel g ks).mp hgate).1
    have hrocc : occUnmoved g (castleRookSq g ks) = true := ((castle_gate_iff fuel g ks).mp hgate).2.1
    obtain ⟨ki, kd, hbk, hgk, hkm⟩ := occUnmoved_spec hkocc
    obtain ⟨ri, rd, hbr, hgr, hrm⟩ := occUnmoved_spec hrocc
    have hkreg : ki ∈ piecesOf g g.activePlayer := hhome ki (Or.inl hbk)
    have hrreg : ri ∈ piecesOf g g.activePlayer := hhome ri (Or.inr hbr)
    have hkloc : kd.loc = some ⟨4, castleRank g⟩ := by
      obtain ⟨d, hd, hl⟩ := occLocOk_spec (inv_board hinv hbk)
      rw [hgk] at hd
      exact (Option.some.inj hd) ▸ hl
    have hrloc : rd.loc = some (castleRookSq g ks) := by
      obtain ⟨d, hd, hl⟩ := occLocOk_spec (inv_board hinv hbr)
      rw [hgr] at hd
      exact (Option.some.inj hd) ▸ hl
    cases ks
    · obtain ⟨g', hchain⟩ := castle_chain_ok g ⟨4, castleRank g⟩ ⟨0, castleRank g⟩
        ⟨2, castleRank g⟩ ⟨3, castleRank g⟩ ki ri kd rd
        (by simp) (by simp) (by simp) (by simp) (by simp) (by simp)
        hbk hgk hkloc hkreg (by simpa [castleRookSq] using hbr) hgr
        (by simpa [castleRookSq] using hrloc) hrreg
      have hgateQ : (can_castle fuel g g.activePlayer).queenside = true := by simpa using hgate
      have hc : castle fuel g false = .ok g' := by
        unfold castle
        simp only [Bool.false_eq_true, if_false, castleRank] at *
        rw [if_neg (by simp [hgateQ])]
        simpa using hchain
      simp [move, hc, isOkB]
    · obtain ⟨g', hchain⟩ := castle_chain_ok g ⟨4, castleRank g⟩ ⟨7, castleRank g⟩
        ⟨6, castleRank g⟩ ⟨5, castleRank g⟩ ki ri kd rd
        (by simp) (by simp) (by simp) (by simp) (by simp) (by simp)
        hbk hgk hkloc hkreg (by simpa [castleRookSq] using hbr) hgr
        (by simpa [castleRookSq] using hrloc) hrreg
      have hgateK : (can_castle fuel g g.activePlayer).kingside = true := by simpa using hgate
      have hc : castle fuel g true = .ok g' := by
        unfold castle
        simp only [if_true, castleRank] at *
        rw [if_neg (by simp [hgateK])]
        simpa using hchain
      simp [move, hc, isOkB]

/-- C3 witness: the amended equivalence instantiated on the queenside
position with the b1 Knight (where the right-hand side is decidable and
the castle succeeds). -/
theorem C3_castle_iff_witness :
    isOkB (move 4 stCastleB1 (.castleIn false)) = true ↔
      (occUnmoved stCastleB1 ⟨4, castleRank stCastleB1⟩ = true ∧
       occUnmoved stCastleB1 (castleRookSq stCastleB1 false) = true ∧
       (∀ sq ∈ castleBetweenCode (castleRank stCastleB1) false, boardGet stCastleB1 sq = none) ∧
       (∀ sq ∈ castleKingPath (castleRank stCastleB1) false,
         noCapturers 4 stCastleB1 sq (antiplayer stCastleB1) = true)) :=
  C3_castle_iff 4 stCastleB1 false (by decide)
    (fun i h => by
      rcases h with h | h
      · have h0 : i = 0 := by
          have hv : boardGet stCastleB1 ⟨4, castleRank stCastleB1⟩ = some 0 := by decide
          rw [hv] at h
          exact (Option.some.inj h).symm
        subst h0
        decide
      · have h1 : i = 1 := by
          have hv : boardGet stCastleB1 (castleRookSq stCastleB1 false) = some 1 := by decide
          rw [hv] at h
          exact (Option.some.inj h).symm
        subst h1
        decide)


/-! Allocation and deep-copy lemmas (claim C10). -/

@[simp] theorem alloc_nextId (g : GameState) (d : PieceData) :
    (alloc g d).1.nextId = g.nextId + 1 := rfl

@[simp] theorem alloc_id (g : GameState) (d : PieceData) :
    (alloc g d).2 = g.nextId := rfl

theorem deepcopyList_cons_none {g : GameState} {i : Nat} (t : List Nat)
    (h : heapGet g i = none) : deepcopyList g (i :: t) = deepcopyList g t := by
  conv_lhs => unfold deepcopyList
  rw [h]

theorem deepcopyList_cons_some {g : GameState} {i : Nat} {d : PieceData} (t : List Nat)
    (h : heapGet g i = some d) :
    deepcopyList g (i :: t) =
      ((deepcopyList (alloc g d).1 t).1, (alloc g d).2 :: (deepcopyList (alloc g d).1 t).2) := by
  conv_lhs => unfold deepcopyList
  rw [h]

theorem alookup_append {α β : Type} [DecidableEq α] (k : α) (l1 l2 : List (α × β)) :
    alookup k (l1 ++ l2) =
      match alookup k l1 with
      | some v => some v
      | none => alookup k l2 := by
  induction l1 with
  | nil => simp [alookup]
  | cons hd t ih =>
    obtain ⟨k', v⟩ := hd
    by_cases hk : k' = k <;> simp [alookup, hk, ih]

theorem alloc_heapGet_lt (g : GameState) (d : PieceData) (j : Nat) (h : j ≠ g.nextId) :
    heapGet (alloc g d).1 j = heapGet g j := by
  have hnj : ¬ g.nextId = j := fun hh => h hh.symm
  simp only [alloc, heapGet, alookup_append]
  cases halookup : alookup j g.heap with
  | some v => rfl
  | none => simp [alookup, hnj]

theorem alloc_heapGet_self (g : GameState) (d : PieceData) (hb : heapBound g) :
    heapGet (alloc g d).1 g.nextId = some d := by
  simp only [alloc, heapGet, alookup_append]
  have hnm : g.nextId ∉ g.heap.map Prod.fst := fun hm => absurd (hb _ hm) (lt_irrefl _)
  rw [alookup_eq_none_of_not_mem _ _ hnm]
  simp [alookup]

theorem alloc_heapBound (g : GameState) (d : PieceData) (hb : heapBound g) :
    heapBound (alloc g d).1 := by
  intro k hk
  rw [alloc_nextId]
  have hk2 : k ∈ (g.heap ++ [(g.nextId, d)]).map Prod.fst := hk
  rw [List.map_append] at hk2
  rcases List.mem_append.mp hk2 with hm | hm
  · have h3 := hb k hm
    omega
  · simp at hm
    omega

theorem deepcopyList_nextId_mono (g : GameState) (l : List Nat) :
    g.nextId ≤ (deepcopyList g l).1.nextId := by
  induction l generalizing g with
  | nil => simp [deepcopyList]
  | cons i t ih =>
    cases hg : heapGet g i with
    | none => rw [deepcopyList_cons_none t hg]; exact ih g
    | some d =>
      rw [deepcopyList_cons_some t hg]
      have h1 := ih (alloc g d).1
      rw [alloc_nextId] at h1
      exact le_trans (by omega) h1

theorem deepcopyList_heapGet_lt (g : GameState) (l : List Nat) (j : Nat) (h : j < g.nextId) :
    heapGet (deepcopyList g l).1 j = heapGet g j := by
  induction l generalizing g with
  | nil => simp [deepcopyList]
  | cons i t ih =>
    cases hg : heapGet g i with
    | none => rw [deepcopyList_cons_none t hg]; exact ih g h
    | some d =>
      rw [deepcopyList_cons_some t hg]
      have h2 : j < (alloc g d).1.nextId := by
        rw [alloc_nextId]
        omega
      have h3 := ih (alloc g d).1 h2
      simp only at h3 ⊢
      rw [h3]
      exact alloc_heapGet_lt g d j (by omega)

theorem deepcopyList_ret_ge (g : GameState) (l : List Nat) :
    ∀ i ∈ (deepcopyList g l).2, g.nextId ≤ i := by
  induction l generalizing g with
  | nil => simp [deepcopyList]
  | cons i t ih =>
    cases hg : heapGet g i with
    | none => rw [deepcopyList_cons_none t hg]; exact ih g
    | some d =>
      rw [deepcopyList_cons_some t hg]
      intro x hx
      simp only [List.mem_cons] at hx
      rcases hx with hx | hx
      · subst hx
        simp
      · have := ih (alloc g d).1 x hx
        rw [alloc_nextId] at this
        omega

theorem deepcopyList_heapBound (g : GameState) (l : List Nat) (hb : heapBound g) :
    heapBound (deepcopyList g l).1 := by
  induction l generalizing g with
  | nil => simpa [deepcopyList]
  | cons i t ih =>
    cases hg : heapGet g i with
    | none => rw [deepcopyList_cons_none t hg]; exact ih g hb
    | some d =>
      rw [deepcopyList_cons_some t hg]
      exact ih (alloc g d).1 (alloc_heapBound g d hb)

theorem deepcopyList_scalarObs (g : GameState) (l : List Nat) :
    scalarObs (deepcopyList g l).1 = scalarObs g := by
  induction l generalizing g with
  | nil => simp [deepcopyList]
  | cons i t ih =>
    cases hg : heapGet g i with
    | none => rw [deepcopyList_cons_none t hg]; exact ih g
    | some d =>
      rw [deepcopyList_cons_some t hg]
      have h1 := ih (alloc g d).1
      simp only at h1 ⊢
      rw [h1]
      rfl

theorem deepcopyList_map_data (g : GameState) (l : List Nat) (hb : heapBound g)
    (hl : ∀ i ∈ l, (heapGet g i).isSome = true) :
    (deepcopyList g l).2.map (heapGet (deepcopyList g l).1) = l.map (heapGet g) := by
  induction l generalizing g with
  | nil => simp [deepcopyList]
  | cons i t ih =>
    cases hg : heapGet g i with
    | none =>
      have := hl i (by simp)
      rw [hg] at this
      simp at this
    | some d =>
      rw [deepcopyList_cons_some t hg]
      have hxlt : ∀ x ∈ t, heapGet (alloc g d).1 x = heapGet g x := by
        intro x hx
        have hs := hl x (List.mem_cons_of_mem _ hx)
        cases hgx : heapGet g x with
        | none => rw [hgx] at hs; simp at hs
        | some v =>
          have hmem : x ∈ g.heap.map Prod.fst := by
            have h5 := alookup_mem hgx
            exact List.mem_map_of_mem Prod.fst h5
          have hxn : x ≠ g.nextId := fun hh => absurd (hb x hmem) (by omega)
          rw [alloc_heapGet_lt g d x hxn, hgx]
      have hl2 : ∀ x ∈ t, (heapGet (alloc g d).1 x).isSome = true := by
        intro x hx
        rw [hxlt x hx]
        exact hl x (List.mem_cons_of_mem _ hx)
      have hhead : heapGet (deepcopyList (alloc g d).1 t).1 (alloc g d).2 = some d := by
        rw [alloc_id]
        rw [deepcopyList_heapGet_lt (alloc g d).1 t g.nextId (by rw [alloc_nextId]; omega)]
        exact alloc_heapGet_self g d hb
      have htail := ih (alloc g d).1 (alloc_heapBound g d hb) hl2
      simp only [List.map_cons]
      rw [hhead, hg, htail]
      congr 1
      exact List.map_congr_left hxlt

@[simp] theorem scalarObs_heapModify (g : GameState) (i : Nat) (f : PieceData → PieceData) :
    scalarObs (heapModify g i f) = scalarObs g := rfl

theorem who_can_move_to_ids_isSome (fuel : Nat) (g : GameState) (loc : Square)
    (cf : Color) (kf : Option Kind) (ff : Option Int) :
    ∀ i ∈ who_can_move_to_ids fuel g loc cf kf ff, (heapGet g i).isSome = true := by
  intro i hi
  have hf := List.of_mem_filter hi
  unfold moveToFilter at hf
  cases hg : heapGet g i with
  | none => rw [hg] at hf; simp at hf
  | some d => simp [hg]

theorem who_can_capture_ids_isSome (fuel : Nat) (g : GameState) (loc : Square)
    (kf : Option Kind) (ff : Option Int) (cf : Option Color) :
    ∀ i ∈ who_can_capture_ids fuel g loc kf ff cf, (heapGet g i).isSome = true := by
  intro i hi
  have hf := List.of_mem_filter hi
  unfold captureFilter at hf
  cases hg : heapGet g i with
  | none => rw [hg] at hf; simp at hf
  | some d => simp [hg]

theorem query_pure_parts (g : GameState) (ids : List Nat)
    (hb : heapBound g) (hlb : ∀ i ∈ liveIds g, i < g.nextId)
    (hl : ∀ i ∈ ids, (heapGet g i).isSome = true) :
    scalarObs (deepcopyList g ids).1 = scalarObs g ∧
    (∀ j ∈ liveIds g, heapGet (deepcopyList g ids).1 j = heapGet g j) ∧
    (deepcopyList g ids).2.map (heapGet (deepcopyList g ids).1) = ids.map (heapGet g) ∧
    (∀ i ∈ (deepcopyList g ids).2, ∀ f : PieceData → PieceData,
      scalarObs (heapModify (deepcopyList g ids).1 i f) = scalarObs g ∧
      ∀ j ∈ liveIds g, heapGet (heapModify (deepcopyList g ids).1 i f) j = heapGet g j) := by
  refine ⟨deepcopyList_scalarObs g ids, ?_, deepcopyList_map_data g ids hb hl, ?_⟩
  · intro j hj
    exact deepcopyList_heapGet_lt g ids j (hlb j hj)
  · intro i hi f
    have hge := deepcopyList_ret_ge g ids i hi
    constructor
    · rw [scalarObs_heapModify]
      exact deepcopyList_scalarObs g ids
    · intro j hj
      have hjlt := hlb j hj
      rw [heapGet_heapModify, if_neg (by omega)]
      exact deepcopyList_heapGet_lt g ids j hjlt

/-- C10: the query operations `who_can_move_to` and `who_can_capture`
leave the entire observable game state unchanged (all containers and
scalars are equal and every live piece's stored data is untouched), return
fresh deep copies whose data equals the matched registry pieces' data, and
mutating any returned copy (any attribute update, e.g. location or the
has-moved flag) still leaves every container and every live piece's data
unchanged. -/
theorem C10_queries_pure (fuel : Nat) (g : GameState) (loc : Square)
    (cf : Color) (kf : Option Kind) (ff : Option Int) (cf2 : Option Color)
    (hb : heapBound g) (hlb : ∀ i ∈ liveIds g, i < g.nextId) :
    (scalarObs (who_can_move_to fuel g loc cf kf ff).1 = scalarObs g ∧
     (∀ j ∈ liveIds g, heapGet (who_can_move_to fuel g loc cf kf ff).1 j = heapGet g j) ∧
     (who_can_move_to fuel g loc cf kf ff).2.map
         (heapGet (who_can_move_to fuel g loc cf kf ff).1) =
       (who_can_move_to_ids fuel g loc cf kf ff).map (heapGet g) ∧
     (∀ i ∈ (who_can_move_to fuel g loc cf kf ff).2, ∀ f : PieceData → PieceData,
       scalarObs (heapModify (who_can_move_to fuel g loc cf kf ff).1 i f) = scalarObs g ∧
       ∀ j ∈ liveIds g,
         heapGet (heapModify (who_can_move_to fuel g loc cf kf ff).1 i f) j = heapGet g j)) ∧
    (scalarObs (who_can_capture fuel g loc kf ff cf2).1 = scalarObs g ∧
     (∀ j ∈ liveIds g, heapGet (who_can_capture fuel g loc kf ff cf2).1 j = heapGet g j) ∧
     (who_can_capture fuel g loc kf ff cf2).2.map
         (heapGet (who_can_capture fuel g loc kf ff cf2).1) =
       (who_can_capture_ids fuel g loc kf ff cf2).map (heapGet g) ∧
     (∀ i ∈ (who_can_capture fuel g loc kf ff cf2).2, ∀ f : PieceData → PieceData,
       scalarObs (heapModify (who_can_capture fuel g loc kf ff cf2).1 i f) = scalarObs g ∧
       ∀ j ∈ liveIds g,
         heapGet (heapModify (who_can_capture fuel g loc kf ff cf2).1 i f) j = heapGet g j)) := by
  constructor
  · exact query_pure_parts g _ hb hlb (who_can_move_to_ids_isSome fuel g loc cf kf ff)
  · exact query_pure_parts g _ hb hlb (who_can_capture_ids_isSome fuel g loc kf ff cf2)

/-- C10 witness: the purity statement instantiated on the one-pawn state
with both filters exercised. -/
theorem C10_queries_pure_witness :
    (scalarObs (who_can_move_to 1 stScope ⟨3, 3⟩ .white none none).1 = scalarObs stScope ∧
     (∀ j ∈ liveIds stScope,
       heapGet (who_can_move_to 1 stScope ⟨3, 3⟩ .white none none).1 j = heapGet stScope j) ∧
     (who_can_move_to 1 stScope ⟨3, 3⟩ .white none none).2.map
         (heapGet (who_can_move_to 1 stScope ⟨3, 3⟩ .white none none).1) =
       (who_can_move_to_ids 1 stScope ⟨3, 3⟩ .white none none).map (heapGet stScope) ∧
     (∀ i ∈ (who_can_move_to 1 stScope ⟨3, 3⟩ .white none none).2, ∀ f : PieceData → PieceData,
       scalarObs (heapModify (who_can_move_to 1 stScope ⟨3, 3⟩ .white none none).1 i f) =
         scalarObs stScope ∧
       ∀ j ∈ liveIds stScope,
         heapGet (heapModify (who_can_move_to 1 stScope ⟨3, 3⟩ .white none none).1 i f) j =
           heapGet stScope j)) ∧
    (scalarObs (who_can_capture 1 stScope ⟨3, 3⟩ none none none).1 = scalarObs stScope ∧
     (∀ j ∈ liveIds stScope,
       heapGet (who_can_capture 1 stScope ⟨3, 3⟩ none none none).1 j = heapGet stScope j) ∧
     (who_can_capture 1 stScope ⟨3, 3⟩ none none none).2.map
         (heapGet (who_can_capture 1 stScope ⟨3, 3⟩ none none none).1) =
       (who_can_capture_ids 1 stScope ⟨3, 3⟩ none none none).map (heapGet stScope) ∧
     (∀ i ∈ (who_can_capture 1 stScope ⟨3, 3⟩ none none none).2, ∀ f : PieceData → PieceData,
       scalarObs (heapModify (who_can_capture 1 stScope ⟨3, 3⟩ none none none).1 i f) =
         scalarObs stScope ∧
       ∀ j ∈ liveIds stScope,
         heapGet (heapModify (who_can_capture 1 stScope ⟨3, 3⟩ none none none).1 i f) j =
           heapGet stScope j)) :=
  C10_queries_pure 1 stScope ⟨3, 3⟩ .white none none none (by decide) (by decide)


end PyChess

namespace PyChess

theorem amodify_map_fst {α β : Type} [DecidableEq α] (k : α) (f : β → β) (l : List (α × β)) :
    (amodify k f l).map Prod.fst = l.map Prod.fst := by
  induction l with
  | nil => rfl
  | cons hd t ih =>
    obtain ⟨k', v⟩ := hd
    by_cases hk : k' = k <;> simp [amodify, hk, ih]

theorem hb_of_same {g g' : GameState} (hh : g'.heap = g.heap) (hn : g'.nextId = g.nextId)
    (hb : heapBound g) : heapBound g' := by
  intro k hk
  rw [hh] at hk
  rw [hn]
  exact hb k hk

theorem hb_heapModify {g : GameState} (i : Nat) (f : PieceData → PieceData)
    (hb : heapBound g) : heapBound (heapModify g i f) := by
  intro k hk
  have hk2 : k ∈ g.heap.map Prod.fst := by
    have : (heapModify g i f).heap = amodify i f g.heap := rfl
    rw [this, amodify_map_fst] at hk
    exact hk
  exact hb k hk2

theorem hb_heapSetLoc {g : GameState} (i : Nat) (v : Option Square)
    (hb : heapBound g) : heapBound (heapSetLoc g i v) :=
  hb_heapModify i _ hb

theorem hb_boardSet {g : GameState} (s : Square) (v : Option Nat)
    (hb : heapBound g) : heapBound (boardSet g s v) := by
  cases v with
  | none => exact hb_of_same rfl rfl hb
  | some i => exact hb_heapSetLoc i _ hb

theorem pieceMoveEffects_keys (g : GameState) (i : Nat) (d : PieceData) (s e : Square) :
    (pieceMoveEffects g i d s e).heap.map Prod.fst = g.heap.map Prod.fst ∧
    (pieceMoveEffects g i d s e).nextId = g.nextId := by
  obtain ⟨kind, color, dloc, hmvd⟩ := d
  unfold pieceMoveEffects
  cases kind <;> cases dloc <;>
    simp only [heapModify, amodify_map_fst] <;>
    constructor <;> (first | trivial | rfl | (split <;> rfl))

theorem hb_pieceMoveEffects {g : GameState} (i : Nat) (d : PieceData) (s e : Square)
    (hb : heapBound g) : heapBound (pieceMoveEffects g i d s e) := by
  intro k hk
  rw [(pieceMoveEffects_keys g i d s e).1] at hk
  rw [(pieceMoveEffects_keys g i d s e).2]
  exact hb k hk

theorem hb_force_move {g : GameState} (s e : Square) (hb : heapBound g) :
    heapBound (stepState (force_move g s e)) := by
  unfold force_move
  cases hfl : findLastLoc g g.activePlayer s with
  | none => exact hb
  | some pp =>
    simp only [stepState]
    exact hb_boardSet _ _ (hb_boardSet _ _ (hb_heapSetLoc _ _ hb))

theorem hb_move_effects {g : GameState} (s e : Square) (hb : heapBound g) :
    heapBound (stepState (move_effects g s e)) := by
  unfold move_effects
  split
  · exact hb
  · split
    · exact hb
    · exact hb_pieceMoveEffects _ _ _ _ hb

end PyChess

namespace PyChess

theorem hb_alloc_fst {g : GameState} (d : PieceData) (hb : heapBound g) :
    heapBound (alloc g d).1 := alloc_heapBound g d hb

theorem hb_setCapturedOf {g : GameState} (c : Color) (l : List Nat) (hb : heapBound g) :
    heapBound (setCapturedOf g c l) := by
  cases c <;> exact hb_of_same rfl rfl hb

theorem hb_setPiecesOf {g : GameState} (c : Color) (l : List Nat) (hb : heapBound g) :
    heapBound (setPiecesOf g c l) := by
  cases c <;> exact hb_of_same rfl rfl hb

theorem hb_handle_enpassant {g : GameState} (s e : Square) (hb : heapBound g) :
    heapBound (epState (handle_enpassant g s e)) := by
  unfold handle_enpassant
  split
  · dsimp only
    split
    · split
      · rename_i p hfm
        have h1 := hb_force_move s e (hb_boardSet { file := e.file, rank := 5 } none hb)
        rw [hfm] at h1
        exact h1
      · rename_i g2 hfm
        have h1 := hb_force_move s e (hb_boardSet { file := e.file, rank := 5 } none hb)
        rw [hfm] at h1
        exact h1
    · split
      · exact hb
      · rename_i pid d hg
        split
        · rename_i p hfm
          have h1 := hb_force_move s e (hb_boardSet { file := e.file, rank := 5 } none (hb_alloc_fst d hb))
          rw [hfm] at h1
          exact h1
        · rename_i g3 hfm
          have h1 := hb_force_move s e (hb_boardSet { file := e.file, rank := 5 } none (hb_alloc_fst d hb))
          rw [hfm] at h1
          have h2 : heapBound (setCapturedOf g3 d.color (capturedOf g3 d.color ++ [(alloc g d).2])) :=
            hb_setCapturedOf _ _ h1
          split
          · split
            · exact hb_pieceMoveEffects _ _ _ _ h2
            · exact h2
          · exact h2
  · dsimp only
    split
    · split
      · rename_i p hfm
        have h1 := hb_force_move s e (hb_boardSet { file := e.file, rank := 4 } none hb)
        rw [hfm] at h1
        exact h1
      · rename_i g2 hfm
        have h1 := hb_force_move s e (hb_boardSet { file := e.file, rank := 4 } none hb)
        rw [hfm] at h1
        exact h1
    · split
      · exact hb
      · rename_i pid d hg
        split
        · rename_i p hfm
          have h1 := hb_force_move s e (hb_boardSet { file := e.file, rank := 4 } none (hb_alloc_fst d hb))
          rw [hfm] at h1
          exact h1
        · rename_i g3 hfm
          have h1 := hb_force_move s e (hb_boardSet { file := e.file, rank := 4 } none (hb_alloc_fst d hb))
          rw [hfm] at h1
          have h2 : heapBound (setCapturedOf g3 d.color (capturedOf g3 d.color ++ [(alloc g d).2])) :=
            hb_setCapturedOf _ _ h1
          split
          · split
            · exact hb_pieceMoveEffects _ _ _ _ h2
            · exact h2
          · exact h2

theorem hb_captured_block {g : GameState} (cid : Nat) (hb : heapBound g) :
    heapBound (captured_block g cid) := by
  unfold captured_block
  split
  · exact hb
  · exact hb_heapSetLoc _ _ (hb_setPiecesOf _ _ (hb_setCapturedOf _ _ hb))

theorem hb_finalize_move {g : GameState} (inp : MoveInput) (hb : heapBound g) :
    heapBound (finalize_move g inp) := by
  unfold finalize_move
  cases inp <;> dsimp only <;> split <;> (refine hb_of_same ?_ ?_ hb <;> rfl)

theorem hb_board_relocate {g : GameState} (s e : Square) (hb : heapBound g) :
    heapBound (stepState (board_relocate g s e)) := by
  unfold board_relocate
  exact hb_move_effects s e (hb_boardSet _ _ (hb_boardSet _ _ hb))

theorem hb_setHasMovedAt {g : GameState} (sq : Square) (hb : heapBound g) :
    heapBound (stepState (setHasMovedAt g sq)) := by
  unfold setHasMovedAt
  split
  · exact hb
  · exact hb_heapModify _ _ hb

theorem hb_castle {g : GameState} (fuel : Nat) (ks : Bool) (hb : heapBound g) :
    heapBound (stepState (castle fuel g ks)) := by
  unfold castle
  have hchain : ∀ g0 : GameState, heapBound g0 →
      ∀ s1 e1 s2 e2 h1 h2 : Square,
      heapBound (stepState ((force_move g0 s1 e1).bind
        (fun ga => (force_move ga s2 e2).bind
          (fun gb => (setHasMovedAt gb h1).bind
            (fun gc => setHasMovedAt gc h2))))) := by
    intro g0 hb0 s1 e1 s2 e2 h1 h2
    cases hf1 : force_move g0 s1 e1 with
    | error p =>
      have := hb_force_move s1 e1 hb0
      rw [hf1] at this
      simpa [Except.bind, hf1] using this
    | ok ga =>
      have hga : heapBound ga := by
        have := hb_force_move s1 e1 hb0
        rw [hf1] at this
        exact this
      simp only [Except.bind, hf1]
      cases hf2 : force_move ga s2 e2 with
      | error p =>
        have := hb_force_move s2 e2 hga
        rw [hf2] at this
        simpa [Except.bind, hf2] using this
      | ok gb =>
        have hgb : heapBound gb := by
          have := hb_force_move s2 e2 hga
          rw [hf2] at this
          exact this
        simp only [Except.bind, hf2]
        cases hs1 : setHasMovedAt gb h1 with
        | error p =>
          have := hb_setHasMovedAt h1 hgb
          rw [hs1] at this
          simpa [Except.bind, hs1] using this
        | ok gc =>
          have hgc : heapBound gc := by
            have := hb_setHasMovedAt h1 hgb
            rw [hs1] at this
            exact this
          have := hb_setHasMovedAt h2 hgc
          simpa [Except.bind, hs1] using this
  split <;> split <;> (dsimp only; split) <;>
    first
      | exact hb
      | exact hchain g hb _ _ _ _ _ _

theorem hb_move_std {g : GameState} (fuel : Nat) (s e : Square) (hb : heapBound g) :
    heapBound (stepState (move_std fuel g s e)) := by
  unfold move_std
  dsimp only
  split
  · exact hb
  split
  · exact hb
  split
  · exact hb
  split
  · rename_i p heq
    simp only [stepState]
    split at heq
    · split at heq
      · rename_i p0 hen
        cases heq
        have h1 := hb_handle_enpassant s e hb
        rw [hen] at h1
        exact h1
      · exact absurd heq (by simp)
    · split at heq
      · cases heq
        exact hb
      · split at heq
        · split at heq
          · cases heq
            exact hb
          · split at heq
            · rename_i p0 hbr
              cases heq
              have h1 : heapBound (stepState (board_relocate { g with enpassants := none } s e)) :=
                hb_board_relocate s e (hb_of_same rfl rfl hb)
              rw [hbr] at h1
              exact h1
            · exact absurd heq (by simp)
        · split at heq
          · cases heq
            exact hb
          · split at heq
            · rename_i p0 hbr
              cases heq
              have h1 := hb_board_relocate s e hb
              rw [hbr] at h1
              exact h1
            · exact absurd heq (by simp)
  · rename_i g2 cap heq
    have hg2 : heapBound g2 := by
      split at heq
      · split at heq
        · exact absurd heq (by simp)
        · rename_i g1 cid hen
          cases heq
          have h1 := hb_handle_enpassant s e hb
          rw [hen] at h1
          exact h1
      · split at heq
        · exact absurd heq (by simp)
        · split at heq
          · split at heq
            · exact absurd heq (by simp)
            · split at heq
              · exact absurd heq (by simp)
              · rename_i gx hbr
                cases heq
                have h1 : heapBound (stepState (board_relocate { g with enpassants := none } s e)) :=
                hb_board_relocate s e (hb_of_same rfl rfl hb)
                rw [hbr] at h1
                exact h1
          · split at heq
            · exact absurd heq (by simp)
            · split at heq
              · exact absurd heq (by simp)
              · rename_i gx hbr
                cases heq
                have h1 := hb_board_relocate s e hb
                rw [hbr] at h1
                exact h1
    clear heq
    have hg3 : heapBound (match cap with
        | some cid => captured_block g2 cid
        | none => g2) := by
      cases cap with
      | none => exact hg2
      | some cid => exact hb_captured_block cid hg2
    split
    · exact hg3
    · simp only [stepState]
      exact hb_finalize_move _ (hb_heapSetLoc _ _ hg3)

theorem hb_move {g : GameState} (fuel : Nat) (m : MoveInput) (hb : heapBound g) :
    heapBound (stepState (move fuel g m)) := by
  cases m with
  | stdIn s e => exact hb_move_std fuel s e hb
  | castleIn ks =>
    simp only [move]
    split
    · rename_i p hc
      have h1 := hb_castle fuel ks hb
      rw [hc] at h1
      exact h1
    · rename_i g1 hc
      have h1 := hb_castle fuel ks hb
      rw [hc] at h1
      simp only [stepState] at h1 ⊢
      exact hb_finalize_move _ h1

theorem hb_run_scope {g : GameState} (fuel : Nat) (ms : List MoveInput) (hb : heapBound g) :
    heapBound (run_scope fuel g ms) := by
  induction ms generalizing g with
  | nil => exact hb
  | cons m ms ih =>
    unfold run_scope
    split
    · rename_i g1 hm
      have h1 := hb_move fuel m hb
      rw [hm] at h1
      exact ih h1
    · rename_i p g1 hm
      have h1 := hb_move fuel m hb
      rw [hm] at h1
      exact h1



/-! List-level helper lemmas for the invariant-preservation proof. -/

theorem alookup_none_key_not_mem {α β : Type} [DecidableEq α] {k : α} {l : List (α × β)}
    (h : alookup k l = none) : k ∉ l.map Prod.fst := by
  induction l with
  | nil => simp
  | cons hd t ih =>
    obtain ⟨a, b⟩ := hd
    by_cases hk : a = k
    · subst hk
      simp [alookup] at h
    · rw [alookup_cons, if_neg hk] at h
      simp only [List.map_cons, List.mem_cons]
      rintro (rfl | hm)
      · exact hk rfl
      · exact ih h hm

theorem mem_aset_nodup {α β : Type} [DecidableEq α] {k : α} {v : β} {l : List (α × β)}
    {p : α × β} (hnd : (l.map Prod.fst).Nodup) (h : p ∈ aset k v l) :
    p = (k, v) ∨ (p ∈ l ∧ p.1 ≠ k) := by
  induction l with
  | nil =>
    simp only [aset, List.mem_singleton] at h
    exact Or.inl h
  | cons hd t ih =>
    obtain ⟨a, b⟩ := hd
    simp only [List.map_cons, List.nodup_cons] at hnd
    by_cases hk : a = k
    · subst hk
      rw [aset, if_pos rfl] at h
      rcases List.mem_cons.mp h with h1 | h1
      · exact Or.inl h1
      · right
        refine ⟨List.mem_cons_of_mem _ h1, ?_⟩
        intro hp
        exact hnd.1 (hp ▸ List.mem_map_of_mem Prod.fst h1)
    · rw [aset, if_neg hk] at h
      rcases List.mem_cons.mp h with h1 | h1
      · right
        rw [h1]
        exact ⟨List.mem_cons_self _ _, hk⟩
      · rcases ih hnd.2 h1 with h2 | h2
        · exact Or.inl h2
        · exact Or.inr ⟨List.mem_cons_of_mem _ h2.1, h2.2⟩

theorem mem_aerase_nodup {α β : Type} [DecidableEq α] {k : α} {l : List (α × β)}
    {p : α × β} (hnd : (l.map Prod.fst).Nodup) (h : p ∈ aerase k l) :
    p ∈ l ∧ p.1 ≠ k := by
  induction l with
  | nil => simp [aerase] at h
  | cons hd t ih =>
    obtain ⟨a, b⟩ := hd
    simp only [List.map_cons, List.nodup_cons] at hnd
    by_cases hk : a = k
    · subst hk
      rw [aerase, if_pos rfl] at h
      refine ⟨List.mem_cons_of_mem _ h, ?_⟩
      intro hp
      exact hnd.1 (hp ▸ List.mem_map_of_mem Prod.fst h)
    · rw [aerase, if_neg hk] at h
      rcases List.mem_cons.mp h with h1 | h1
      · rw [h1]
        exact ⟨List.mem_cons_self _ _, hk⟩
      · rcases ih hnd.2 h1 with ⟨h2, h3⟩
        exact ⟨List.mem_cons_of_mem _ h2, h3⟩

/-! Forward characterization of `findLastLoc` and location uniqueness. -/

theorem foldl_flStep_char (g : GameState) (s : Square) :
    ∀ (l : List Nat) (acc : Option Nat) (pp : Nat),
      l.foldl (flStep g s) acc = some pp →
      acc = some pp ∨ (pp ∈ l ∧ ∃ d, heapGet g pp = some d ∧ d.loc = some s) := by
  intro l
  induction l with
  | nil =>
    intro acc pp h
    exact Or.inl h
  | cons i t ih =>
    intro acc pp h
    rw [List.foldl_cons] at h
    rcases ih _ _ h with h1 | h1
    · unfold flStep at h1
      cases hg : heapGet g i with
      | none =>
        rw [hg] at h1
        exact Or.inl h1
      | some d =>
        rw [hg] at h1
        have h2 : (if d.loc = some s then some i else acc) = some pp := h1
        by_cases hl : d.loc = some s
        · rw [if_pos hl] at h2
          obtain rfl : i = pp := Option.some.inj h2
          exact Or.inr ⟨List.mem_cons_self _ _, d, hg, hl⟩
        · rw [if_neg hl] at h2
          exact Or.inl h2
    · exact Or.inr ⟨List.mem_cons_of_mem _ h1.1, h1.2⟩

theorem foldl_flStep_congr {g g' : GameState} (s : Square) :
    ∀ (l : List Nat) (acc : Option Nat),
      (∀ i ∈ l, heapGet g' i = heapGet g i) →
      l.foldl (flStep g' s) acc = l.foldl (flStep g s) acc := by
  intro l
  induction l with
  | nil => intro acc _; rfl
  | cons i t ih =>
    intro acc hh
    rw [List.foldl_cons, List.foldl_cons]
    have hstep : flStep g' s acc i = flStep g s acc i := by
      unfold flStep
      rw [hh i (List.mem_cons_self _ _)]
    rw [hstep]
    exact ih _ (fun j hj => hh j (List.mem_cons_of_mem _ hj))

/-- Under the invariant, a registered piece stands on the board at its
recorded location (so locations identify registry pieces uniquely). -/
theorem loc_unique {g : GameState} (hinv : inv g) {c : Color} {i : Nat} {d : PieceData}
    {s : Square} (hm : i ∈ piecesOf g c) (hg : heapGet g i = some d)
    (hl : d.loc = some s) : boardGet g s = some i := by
  obtain ⟨d2, hg2, _, sq, hlq, hbq⟩ := regPieceOk_spec (inv_reg hinv c hm)
  obtain rfl : d2 = d := by rw [hg] at hg2; exact (Option.some.inj hg2).symm
  obtain rfl : sq = s := by rw [hl] at hlq; exact (Option.some.inj hlq).symm
  exact hbq

/-- Forward characterization: a successful `findLastLoc` names the unique
board occupant of the square. -/
theorem findLastLoc_char {g : GameState} (hinv : inv g) {c : Color} {s : Square} {pp : Nat}
    (h : findLastLoc g c s = some pp) :
    boardGet g s = some pp ∧ pp ∈ piecesOf g c := by
  rw [findLastLoc_eq_foldl] at h
  rcases foldl_flStep_char g s _ _ _ h with h1 | h1
  · cases h1
  · obtain ⟨hm, d, hg, hl⟩ := h1
    exact ⟨loc_unique hinv hm hg hl, hm⟩

/-! Congruence lemmas for the invariant. -/

theorem occLocOk_congr {g g' : GameState} {i : Nat} (sq : Square)
    (hh : heapGet g' i = heapGet g i) : occLocOk g' i sq = occLocOk g i sq := by
  unfold occLocOk
  rw [hh]

theorem regPieceOk_congr {g g' : GameState} (c : Color) (i : Nat)
    (hh : ∀ j, heapGet g' j = heapGet g j)
    (hb : ∀ sq, boardGet g' sq = boardGet g sq) :
    regPieceOk g' c i = regPieceOk g c i := by
  unfold regPieceOk
  rw [hh i]
  split
  · split
    · rename_i sq h
      rw [hb sq]
    · rfl
  · rfl

theorem kingCount_congr {g g' : GameState} (c : Color)
    (hl : piecesOf g' c = piecesOf g c)
    (hh : ∀ j ∈ piecesOf g c, heapGet g' j = heapGet g j) :
    kingCount g' c = kingCount g c := by
  unfold kingCount
  rw [hl]
  congr 1
  apply List.filter_congr
  intro j hj
  rw [hh j hj]

theorem inv_transfer {g g' : GameState}
    (hh : ∀ i, heapGet g' i = heapGet g i)
    (hb : g'.board = g.board)
    (hwp : g'.whitePieces = g.whitePieces)
    (hbp : g'.blackPieces = g.blackPieces)
    (h : inv g) : inv g' := by
  obtain ⟨h1, h2, h3, h4, h5⟩ := h
  have hbg : ∀ sq, boardGet g' sq = boardGet g sq := by
    intro sq
    unfold boardGet
    rw [hb]
  have hwp2 : piecesOf g' .white = piecesOf g .white := hwp
  have hbp2 : piecesOf g' .black = piecesOf g .black := hbp
  refine ⟨?_, ?_, ?_, ?_, ?_⟩
  · intro p hp
    rw [hb] at hp
    rw [occLocOk_congr p.1 (hh p.2)]
    exact h1 p hp
  · intro i hi
    rw [show g'.whitePieces = g.whitePieces from hwp] at hi
    rw [regPieceOk_congr .white i hh hbg]
    exact h2 i hi
  · intro i hi
    rw [show g'.blackPieces = g.blackPieces from hbp] at hi
    rw [regPieceOk_congr .black i hh hbg]
    exact h3 i hi
  · rw [kingCount_congr .white hwp2 (fun j _ => hh j)]
    exact h4
  · rw [kingCount_congr .black hbp2 (fun j _ => hh j)]
    exact h5

theorem finalize_move_parts (g : GameState) (inp : MoveInput) :
    (finalize_move g inp).heap = g.heap ∧ (finalize_move g inp).board = g.board ∧
    (finalize_move g inp).whitePieces = g.whitePieces ∧
    (finalize_move g inp).blackPieces = g.blackPieces := by
  unfold finalize_move
  cases inp <;> dsimp only <;> split <;> exact ⟨rfl, rfl, rfl, rfl⟩

theorem inv_finalize_move {g : GameState} (inp : MoveInput) (h : inv g) :
    inv (finalize_move g inp) := by
  obtain ⟨hh, hb, hwp, hbp⟩ := finalize_move_parts g inp
  exact inv_transfer (fun i => by unfold heapGet; rw [hh]) hb hwp hbp h

/-! Attribute-preserving in-place mutations keep the invariant. -/

theorem occLocOk_heapModify_pres {g : GameState} {i : Nat} {f : PieceData → PieceData}
    (hf : ∀ d, (f d).loc = d.loc) (j : Nat) (sq : Square) :
    occLocOk (heapModify g i f) j sq = occLocOk g j sq := by
  unfold occLocOk
  rw [heapGet_heapModify]
  by_cases hj : j = i
  · subst hj
    rw [if_pos rfl]
    cases heapGet g j with
    | none => rfl
    | some d => simp [hf d]
  · rw [if_neg hj]

theorem regPieceOk_heapModify_pres {g : GameState} {i : Nat} {f : PieceData → PieceData}
    (hf : ∀ d, (f d).color = d.color ∧ (f d).loc = d.loc) (c : Color) (j : Nat) :
    regPieceOk (heapModify g i f) c j = regPieceOk g c j := by
  unfold regPieceOk
  rw [heapGet_heapModify]
  by_cases hj : j = i
  · subst hj
    rw [if_pos rfl]
    cases hg : heapGet g j with
    | none => rfl
    | some d =>
      have hc := (hf d).1
      have hl := (hf d).2
      show (match some (f d) with
        | some dd => decide (dd.color = c) &&
            (match dd.loc with
             | some sq => decide (boardGet (heapModify g j f) sq = some j)
             | none => false)
        | none => false) = _
      simp only
      rw [hc, hl]
      split
      · rename_i sq h
        simp only [boardGet_heapModify]
      · rfl
  · rw [if_neg hj]
    rfl

theorem kingCount_heapModify_pres {g : GameState} {i : Nat} {f : PieceData → PieceData}
    (hf : ∀ d, (f d).kind = d.kind) (c : Color) :
    kingCount (heapModify g i f) c = kingCount g c := by
  unfold kingCount
  rw [piecesOf_heapModify]
  congr 1
  apply List.filter_congr
  intro j hj
  rw [heapGet_heapModify]
  by_cases hj2 : j = i
  · subst hj2
    rw [if_pos rfl]
    cases heapGet g j with
    | none => rfl
    | some d => simp [hf d]
  · rw [if_neg hj2]

theorem inv_heapModify_pres {g : GameState} {i : Nat} {f : PieceData → PieceData}
    (hf : ∀ d, (f d).kind = d.kind ∧ (f d).color = d.color ∧ (f d).loc = d.loc)
    (h : inv g) : inv (heapModify g i f) := by
  obtain ⟨h1, h2, h3, h4, h5⟩ := h
  refine ⟨?_, ?_, ?_, ?_, ?_⟩
  · intro p hp
    rw [occLocOk_heapModify_pres (fun d => (hf d).2.2)]
    exact h1 p hp
  · intro j hj
    rw [regPieceOk_heapModify_pres (fun d => ⟨(hf d).2.1, (hf d).2.2⟩)]
    exact h2 j hj
  · intro j hj
    rw [regPieceOk_heapModify_pres (fun d => ⟨(hf d).2.1, (hf d).2.2⟩)]
    exact h3 j hj
  · rw [kingCount_heapModify_pres (fun d => (hf d).1)]
    exact h4
  · rw [kingCount_heapModify_pres (fun d => (hf d).1)]
    exact h5

/-! Characterization of the per-piece side effects: they never touch the
board or the registries, and mutate at most the moved piece's has-moved
flag in the object store. -/

theorem pieceMoveEffects_parts (g : GameState) (i : Nat) (d : PieceData) (s e : Square) :
    (pieceMoveEffects g i d s e).board = g.board ∧
    (pieceMoveEffects g i d s e).whitePieces = g.whitePieces ∧
    (pieceMoveEffects g i d s e).blackPieces = g.blackPieces ∧
    ∃ f : PieceData → PieceData,
      (∀ dd, (f dd).kind = dd.kind ∧ (f dd).color = dd.color ∧ (f dd).loc = dd.loc) ∧
      ∀ j, heapGet (pieceMoveEffects g i d s e) j =
        if j = i then (heapGet g i).map f else heapGet g j := by
  have hid : ∀ j, heapGet g j = if j = i then (heapGet g i).map id else heapGet g j := by
    intro j
    by_cases hj : j = i
    · subst hj
      rw [if_pos rfl, Option.map_id]
      rfl
    · rw [if_neg hj]
  unfold pieceMoveEffects
  cases hk : d.kind with
  | pawn =>
    cases hl : d.loc with
    | none => exact ⟨rfl, rfl, rfl, id, fun dd => ⟨rfl, rfl, rfl⟩, hid⟩
    | some l =>
      dsimp only
      refine ⟨?_, ?_, ?_, fun dd => { dd with hasMoved := true },
        fun dd => ⟨rfl, rfl, rfl⟩, ?_⟩
      · split <;> rfl
      · split <;> rfl
      · split <;> rfl
      · intro j
        rw [heapGet_heapModify]
        split <;> split <;> rfl
  | rook =>
    refine ⟨rfl, rfl, rfl, fun dd => { dd with hasMoved := true },
      fun dd => ⟨rfl, rfl, rfl⟩, ?_⟩
    intro j
    rw [heapGet_heapModify]
  | king =>
    refine ⟨rfl, rfl, rfl, fun dd => { dd with hasMoved := true },
      fun dd => ⟨rfl, rfl, rfl⟩, ?_⟩
    intro j
    rw [heapGet_heapModify]
  | knight => exact ⟨rfl, rfl, rfl, id, fun dd => ⟨rfl, rfl, rfl⟩, hid⟩
  | bishop => exact ⟨rfl, rfl, rfl, id, fun dd => ⟨rfl, rfl, rfl⟩, hid⟩
  | queen => exact ⟨rfl, rfl, rfl, id, fun dd => ⟨rfl, rfl, rfl⟩, hid⟩

/-! Characterization of the registry removal loop: with at most one
matching element the loop removes exactly that element (or nothing). -/

theorem removeFirstEq_no_match (g : GameState) (cd : PieceData) (l : List Nat)
    (h : ∀ i ∈ l, pieceEqPy g i cd = false) : removeFirstEq g cd l = l := by
  induction l with
  | nil => rfl
  | cons i t ih =>
    rw [removeFirstEq, if_neg (by rw [h i (List.mem_cons_self _ _)]; simp),
      ih (fun j hj => h j (List.mem_cons_of_mem _ hj))]

theorem removeFirstEq_split (g : GameState) (cd : PieceData) (l1 l2 : List Nat) (m : Nat)
    (h1 : ∀ i ∈ l1, pieceEqPy g i cd = false) (hm : pieceEqPy g m cd = true) :
    removeFirstEq g cd (l1 ++ m :: l2) = l1 ++ l2 := by
  induction l1 with
  | nil => simp [removeFirstEq, hm]
  | cons i t ih =>
    rw [List.cons_append, removeFirstEq,
      if_neg (by rw [h1 i (List.mem_cons_self _ _)]; simp),
      ih (fun j hj => h1 j (List.mem_cons_of_mem _ hj)), List.cons_append]

theorem pyRemoveLoopAux_no_match (g : GameState) (cd : PieceData) (l : List Nat)
    (h : ∀ i ∈ l, pieceEqPy g i cd = false) :
    ∀ fuel i, pyRemoveLoopAux g cd fuel l i = l := by
  intro fuel
  induction fuel with
  | zero => intro i; rfl
  | succ n ih =>
    intro i
    rw [pyRemoveLoopAux]
    by_cases hi : i < l.length
    · rw [dif_pos hi, if_neg (by rw [h _ (l.get_mem _ hi)]; simp)]
      exact ih (i + 1)
    · rw [dif_neg hi]

theorem pyRemoveLoopAux_unique (g : GameState) (cd : PieceData) (l1 l2 : List Nat) (m : Nat)
    (h1 : ∀ i ∈ l1, pieceEqPy g i cd = false) (hm : pieceEqPy g m cd = true)
    (h2 : ∀ i ∈ l2, pieceEqPy g i cd = false) :
    ∀ fuel i, i ≤ l1.length → l1.length + l2.length + 1 ≤ fuel + i →
      pyRemoveLoopAux g cd fuel (l1 ++ m :: l2) i = l1 ++ l2 := by
  have hlen : (l1 ++ m :: l2).length = l1.length + l2.length + 1 := by
    simp
    omega
  have hnom : ∀ j ∈ l1 ++ l2, pieceEqPy g j cd = false := by
    intro j hj
    rcases List.mem_append.mp hj with hj | hj
    · exact h1 j hj
    · exact h2 j hj
  intro fuel
  induction fuel with
  | zero =>
    intro i hi hf
    omega
  | succ n ih =>
    intro i hi hf
    rw [pyRemoveLoopAux]
    have hil : i < (l1 ++ m :: l2).length := by omega
    rw [dif_pos hil]
    by_cases hcase : i < l1.length
    · have hget : (l1 ++ m :: l2).get ⟨i, hil⟩ = l1.get ⟨i, hcase⟩ := by
        simp [List.get_eq_getElem, List.getElem_append_left hcase]
      rw [hget, if_neg (by rw [h1 _ (l1.get_mem _ hcase)]; simp)]
      exact ih (i + 1) (by omega) (by omega)
    · have hieq : i = l1.length := by omega
      subst hieq
      have hget : (l1 ++ m :: l2).get ⟨l1.length, hil⟩ = m := by
        simp [List.get_eq_getElem, List.getElem_append_right (Nat.le_refl l1.length)]
      rw [hget, if_pos (by rw [hm]),
        removeFirstEq_split g cd l1 l2 m h1 hm]
      exact pyRemoveLoopAux_no_match g cd (l1 ++ l2) hnom n (l1.length + 1)

theorem pyRemoveLoop_unique (g : GameState) (cd : PieceData) (l1 l2 : List Nat) (m : Nat)
    (h1 : ∀ i ∈ l1, pieceEqPy g i cd = false) (hm : pieceEqPy g m cd = true)
    (h2 : ∀ i ∈ l2, pieceEqPy g i cd = false) :
    pyRemoveLoop g cd (l1 ++ m :: l2) 0 = l1 ++ l2 := by
  unfold pyRemoveLoop
  exact pyRemoveLoopAux_unique g cd l1 l2 m h1 hm h2 _ 0 (Nat.zero_le _)
    (by simp; omega)

theorem pyRemoveLoop_no_match (g : GameState) (cd : PieceData) (l : List Nat)
    (h : ∀ i ∈ l, pieceEqPy g i cd = false) (i : Nat) :
    pyRemoveLoop g cd l i = l :=
  pyRemoveLoopAux_no_match g cd l h _ i

/-! Master verification lemma: a single piece relocation `s -> e`, together
with an optional set `C` of dereferenced-but-unreferenced objects and an
optional set `R` of additionally vacated squares, keeps the invariant. -/

theorem inv_final_master
    (g gf : GameState) (s e : Square) (mid : Nat) (dm dmF : PieceData)
    (C : List Nat) (R : List Square)
    (hinv : inv g)
    (hs : boardGet g s = some mid)
    (hdm : heapGet g mid = some dm)
    (hmidF : heapGet gf mid = some dmF)
    (hkind : dmF.kind = dm.kind) (hcolF : dmF.color = dm.color)
    (hlocF : dmF.loc = some e)
    (hheap : ∀ j, j ≠ mid → j ∉ C → heapGet gf j = heapGet g j)
    (hCboard : ∀ j ∈ C, ∀ p ∈ gf.board, p.2 ≠ j)
    (hCreg : ∀ j ∈ C, ∀ c, j ∉ piecesOf gf c)
    (hbmem : ∀ p ∈ gf.board, p = (e, mid) ∨ (p ∈ g.board ∧ p.1 ≠ s ∧ p.1 ≠ e ∧ p.1 ∉ R))
    (hbe : boardGet gf e = some mid)
    (hbget : ∀ t, t ≠ s → t ≠ e → t ∉ R → boardGet gf t = boardGet g t)
    (hbeold : ∀ j, boardGet g e = some j → ∀ c, j ∉ piecesOf gf c)
    (hRocc : ∀ t ∈ R, ∀ j, boardGet g t = some j → ∀ c, j ∉ piecesOf gf c)
    (hregsub : ∀ c, ∀ j, j ∈ piecesOf gf c → j ∈ piecesOf g c)
    (hkcW : kingCount gf .white = 1) (hkcB : kingCount gf .black = 1) :
    inv gf := by
  have hdmloc : dm.loc = some s := by
    obtain ⟨dm0, hdm0, hdm0loc⟩ := occLocOk_spec (inv_board hinv hs)
    have h0 : dm0 = dm := by rw [hdm] at hdm0; exact (Option.some.inj hdm0).symm
    rw [h0] at hdm0loc
    exact hdm0loc
  have hreg : ∀ c, ∀ j ∈ piecesOf gf c, regPieceOk gf c j = true := by
    intro c j hj
    have hjold := hregsub c j hj
    obtain ⟨dj, hgj, hcol, sqj, hlocj, hbq⟩ := regPieceOk_spec (inv_reg hinv c hjold)
    by_cases hjm : j = mid
    · subst hjm
      have hdj : dj = dm := by rw [hdm] at hgj; exact (Option.some.inj hgj).symm
      rw [hdj] at hcol
      unfold regPieceOk
      rw [hmidF]
      show (decide (dmF.color = c) &&
        (match dmF.loc with
         | some sq => decide (boardGet gf sq = some j)
         | none => false)) = true
      rw [hlocF]
      simp [hcolF, hcol, hbe]
    · have hjC : j ∉ C := fun hc => hCreg j hc c hj
      have hgfj : heapGet gf j = some dj := by rw [hheap j hjm hjC]; exact hgj
      have hb2 : boardGet gf sqj = some j := by
        by_cases hs1 : sqj = s
        · subst hs1
          rw [hs] at hbq
          exact absurd (Option.some.inj hbq).symm hjm
        · by_cases he1 : sqj = e
          · subst he1
            exact absurd hj (hbeold j hbq c)
          · by_cases hr1 : sqj ∈ R
            · exact absurd hj (hRocc sqj hr1 j hbq c)
            · rw [hbget sqj hs1 he1 hr1]
              exact hbq
      unfold regPieceOk
      rw [hgfj]
      show (decide (dj.color = c) &&
        (match dj.loc with
         | some sq => decide (boardGet gf sq = some j)
         | none => false)) = true
      rw [hlocj]
      simp [hcol, hb2]
  refine ⟨?_, hreg .white, hreg .black, hkcW, hkcB⟩
  intro p hp
  rcases hbmem p hp with hp1 | ⟨hp1, hp2, hp3, hp4⟩
  · rw [hp1]
    unfold occLocOk
    rw [hmidF]
    simp [hlocF]
  · obtain ⟨dp, hgp, hlp⟩ := occLocOk_spec (hinv.1 p hp1)
    have hpm : p.2 ≠ mid := by
      intro hh
      rw [hh, hdm] at hgp
      have hd : dp = dm := (Option.some.inj hgp).symm
      rw [hd, hdmloc] at hlp
      exact hp2 (Option.some.inj hlp).symm
    have hpC : p.2 ∉ C := fun hc => hCboard p.2 hc p hp rfl
    rw [occLocOk_congr p.1 (hheap p.2 hpm hpC)]
    exact hinv.1 p hp1

/-! Step lemmas for the castle path: a forced relocation onto an empty
square and a has-moved flag assignment keep the invariant and the
structural well-formedness. -/

theorem kingCount_eq_of_kindeq {g g' : GameState} (c : Color)
    (hl : piecesOf g' c = piecesOf g c)
    (hh : ∀ j ∈ piecesOf g c,
      (heapGet g' j).map PieceData.kind = (heapGet g j).map PieceData.kind) :
    kingCount g' c = kingCount g c := by
  unfold kingCount
  rw [hl]
  congr 1
  apply List.filter_congr
  intro j hj
  have h1 := hh j hj
  cases hg : heapGet g j with
  | none =>
    rw [hg] at h1
    cases hg2 : heapGet g' j with
    | none => rfl
    | some d2 => rw [hg2] at h1; simp at h1
  | some d =>
    rw [hg] at h1
    cases hg2 : heapGet g' j with
    | none => rw [hg2] at h1; simp at h1
    | some d2 =>
      rw [hg2] at h1
      have h2 : d2.kind = d.kind := by simpa using h1
      simp [h2]

theorem wf_heapModify {g : GameState} {i : Nat} {f : PieceData → PieceData} (hw : wf g) :
    wf (heapModify g i f) := by
  obtain ⟨h1, h2, h3, h4⟩ := hw
  refine ⟨?_, ?_, h3, h4⟩
  · rw [show (heapModify g i f).heap = amodify i f g.heap from rfl, amodify_map_fst]
    exact h1
  · rw [show (heapModify g i f).heap = amodify i f g.heap from rfl, amodify_map_fst]
    exact h2

theorem force_move_inv (g : GameState) (s e : Square)
    (hinv : inv g) (hw : wf g) (he : boardGet g e = none)
    (g' : GameState) (hfm : force_move g s e = .ok g') :
    inv g' ∧ wf g' ∧
    (∃ mid, boardGet g s = some mid ∧ boardGet g' e = some mid) ∧
    boardGet g' s = none ∧
    (∀ t, t ≠ s → t ≠ e → boardGet g' t = boardGet g t) ∧
    (∀ c, piecesOf g' c = piecesOf g c) ∧
    g'.activePlayer = g.activePlayer := by
  unfold force_move at hfm
  cases hfl : findLastLoc g g.activePlayer s with
  | none => rw [hfl] at hfm; cases hfm
  | some pp =>
    rw [hfl] at hfm
    simp only at hfm
    obtain rfl : boardSet (boardSet (heapSetLoc g pp (some e)) s none) e
        (boardGet (heapSetLoc g pp (some e)) s) = g' := Except.ok.inj hfm
    obtain ⟨hbs, hpmem⟩ := findLastLoc_char hinv hfl
    have hse : s ≠ e := fun hh => by rw [hh, he] at hbs; cases hbs
    have hes : e ≠ s := fun hh => hse hh.symm
    obtain ⟨dm, hdm, hdmloc⟩ := occLocOk_spec (inv_board hinv hbs)
    have hpc : boardGet (heapSetLoc g pp (some e)) s = some pp := by
      rw [boardGet_heapSetLoc]
      exact hbs
    rw [hpc]
    have hbrd : (boardSet (boardSet (heapSetLoc g pp (some e)) s none) e (some pp)).board =
        aset e pp (aerase s g.board) := rfl
    have hheapF : ∀ j, heapGet (boardSet (boardSet (heapSetLoc g pp (some e)) s none) e (some pp)) j =
        if j = pp then some { dm with loc := some e } else heapGet g j := by
      intro j
      rw [heapGet_boardSet_some]
      by_cases hj : j = pp
      · subst hj
        rw [if_pos rfl, if_pos rfl]
        rw [show heapGet (boardSet (heapSetLoc g j (some e)) s none) j =
            heapGet (heapSetLoc g j (some e)) j from rfl]
        rw [heapGet_heapSetLoc, if_pos rfl, hdm]
        rfl
      · rw [if_neg hj, if_neg hj]
        rw [show heapGet (boardSet (heapSetLoc g pp (some e)) s none) j =
            heapGet (heapSetLoc g pp (some e)) j from rfl]
        rw [heapGet_heapSetLoc, if_neg hj]
    have hem : e ∉ g.board.map Prod.fst := alookup_none_key_not_mem he
    have hbe2 : boardGet (boardSet (boardSet (heapSetLoc g pp (some e)) s none) e (some pp)) e =
        some pp := boardGet_boardSet_some_self _ _ _
    have hbs2 : boardGet (boardSet (boardSet (heapSetLoc g pp (some e)) s none) e (some pp)) s =
        none := by
      rw [boardGet_boardSet_some_ne _ _ _ _ hse]
      rw [show boardGet (boardSet (heapSetLoc g pp (some e)) s none) s =
          alookup s (aerase s (heapSetLoc g pp (some e)).board) from rfl]
      exact alookup_aerase_self _ _ hw.2.2.1
    have hbt : ∀ t, t ≠ s → t ≠ e →
        boardGet (boardSet (boardSet (heapSetLoc g pp (some e)) s none) e (some pp)) t =
          boardGet g t := by
      intro t hts hte
      rw [boardGet_boardSet_some_ne _ _ _ _ hte, boardGet_boardSet_none_ne _ _ _ hts]
      rfl
    have hpieces : ∀ c, piecesOf (boardSet (boardSet (heapSetLoc g pp (some e)) s none) e
        (some pp)) c = piecesOf g c := by
      intro c
      simp
    have hinvF : inv (boardSet (boardSet (heapSetLoc g pp (some e)) s none) e (some pp)) := by
      apply inv_final_master g _ s e pp dm { dm with loc := some e } [] []
        hinv hbs hdm
      · rw [hheapF, if_pos rfl]
      · rfl
      · rfl
      · rfl
      · intro j hj _
        rw [hheapF, if_neg hj]
      · intro j hj
        cases hj
      · intro j hj
        cases hj
      · intro p hp
        rw [hbrd] at hp
        have hnd1 : ((aerase s g.board).map Prod.fst).Nodup :=
          aerase_map_fst_nodup _ _ hw.2.2.1
        rcases mem_aset_nodup hnd1 hp with h1 | ⟨h1, h2⟩
        · exact Or.inl h1
        · obtain ⟨h3, h4⟩ := mem_aerase_nodup hw.2.2.1 h1
          exact Or.inr ⟨h3, h4, h2, by simp⟩
      · exact hbe2
      · intro t hts hte _
        exact hbt t hts hte
      · intro j hj
        rw [he] at hj
        cases hj
      · intro t ht
        cases ht
      · intro c j hj
        rw [hpieces c] at hj
        exact hj
      · apply kingCount_eq_of_kindeq .white (hpieces .white) ?_ |>.trans hinv.2.2.2.1
        intro j hj
        rw [hheapF]
        by_cases hj2 : j = pp
        · subst hj2
          rw [if_pos rfl, hdm]
          rfl
        · rw [if_neg hj2]
      · apply kingCount_eq_of_kindeq .black (hpieces .black) ?_ |>.trans hinv.2.2.2.2
        intro j hj
        rw [hheapF]
        by_cases hj2 : j = pp
        · subst hj2
          rw [if_pos rfl, hdm]
          rfl
        · rw [if_neg hj2]
    have hwfF : wf (boardSet (boardSet (heapSetLoc g pp (some e)) s none) e (some pp)) := by
      obtain ⟨w1, w2, w3, w4⟩ := hw
      refine ⟨?_, ?_, ?_, w4⟩
      · rw [show (boardSet (boardSet (heapSetLoc g pp (some e)) s none) e (some pp)).heap =
          amodify pp (fun d => { d with loc := some e })
            (amodify pp (fun d => { d with loc := some e }) g.heap) from rfl]
        rw [amodify_map_fst, amodify_map_fst]
        exact w1
      · rw [show (boardSet (boardSet (heapSetLoc g pp (some e)) s none) e (some pp)).heap =
          amodify pp (fun d => { d with loc := some e })
            (amodify pp (fun d => { d with loc := some e }) g.heap) from rfl]
        rw [amodify_map_fst, amodify_map_fst]
        exact w2
      · rw [hbrd, aset_map_fst, if_neg]
        · apply List.Nodup.append (aerase_map_fst_nodup _ _ w3) (List.nodup_singleton e)
          intro a ha hb
          rw [List.mem_singleton] at hb
          subst hb
          exact hem (aerase_map_fst_subset _ _ _ ha)
        · intro hmem
          exact hem (aerase_map_fst_subset _ _ _ hmem)
    exact ⟨hinvF, hwfF, ⟨pp, hbs, hbe2⟩, hbs2, hbt, hpieces, by simp⟩

theorem setHasMovedAt_inv (g : GameState) (sq : Square)
    (hinv : inv g) (hw : wf g)
    (g' : GameState) (hsm : setHasMovedAt g sq = .ok g') :
    inv g' ∧ wf g' ∧ (∀ t, boardGet g' t = boardGet g t) ∧
    (∀ c, piecesOf g' c = piecesOf g c) ∧ g'.activePlayer = g.activePlayer := by
  unfold setHasMovedAt at hsm
  cases hb : boardGet g sq with
  | none => rw [hb] at hsm; cases hsm
  | some i =>
    rw [hb] at hsm
    simp only at hsm
    obtain rfl : heapModify g i (fun d => { d with hasMoved := true }) = g' :=
      Except.ok.inj hsm
    refine ⟨inv_heapModify_pres (fun d => ⟨rfl, rfl, rfl⟩) hinv, wf_heapModify hw,
      fun t => rfl, fun c => by simp, rfl⟩

theorem castle_inv (fuel : Nat) (g : GameState) (ks : Bool)
    (hinv : inv g) (hw : wf g)
    (g1 : GameState) (hc : castle fuel g ks = .ok g1) :
    inv g1 := by
  unfold castle at hc
  dsimp only at hc
  cases ks with
  | true =>
    rw [if_pos rfl] at hc
    split at hc
    · cases hc
    · rename_i hgate
      have hgate2 : (can_castle fuel g g.activePlayer).kingside = true := by
        revert hgate
        cases (can_castle fuel g g.activePlayer).kingside <;> simp
      have hconds := (castle_gate_iff fuel g true).mp (by simpa using hgate2)
      obtain ⟨-, -, hbtw, -⟩ := hconds
      have he6 : boardGet g ⟨6, castleRank g⟩ = none := by
        apply hbtw
        simp [castleBetweenCode]
      have he5 : boardGet g ⟨5, castleRank g⟩ = none := by
        apply hbtw
        simp [castleBetweenCode]
      rw [show (if g.activePlayer = Color.white then (1 : Int) else 8) = castleRank g
        from rfl] at hc
      cases hf1 : force_move g ⟨4, castleRank g⟩ ⟨6, castleRank g⟩ with
      | error p => rw [hf1] at hc; simp [Bind.bind, Except.bind] at hc
      | ok ga =>
        rw [hf1] at hc
        simp only [Bind.bind, Except.bind] at hc
        obtain ⟨hinva, hwfa, ⟨mida, hmas, hmae⟩, hgas, hgat, hgap, hgaact⟩ :=
          force_move_inv g _ _ hinv hw he6 ga hf1
        have hne5 : boardGet ga ⟨5, castleRank g⟩ = none := by
          rw [hgat ⟨5, castleRank g⟩ (by simp [Square.mk.injEq]) (by simp [Square.mk.injEq])]
          exact he5
        cases hf2 : force_move ga ⟨7, castleRank g⟩ ⟨5, castleRank g⟩ with
        | error p => rw [hf2] at hc; simp [Bind.bind, Except.bind] at hc
        | ok gb =>
          rw [hf2] at hc
          simp only [Bind.bind, Except.bind] at hc
          obtain ⟨hinvb, hwfb, -, -, -, -, -⟩ :=
            force_move_inv ga _ _ hinva hwfa hne5 gb hf2
          cases hs1 : setHasMovedAt gb ⟨6, castleRank g⟩ with
          | error p => rw [hs1] at hc; simp [Bind.bind, Except.bind] at hc
          | ok gc =>
            rw [hs1] at hc
            simp only [Bind.bind, Except.bind] at hc
            obtain ⟨hinvc, hwfc, -, -, -⟩ := setHasMovedAt_inv gb _ hinvb hwfb gc hs1
            cases hs2 : setHasMovedAt gc ⟨5, castleRank g⟩ with
            | error p => rw [hs2] at hc; cases hc
            | ok gd =>
              rw [hs2] at hc
              obtain rfl : gd = g1 := Except.ok.inj hc
              exact (setHasMovedAt_inv gc _ hinvc hwfc gd hs2).1
  | false =>
    rw [if_neg (by simp)] at hc
    split at hc
    · cases hc
    · rename_i hgate
      have hgate2 : (can_castle fuel g g.activePlayer).queenside = true := by
        revert hgate
        cases (can_castle fuel g g.activePlayer).queenside <;> simp
      have hconds := (castle_gate_iff fuel g false).mp (by simpa using hgate2)
      obtain ⟨-, -, hbtw, -⟩ := hconds
      have he2 : boardGet g ⟨2, castleRank g⟩ = none := by
        apply hbtw
        simp [castleBetweenCode]
      have he3 : boardGet g ⟨3, castleRank g⟩ = none := by
        apply hbtw
        simp [castleBetweenCode]
      rw [show (if g.activePlayer = Color.white then (1 : Int) else 8) = castleRank g
        from rfl] at hc
      cases hf1 : force_move g ⟨4, castleRank g⟩ ⟨2, castleRank g⟩ with
      | error p => rw [hf1] at hc; simp [Bind.bind, Except.bind] at hc
      | ok ga =>
        rw [hf1] at hc
        simp only [Bind.bind, Except.bind] at hc
        obtain ⟨hinva, hwfa, ⟨mida, hmas, hmae⟩, hgas, hgat, hgap, hgaact⟩ :=
          force_move_inv g _ _ hinv hw he2 ga hf1
        have hne3 : boardGet ga ⟨3, castleRank g⟩ = none := by
          rw [hgat ⟨3, castleRank g⟩ (by simp [Square.mk.injEq]) (by simp [Square.mk.injEq])]
          exact he3
        cases hf2 : force_move ga ⟨0, castleRank g⟩ ⟨3, castleRank g⟩ with
        | error p => rw [hf2] at hc; simp [Bind.bind, Except.bind] at hc
        | ok gb =>
          rw [hf2] at hc
          simp only [Bind.bind, Except.bind] at hc
          obtain ⟨hinvb, hwfb, -, -, -, -, -⟩ :=
            force_move_inv ga _ _ hinva hwfa hne3 gb hf2
          cases hs1 : setHasMovedAt gb ⟨2, castleRank g⟩ with
          | error p => rw [hs1] at hc; simp [Bind.bind, Except.bind] at hc
          | ok gc =>
            rw [hs1] at hc
            simp only [Bind.bind, Except.bind] at hc
            obtain ⟨hinvc, hwfc, -, -, -⟩ := setHasMovedAt_inv gb _ hinvb hwfb gc hs1
            cases hs2 : setHasMovedAt gc ⟨3, castleRank g⟩ with
            | error p => rw [hs2] at hc; cases hc
            | ok gd =>
              rw [hs2] at hc
              obtain rfl : gd = g1 := Except.ok.inj hc
              exact (setHasMovedAt_inv gc _ hinvc hwfc gd hs2).1

/-! Characterization of a successful board relocation (`Game.move` lines
204-207): destination takes the mover, source is vacated, side effects
touch at most the mover's has-moved flag. -/

theorem board_relocate_ok_char (g : GameState) (s e : Square) (mid : Nat) (dm : PieceData)
    (hs : boardGet g s = some mid) (hdm : heapGet g mid = some dm) (hse : s ≠ e)
    (g2 : GameState) (hbr : board_relocate g s e = .ok g2) :
    ∃ f : PieceData → PieceData,
      (∀ dd, (f dd).kind = dd.kind ∧ (f dd).color = dd.color ∧ (f dd).loc = dd.loc) ∧
      g2.board = aerase s (aset e mid g.board) ∧
      g2.whitePieces = g.whitePieces ∧ g2.blackPieces = g.blackPieces ∧
      (∀ j, heapGet g2 j = if j = mid then some (f { dm with loc := some e })
        else heapGet g j) := by
  have hes : e ≠ s := fun hh => hse hh.symm
  unfold board_relocate at hbr
  dsimp only at hbr
  rw [hs] at hbr
  have hbe2 : boardGet (boardSet (boardSet g e (some mid)) s none) e = some mid := by
    rw [boardGet_boardSet_none_ne _ _ _ hes]
    exact boardGet_boardSet_some_self _ _ _
  have hgBmid : heapGet (boardSet (boardSet g e (some mid)) s none) mid =
      some { dm with loc := some e } := by
    rw [heapGet_boardSet_none, heapGet_boardSet_some, if_pos rfl, hdm]
    rfl
  unfold move_effects at hbr
  rw [hbe2] at hbr
  simp only at hbr
  rw [hgBmid] at hbr
  simp only at hbr
  obtain rfl : pieceMoveEffects (boardSet (boardSet g e (some mid)) s none) mid
      { dm with loc := some e } s e = g2 := Except.ok.inj hbr
  obtain ⟨hpb, hpw, hpbl, f, hf, hph⟩ :=
    pieceMoveEffects_parts (boardSet (boardSet g e (some mid)) s none) mid
      { dm with loc := some e } s e
  refine ⟨f, hf, ?_, hpw, hpbl, ?_⟩
  · rw [hpb]
    rfl
  · intro j
    rw [hph j]
    by_cases hj : j = mid
    · subst hj
      rw [if_pos rfl, if_pos rfl, hgBmid]
      rfl
    · rw [if_neg hj, if_neg hj, heapGet_boardSet_none, heapGet_boardSet_some, if_neg hj]

/-! The plain (non-capture) standard move keeps the invariant. -/

theorem plain_move_inv (g : GameState) (s e : Square) (mid : Nat)
    (hinv : inv g) (hw : wf g)
    (hs : boardGet g s = some mid) (he : boardGet g e = none)
    (pp : Nat) (hpp : findLastLoc g g.activePlayer s = some pp)
    (g2 : GameState) (hbr : board_relocate g s e = .ok g2) :
    inv (finalize_move (heapSetLoc g2 pp (some e)) (.stdIn s e)) := by
  obtain ⟨hbpp, hppmem⟩ := findLastLoc_char hinv hpp
  obtain rfl : mid = pp := by rw [hs] at hbpp; exact Option.some.inj hbpp
  have hse : s ≠ e := fun hh => by rw [hh, he] at hs; cases hs
  have hes : e ≠ s := fun hh => hse hh.symm
  obtain ⟨dm, hdm, hdmloc⟩ := occLocOk_spec (inv_board hinv hs)
  obtain ⟨f, hf, hb2, hw2, hbl2, hh2⟩ :=
    board_relocate_ok_char g s e mid dm hs hdm hse g2 hbr
  apply inv_finalize_move
  have hem : e ∉ g.board.map Prod.fst := alookup_none_key_not_mem he
  have hndset : ((aset e mid g.board).map Prod.fst).Nodup := by
    rw [aset_map_fst, if_neg hem]
    apply List.Nodup.append hw.2.2.1 (List.nodup_singleton e)
    intro a ha hb
    rw [List.mem_singleton] at hb
    subst hb
    exact hem ha
  have hgEb : (heapSetLoc g2 mid (some e)).board = aerase s (aset e mid g.board) := by
    rw [show (heapSetLoc g2 mid (some e)).board = g2.board from rfl, hb2]
  have hbg : ∀ t, boardGet (heapSetLoc g2 mid (some e)) t =
      alookup t (aerase s (aset e mid g.board)) := by
    intro t
    unfold boardGet
    rw [hgEb]
  have hheapE : ∀ j, heapGet (heapSetLoc g2 mid (some e)) j =
      if j = mid then some { f { dm with loc := some e } with loc := some e }
      else heapGet g j := by
    intro j
    rw [heapGet_heapSetLoc]
    by_cases hj : j = mid
    · subst hj
      rw [if_pos rfl, if_pos rfl, hh2, if_pos rfl]
      rfl
    · rw [if_neg hj, if_neg hj, hh2, if_neg hj]
  have hpc : ∀ c, piecesOf (heapSetLoc g2 mid (some e)) c = piecesOf g c := by
    intro c
    rw [piecesOf_heapSetLoc]
    cases c
    · exact hw2
    · exact hbl2
  have hkindF : ({ f { dm with loc := some e } with loc := some e } : PieceData).kind =
      dm.kind := by rw [(hf _).1]
  have hcolFh : ({ f { dm with loc := some e } with loc := some e } : PieceData).color =
      dm.color := by rw [(hf _).2.1]
  apply inv_final_master g _ s e mid dm
    { f { dm with loc := some e } with loc := some e } [] []
    hinv hs hdm
  · rw [hheapE, if_pos rfl]
  · exact hkindF
  · exact hcolFh
  · rfl
  · intro j hj _
    rw [hheapE, if_neg hj]
  · intro j hj
    cases hj
  · intro j hj
    cases hj
  · intro p hp
    rw [hgEb] at hp
    obtain ⟨hp1, hp2⟩ := mem_aerase_nodup hndset hp
    rcases mem_aset_nodup hw.2.2.1 hp1 with h1 | ⟨h1, h2⟩
    · exact Or.inl h1
    · exact Or.inr ⟨h1, hp2, h2, by simp⟩
  · rw [hbg, alookup_aerase_ne _ _ _ hes, alookup_aset_self]
  · intro t hts hte _
    rw [hbg, alookup_aerase_ne _ _ _ hts, alookup_aset_ne _ _ _ _ hte]
    rfl
  · intro j hj
    rw [he] at hj
    cases hj
  · intro t ht
    cases ht
  · intro c j hj
    rw [hpc c] at hj
    exact hj
  · apply (kingCount_eq_of_kindeq .white (hpc .white) ?_).trans hinv.2.2.2.1
    intro j hj
    rw [hheapE]
    by_cases hj2 : j = mid
    · subst hj2
      rw [if_pos rfl, hdm]
      simp only [Option.map]
      show some _ = some _
      congr 1
    · rw [if_neg hj2]
  · apply (kingCount_eq_of_kindeq .black (hpc .black) ?_).trans hinv.2.2.2.2
    intro j hj
    rw [hheapE]
    by_cases hj2 : j = mid
    · subst hj2
      rw [if_pos rfl, hdm]
      simp only [Option.map]
      show some _ = some _
      congr 1
    · rw [if_neg hj2]

/-! Projection lemmas for the captured-piece bookkeeping primitives. -/

theorem piecesOf_setCapturedOf (g : GameState) (c1 : Color) (l : List Nat) (c : Color) :
    piecesOf (setCapturedOf g c1 l) c = piecesOf g c := by
  cases c1 <;> cases c <;> rfl

theorem heapGet_setCapturedOf (g : GameState) (c1 : Color) (l : List Nat) (j : Nat) :
    heapGet (setCapturedOf g c1 l) j = heapGet g j := by
  cases c1 <;> rfl

theorem board_setCapturedOf (g : GameState) (c1 : Color) (l : List Nat) :
    (setCapturedOf g c1 l).board = g.board := by
  cases c1 <;> rfl

theorem heapGet_setPiecesOf (g : GameState) (c1 : Color) (l : List Nat) (j : Nat) :
    heapGet (setPiecesOf g c1 l) j = heapGet g j := by
  cases c1 <;> rfl

theorem board_setPiecesOf (g : GameState) (c1 : Color) (l : List Nat) :
    (setPiecesOf g c1 l).board = g.board := by
  cases c1 <;> rfl

theorem piecesOf_setPiecesOf_self (g : GameState) (c : Color) (l : List Nat) :
    piecesOf (setPiecesOf g c l) c = l := by
  cases c <;> rfl

theorem piecesOf_setPiecesOf_ne (g : GameState) (c1 : Color) (l : List Nat) (c : Color)
    (h : c ≠ c1) : piecesOf (setPiecesOf g c1 l) c = piecesOf g c := by
  cases c1 <;> cases c <;> first | rfl | exact absurd rfl h

/-- The two registries never share a reference. -/
theorem reg_disjoint {g : GameState} (hw : wf g) {i j : Nat}
    (hi : i ∈ g.whitePieces) (hj : j ∈ g.blackPieces) : i ≠ j := by
  have hd := (List.nodup_append.mp hw.2.2.2).2.2
  intro h
  exact hd hi (h ▸ hj)

/-- Registry pieces of different colors are distinct references. -/
theorem reg_ne_of_colors {g : GameState} (hw : wf g) {c1 c2 : Color} {i j : Nat}
    (hi : i ∈ piecesOf g c1) (hj : j ∈ piecesOf g c2) (hc : c1 ≠ c2) : i ≠ j := by
  cases c1 <;> cases c2
  · exact absurd rfl hc
  · exact reg_disjoint hw hi hj
  · exact fun hh => reg_disjoint hw hj hi hh.symm
  · exact absurd rfl hc

/-- A reference can only sit in the registry of its own color. -/
theorem not_mem_other_reg {g : GameState} (hinv : inv g) {i : Nat} {d : PieceData}
    (hg : heapGet g i = some d) (c : Color) (hc : c ≠ d.color) : i ∉ piecesOf g c := by
  intro hmem
  obtain ⟨d2, hg2, hcol, -, -, -⟩ := regPieceOk_spec (inv_reg hinv c hmem)
  rw [hg] at hg2
  obtain rfl : d2 = d := (Option.some.inj hg2).symm
  exact hc hcol.symm

/-- Each registry individually is duplicate-free. -/
theorem reg_nodup {g : GameState} (hw : wf g) (c : Color) : (piecesOf g c).Nodup := by
  cases c
  · exact (List.nodup_append.mp hw.2.2.2).1
  · exact (List.nodup_append.mp hw.2.2.2).2.1

/-! A capture of an opposing non-King piece keeps the invariant. -/

theorem capture_move_inv (g : GameState) (s e : Square) (mid cid : Nat)
    (dm cdo : PieceData)
    (hinv : inv g) (hw : wf g)
    (hs : boardGet g s = some mid) (he : boardGet g e = some cid)
    (hdm : heapGet g mid = some dm) (hcd : heapGet g cid = some cdo)
    (hcolor : cdo.color ≠ g.activePlayer) (hking : cdo.kind ≠ Kind.king)
    (pp : Nat) (hpp : findLastLoc g g.activePlayer s = some pp)
    (g2 : GameState) (hbr : board_relocate { g with enpassants := none } s e = .ok g2) :
    inv (finalize_move (heapSetLoc (captured_block g2 cid) pp (some e)) (.stdIn s e)) := by
  obtain ⟨hbpp, hppmem⟩ := findLastLoc_char hinv hpp
  obtain rfl : mid = pp := by rw [hs] at hbpp; exact Option.some.inj hbpp
  obtain ⟨dm2, hdm2, hdmcol, sqm, hdmlq, hbmq⟩ := regPieceOk_spec (inv_reg hinv _ hppmem)
  obtain rfl : dm = dm2 := by rw [hdm] at hdm2; exact Option.some.inj hdm2
  obtain ⟨dmo, hdmo, hdmloc⟩ := occLocOk_spec (inv_board hinv hs)
  obtain rfl : dm = dmo := by rw [hdm] at hdmo; exact Option.some.inj hdmo
  obtain ⟨cdo2, hcdo2, hcdloc⟩ := occLocOk_spec (inv_board hinv he)
  obtain rfl : cdo = cdo2 := by rw [hcd] at hcdo2; exact Option.some.inj hcdo2
  have hmidcid : mid ≠ cid := by
    intro hh
    rw [hh, hcd] at hdm
    obtain rfl : cdo = dm := Option.some.inj hdm
    exact hcolor hdmcol
  have hcidmid : cid ≠ mid := fun hh => hmidcid hh.symm
  have hse : s ≠ e := by
    intro hh
    rw [hh, he] at hs
    exact hmidcid (Option.some.inj hs).symm
  have hes : e ≠ s := fun hh => hse hh.symm
  obtain ⟨f, hf, hb2x, hw2x, hbl2x, hh2x⟩ :=
    board_relocate_ok_char { g with enpassants := none } s e mid dm hs hdm hse g2 hbr
  have hb2 : g2.board = aerase s (aset e mid g.board) := hb2x
  have hw2 : g2.whitePieces = g.whitePieces := hw2x
  have hbl2 : g2.blackPieces = g.blackPieces := hbl2x
  have hh2 : ∀ j, heapGet g2 j = if j = mid then some (f { dm with loc := some e })
      else heapGet g j := fun j => hh2x j
  have hpc2 : ∀ c, piecesOf g2 c = piecesOf g c := by
    intro c
    cases c
    · exact hw2
    · exact hbl2
  have hg2cid : heapGet g2 cid = some cdo := by
    rw [hh2 cid, if_neg hcidmid]
    exact hcd
  have hcb : captured_block g2 cid =
      heapSetLoc (setPiecesOf (setCapturedOf g2 cdo.color (capturedOf g2 cdo.color ++ [cid]))
        cdo.color
        (pyRemoveLoop (setCapturedOf g2 cdo.color (capturedOf g2 cdo.color ++ [cid])) cdo
          (piecesOf (setCapturedOf g2 cdo.color (capturedOf g2 cdo.color ++ [cid])) cdo.color) 0))
        cid none := by
    unfold captured_block
    rw [hg2cid]
  have hg3reg : ∀ c, piecesOf (setCapturedOf g2 cdo.color (capturedOf g2 cdo.color ++ [cid])) c
      = piecesOf g c := by
    intro c
    rw [piecesOf_setCapturedOf, hpc2]
  have hg3heap : ∀ j, heapGet (setCapturedOf g2 cdo.color (capturedOf g2 cdo.color ++ [cid])) j
      = heapGet g2 j := fun j => heapGet_setCapturedOf _ _ _ j
  have hmid_not_c0 : mid ∉ piecesOf g cdo.color := by
    apply not_mem_other_reg hinv hdm
    intro hh
    exact hcolor (hh ▸ hdmcol)
  have hnomatch : ∀ j ∈ piecesOf g cdo.color, j ≠ cid →
      pieceEqPy (setCapturedOf g2 cdo.color (capturedOf g2 cdo.color ++ [cid])) j cdo
        = false := by
    intro j hj hjcid
    have hjmid : j ≠ mid := fun hh => hmid_not_c0 (hh ▸ hj)
    obtain ⟨dj, hgj, hjcol, sqj, hjloc, hjbq⟩ := regPieceOk_spec (inv_reg hinv _ hj)
    unfold pieceEqPy
    rw [hg3heap j, hh2 j, if_neg hjmid, hgj]
    simp only [decide_eq_false_iff_not]
    rintro ⟨-, hloceq⟩
    rw [hjloc, hcdloc] at hloceq
    obtain rfl : sqj = e := Option.some.inj hloceq
    rw [hjbq] at he
    exact hjcid (Option.some.inj he)
  have hmatchcid :
      pieceEqPy (setCapturedOf g2 cdo.color (capturedOf g2 cdo.color ++ [cid])) cid cdo
        = true := by
    unfold pieceEqPy
    rw [hg3heap cid, hg2cid]
    simp
  have hcid_other : ∀ c, c ≠ cdo.color → cid ∉ piecesOf g c := by
    intro c hc
    exact not_mem_other_reg hinv hcd c hc
  obtain ⟨L, hrem, hLsub, hLnocid, hLcount⟩ :
      ∃ L, pyRemoveLoop (setCapturedOf g2 cdo.color (capturedOf g2 cdo.color ++ [cid])) cdo
          (piecesOf g cdo.color) 0 = L ∧
        (∀ j, j ∈ L → j ∈ piecesOf g cdo.color) ∧ cid ∉ L ∧
        (L.filter (fun i => match heapGet g i with
          | some d => d.kind = Kind.king
          | none => false)).length =
          ((piecesOf g cdo.color).filter (fun i => match heapGet g i with
            | some d => d.kind = Kind.king
            | none => false)).length := by
    by_cases hcin : cid ∈ piecesOf g cdo.color
    · obtain ⟨l1, l2, hsplit⟩ := List.append_of_mem hcin
      have hnodl := reg_nodup hw cdo.color
      rw [hsplit] at hnodl
      have hnd := List.nodup_append.mp hnodl
      have hcid1 : cid ∉ l1 := fun hh => hnd.2.2 hh (List.mem_cons_self _ _)
      have hcid2 : cid ∉ l2 := (List.nodup_cons.mp hnd.2.1).1
      have hm1 : ∀ i ∈ l1, pieceEqPy (setCapturedOf g2 cdo.color
          (capturedOf g2 cdo.color ++ [cid])) i cdo = false := by
        intro i hi
        apply hnomatch i (by rw [hsplit]; exact List.mem_append_left _ hi)
        intro hh
        exact hcid1 (hh ▸ hi)
      have hm2 : ∀ i ∈ l2, pieceEqPy (setCapturedOf g2 cdo.color
          (capturedOf g2 cdo.color ++ [cid])) i cdo = false := by
        intro i hi
        have hmem : i ∈ piecesOf g cdo.color := by
          rw [hsplit]
          exact List.mem_append_right _ (List.mem_cons_of_mem _ hi)
        apply hnomatch i hmem
        intro hh
        exact hcid2 (hh ▸ hi)
      refine ⟨l1 ++ l2, ?_, ?_, ?_, ?_⟩
      · rw [hsplit]
        exact pyRemoveLoop_unique _ cdo l1 l2 cid hm1 hmatchcid hm2
      · intro j hj
        rw [hsplit]
        rcases List.mem_append.mp hj with hj | hj
        · exact List.mem_append_left _ hj
        · exact List.mem_append_right _ (List.mem_cons_of_mem _ hj)
      · intro hh
        rcases List.mem_append.mp hh with hh | hh
        · exact hcid1 hh
        · exact hcid2 hh
      · rw [hsplit]
        simp only [List.filter_append, List.filter_cons, hcd]
        simp [hking]
    · refine ⟨piecesOf g cdo.color, ?_, fun j hj => hj, hcin, rfl⟩
      apply pyRemoveLoop_no_match
      intro i hi
      apply hnomatch i hi
      intro hh
      exact hcin (hh ▸ hi)
  have hrem2 : pyRemoveLoop (setCapturedOf g2 cdo.color (capturedOf g2 cdo.color ++ [cid])) cdo
      (piecesOf (setCapturedOf g2 cdo.color (capturedOf g2 cdo.color ++ [cid])) cdo.color) 0
      = L := by
    rw [hg3reg]
    exact hrem
  rw [hcb, hrem2]
  apply inv_finalize_move
  have hem : e ∈ g.board.map Prod.fst := by
    have := alookup_mem he
    exact List.mem_map_of_mem Prod.fst this
  have hndset : ((aset e mid g.board).map Prod.fst).Nodup := by
    rw [aset_map_fst, if_pos hem]
    exact hw.2.2.1
  have hgFb : (heapSetLoc (heapSetLoc (setPiecesOf (setCapturedOf g2 cdo.color
      (capturedOf g2 cdo.color ++ [cid])) cdo.color L) cid none) mid (some e)).board =
      aerase s (aset e mid g.board) := by
    rw [show (heapSetLoc (heapSetLoc (setPiecesOf (setCapturedOf g2 cdo.color
      (capturedOf g2 cdo.color ++ [cid])) cdo.color L) cid none) mid (some e)).board =
      (setPiecesOf (setCapturedOf g2 cdo.color
        (capturedOf g2 cdo.color ++ [cid])) cdo.color L).board from rfl]
    rw [board_setPiecesOf, board_setCapturedOf, hb2]
  have hA : ∀ j, heapGet (setPiecesOf (setCapturedOf g2 cdo.color
      (capturedOf g2 cdo.color ++ [cid])) cdo.color L) j = heapGet g2 j := by
    intro j
    rw [heapGet_setPiecesOf, hg3heap]
  have hB : ∀ j, heapGet (heapSetLoc (setPiecesOf (setCapturedOf g2 cdo.color
      (capturedOf g2 cdo.color ++ [cid])) cdo.color L) cid none) j =
      if j = cid then some { cdo with loc := none } else heapGet g2 j := by
    intro j
    rw [heapGet_heapSetLoc]
    by_cases hj : j = cid
    · subst hj
      rw [if_pos rfl, if_pos rfl, hA, hg2cid]
      rfl
    · rw [if_neg hj, if_neg hj, hA]
  have hheapF : ∀ j, heapGet (heapSetLoc (heapSetLoc (setPiecesOf (setCapturedOf g2 cdo.color
      (capturedOf g2 cdo.color ++ [cid])) cdo.color L) cid none) mid (some e)) j =
      if j = mid then some { f { dm with loc := some e } with loc := some e }
      else if j = cid then some { cdo with loc := none }
      else heapGet g j := by
    intro j
    rw [heapGet_heapSetLoc]
    by_cases hj : j = mid
    · subst hj
      rw [if_pos rfl, if_pos rfl, hB, if_neg hmidcid, hh2, if_pos rfl]
      rfl
    · rw [if_neg hj, if_neg hj, hB]
      by_cases hj2 : j = cid
      · rw [if_pos hj2, if_pos hj2]
      · rw [if_neg hj2, if_neg hj2, hh2, if_neg hj]
  have hpcF : ∀ c, piecesOf (heapSetLoc (heapSetLoc (setPiecesOf (setCapturedOf g2 cdo.color
      (capturedOf g2 cdo.color ++ [cid])) cdo.color L) cid none) mid (some e)) c =
      if c = cdo.color then L else piecesOf g c := by
    intro c
    rw [piecesOf_heapSetLoc, piecesOf_heapSetLoc]
    by_cases hc : c = cdo.color
    · subst hc
      rw [if_pos rfl, piecesOf_setPiecesOf_self]
    · rw [if_neg hc, piecesOf_setPiecesOf_ne _ _ _ _ hc, hg3reg]
  have hcidnotF : ∀ c, cid ∉ piecesOf (heapSetLoc (heapSetLoc (setPiecesOf (setCapturedOf g2
      cdo.color (capturedOf g2 cdo.color ++ [cid])) cdo.color L) cid none) mid (some e)) c := by
    intro c
    rw [hpcF c]
    by_cases hc : c = cdo.color
    · rw [if_pos hc]
      exact hLnocid
    · rw [if_neg hc]
      exact hcid_other c hc
  have hkindF : ({ f { dm with loc := some e } with loc := some e } : PieceData).kind =
      dm.kind := by rw [(hf _).1]
  have hcolFh : ({ f { dm with loc := some e } with loc := some e } : PieceData).color =
      dm.color := by rw [(hf _).2.1]
  have hpred : ∀ j, j ≠ cid →
      (match heapGet (heapSetLoc (heapSetLoc (setPiecesOf (setCapturedOf g2 cdo.color
          (capturedOf g2 cdo.color ++ [cid])) cdo.color L) cid none) mid (some e)) j with
       | some d => decide (d.kind = Kind.king)
       | none => false) =
      (match heapGet g j with
       | some d => decide (d.kind = Kind.king)
       | none => false) := by
    intro j hj
    rw [hheapF]
    by_cases hjm : j = mid
    · subst hjm
      rw [if_pos rfl, hdm]
      show decide (({ f { dm with loc := some e } with loc := some e } : PieceData).kind
        = Kind.king) = decide (dm.kind = Kind.king)
      rw [hkindF]
    · rw [if_neg hjm, if_neg hj]
  have hkcF : ∀ c, kingCount (heapSetLoc (heapSetLoc (setPiecesOf (setCapturedOf g2 cdo.color
      (capturedOf g2 cdo.color ++ [cid])) cdo.color L) cid none) mid (some e)) c =
      kingCount g c := by
    intro c
    unfold kingCount
    rw [hpcF c]
    by_cases hc : c = cdo.color
    · rw [if_pos hc]
      have h1 := List.filter_congr (fun j hj => hpred j (fun hh => hLnocid (hh ▸ hj)))
      rw [h1, hc]
      exact hLcount
    · rw [if_neg hc]
      congr 1
      apply List.filter_congr
      intro j hj
      apply hpred j
      intro hh
      exact hcid_other c hc (hh ▸ hj)
  apply inv_final_master g _ s e mid dm
    { f { dm with loc := some e } with loc := some e } [cid] []
    hinv hs hdm
  · rw [hheapF, if_pos rfl]
  · exact hkindF
  · exact hcolFh
  · rfl
  · intro j hj hjC
    have hjcid : j ≠ cid := by
      intro hh
      exact hjC (hh ▸ List.mem_singleton_self cid)
    rw [hheapF, if_neg hj, if_neg hjcid]
  · intro j hj p hp
    rw [List.mem_singleton] at hj
    subst hj
    rw [hgFb] at hp
    obtain ⟨hp1, hp2⟩ := mem_aerase_nodup hndset hp
    rcases mem_aset_nodup hw.2.2.1 hp1 with h1 | ⟨h1, h2⟩
    · rw [h1]
      exact hmidcid
    · intro hh
      have := occLocOk_spec (hinv.1 p h1)
      obtain ⟨dp, hgp, hlp⟩ := this
      rw [hh, hcd] at hgp
      obtain rfl : dp = cdo := (Option.some.inj hgp).symm
      rw [hcdloc] at hlp
      exact h2 (Option.some.inj hlp).symm
  · intro j hj c
    rw [List.mem_singleton] at hj
    subst hj
    exact hcidnotF c
  · intro p hp
    rw [hgFb] at hp
    obtain ⟨hp1, hp2⟩ := mem_aerase_nodup hndset hp
    rcases mem_aset_nodup hw.2.2.1 hp1 with h1 | ⟨h1, h2⟩
    · exact Or.inl h1
    · exact Or.inr ⟨h1, hp2, h2, by simp⟩
  · rw [show boardGet (heapSetLoc (heapSetLoc (setPiecesOf (setCapturedOf g2 cdo.color
      (capturedOf g2 cdo.color ++ [cid])) cdo.color L) cid none) mid (some e)) e =
      alookup e (heapSetLoc (heapSetLoc (setPiecesOf (setCapturedOf g2 cdo.color
        (capturedOf g2 cdo.color ++ [cid])) cdo.color L) cid none) mid (some e)).board
      from rfl, hgFb, alookup_aerase_ne _ _ _ hes, alookup_aset_self]
  · intro t hts hte _
    rw [show boardGet (heapSetLoc (heapSetLoc (setPiecesOf (setCapturedOf g2 cdo.color
      (capturedOf g2 cdo.color ++ [cid])) cdo.color L) cid none) mid (some e)) t =
      alookup t (heapSetLoc (heapSetLoc (setPiecesOf (setCapturedOf g2 cdo.color
        (capturedOf g2 cdo.color ++ [cid])) cdo.color L) cid none) mid (some e)).board
      from rfl, hgFb, alookup_aerase_ne _ _ _ hts, alookup_aset_ne _ _ _ _ hte]
    rfl
  · intro j hj c
    rw [he] at hj
    obtain rfl : cid = j := Option.some.inj hj
    exact hcidnotF c
  · intro t ht
    cases ht
  · intro c j hj
    rw [hpcF c] at hj
    by_cases hc : c = cdo.color
    · rw [if_pos hc] at hj
      rw [hc]
      exact hLsub j hj
    · rw [if_neg hc] at hj
      exact hj
  · rw [hkcF .white]
    exact hinv.2.2.2.1
  · rw [hkcF .black]
    exact hinv.2.2.2.2

theorem boardGet_setCapturedOf (g : GameState) (c1 : Color) (l : List Nat) (t : Square) :
    boardGet (setCapturedOf g c1 l) t = boardGet g t := by
  cases c1 <;> rfl

theorem boardGet_setPiecesOf (g : GameState) (c1 : Color) (l : List Nat) (t : Square) :
    boardGet (setPiecesOf g c1 l) t = boardGet g t := by
  cases c1 <;> rfl

theorem piecesOf_alloc (g : GameState) (d : PieceData) (c : Color) :
    piecesOf (alloc g d).1 c = piecesOf g c := by
  cases c <;> rfl

theorem activePlayer_alloc (g : GameState) (d : PieceData) :
    (alloc g d).1.activePlayer = g.activePlayer := rfl

/-- Any reference occurring on the board is an allocated id, hence below
the allocation counter. -/
theorem board_ref_lt {g : GameState} (hinv : inv g) (hw : wf g) {p : Square × Nat}
    (hp : p ∈ g.board) : p.2 < g.nextId := by
  obtain ⟨d, hgd, -⟩ := occLocOk_spec (hinv.1 p hp)
  have hmem : p.2 ∈ g.heap.map Prod.fst := by
    have := alookup_mem hgd
    exact List.mem_map_of_mem Prod.fst this
  exact hw.2.1 _ hmem

/-- Any registered reference is an allocated id. -/
theorem reg_ref_lt {g : GameState} (hinv : inv g) (hw : wf g) {c : Color} {j : Nat}
    (hj : j ∈ piecesOf g c) : j < g.nextId := by
  obtain ⟨d, hgd, -, -, -, -⟩ := regPieceOk_spec (inv_reg hinv c hj)
  have hmem : j ∈ g.heap.map Prod.fst := by
    have := alookup_mem hgd
    exact List.mem_map_of_mem Prod.fst this
  exact hw.2.1 _ hmem

/-! A successful en-passant capture of an opposing non-King piece keeps
the invariant. -/

theorem enpassant_move_inv (g : GameState) (s e : Square) (mid o : Nat)
    (dm od : PieceData)
    (hinv : inv g) (hw : wf g)
    (hs : boardGet g s = some mid) (he : boardGet g e = none)
    (hdm : heapGet g mid = some dm)
    (ho : boardGet g ⟨e.file, if g.activePlayer = Color.white then (5 : Int) else 4⟩ = some o)
    (hod : heapGet g o = some od)
    (hocolor : od.color ≠ g.activePlayer) (hoking : od.kind ≠ Kind.king)
    (pp : Nat) (hpp : findLastLoc g g.activePlayer s = some pp)
    (g1 : GameState) (cid : Nat) (hen : handle_enpassant g s e = .ok (g1, cid)) :
    inv (finalize_move (heapSetLoc (captured_block g1 cid) pp (some e)) (.stdIn s e)) := by
  obtain ⟨hbpp, hppmem⟩ := findLastLoc_char hinv hpp
  obtain rfl : mid = pp := by rw [hs] at hbpp; exact Option.some.inj hbpp
  obtain ⟨dm2, hdm2, hdmcol, sqm, hdmlq, hbmq⟩ := regPieceOk_spec (inv_reg hinv _ hppmem)
  obtain rfl : dm = dm2 := by rw [hdm] at hdm2; exact Option.some.inj hdm2
  obtain ⟨dmo, hdmo, hdmloc⟩ := occLocOk_spec (inv_board hinv hs)
  obtain rfl : dm = dmo := by rw [hdm] at hdmo; exact Option.some.inj hdmo
  set SC : Square := ⟨e.file, if g.activePlayer = Color.white then (5 : Int) else 4⟩
    with hSCdef
  obtain ⟨od2, hod2, hodloc⟩ := occLocOk_spec (inv_board hinv ho)
  obtain rfl : od = od2 := by rw [hod] at hod2; exact Option.some.inj hod2
  have hb : heapBound g := hw.2.1
  have hmido : mid ≠ o := by
    intro hh
    rw [hh, hod] at hdm
    obtain rfl : od = dm := Option.some.inj hdm
    exact hocolor hdmcol
  have hsSC : s ≠ SC := by
    intro hh
    rw [hh, ho] at hs
    exact hmido (Option.some.inj hs).symm
  have heSC : e ≠ SC := by
    intro hh
    rw [hh, ho] at he
    cases he
  have hse : s ≠ e := by
    intro hh
    rw [hh, he] at hs
    cases hs
  have hes : e ≠ s := fun hh => hse hh.symm
  have hmidnid : mid ≠ g.nextId := by
    have h1 : mid ∈ g.heap.map Prod.fst := List.mem_map_of_mem Prod.fst (alookup_mem hdm)
    have := hw.2.1 _ h1
    omega
  have honid : o ≠ g.nextId := by
    have h1 : o ∈ g.heap.map Prod.fst := List.mem_map_of_mem Prod.fst (alookup_mem hod)
    have := hw.2.1 _ h1
    omega
  unfold handle_enpassant at hen
  dsimp only at hen
  rw [← hSCdef, ho] at hen
  simp only at hen
  rw [hod] at hen
  simp only at hen
  have hgAheap : ∀ j, heapGet (boardSet (alloc g od).1 SC none) j =
      if j = g.nextId then some od else heapGet g j := by
    intro j
    rw [heapGet_boardSet_none]
    by_cases hj : j = g.nextId
    · subst hj
      rw [if_pos rfl]
      exact alloc_heapGet_self g od hb
    · rw [if_neg hj]
      exact alloc_heapGet_lt g od j hj
  have hflA : findLastLoc (boardSet (alloc g od).1 SC none)
      (boardSet (alloc g od).1 SC none).activePlayer s = some mid := by
    have hact : (boardSet (alloc g od).1 SC none).activePlayer = g.activePlayer := by
      rw [activePlayer_boardSet, activePlayer_alloc]
    have hregA : piecesOf (boardSet (alloc g od).1 SC none) g.activePlayer =
        piecesOf g g.activePlayer := by
      rw [piecesOf_boardSet, piecesOf_alloc]
    have hpt : ∀ i ∈ piecesOf g g.activePlayer,
        heapGet (boardSet (alloc g od).1 SC none) i = heapGet g i := by
      intro i hi
      rw [hgAheap i, if_neg]
      have := reg_ref_lt hinv hw hi
      omega
    rw [hact, findLastLoc_eq_foldl, hregA, foldl_flStep_congr s _ none hpt,
      ← findLastLoc_eq_foldl]
    exact hpp
  have hfm := force_move_ok (boardSet (alloc g od).1 SC none) s e mid hflA
  have hpcA : boardGet (heapSetLoc (boardSet (alloc g od).1 SC none) mid (some e)) s =
      some mid := by
    rw [boardGet_heapSetLoc,
      show boardGet (boardSet (alloc g od).1 SC none) s = alookup s (aerase SC g.board)
        from rfl,
      alookup_aerase_ne _ _ _ hsSC]
    exact hs
  rw [hpcA] at hfm
  rw [hfm] at hen
  simp only at hen
  have hgBheap : ∀ j, heapGet (boardSet (boardSet (heapSetLoc
      (boardSet (alloc g od).1 SC none) mid (some e)) s none) e (some mid)) j =
      if j = mid then some { dm with loc := some e }
      else if j = g.nextId then some od else heapGet g j := by
    intro j
    rw [heapGet_boardSet_some]
    by_cases hj : j = mid
    · subst hj
      rw [if_pos rfl, if_pos rfl, heapGet_boardSet_none, heapGet_heapSetLoc, if_pos rfl,
        hgAheap, if_neg hmidnid, hdm]
      rfl
    · rw [if_neg hj, if_neg hj, heapGet_boardSet_none, heapGet_heapSetLoc, if_neg hj,
        hgAheap]
  have hge : boardGet (setCapturedOf (boardSet (boardSet (heapSetLoc
      (boardSet (alloc g od).1 SC none) mid (some e)) s none) e (some mid)) od.color
      (capturedOf (boardSet (boardSet (heapSetLoc (boardSet (alloc g od).1 SC none) mid
        (some e)) s none) e (some mid)) od.color ++ [(alloc g od).2])) e = some mid := by
    rw [boardGet_setCapturedOf]
    exact boardGet_boardSet_some_self _ _ _
  rw [hge] at hen
  simp only at hen
  have hgmid4 : heapGet (setCapturedOf (boardSet (boardSet (heapSetLoc
      (boardSet (alloc g od).1 SC none) mid (some e)) s none) e (some mid)) od.color
      (capturedOf (boardSet (boardSet (heapSetLoc (boardSet (alloc g od).1 SC none) mid
        (some e)) s none) e (some mid)) od.color ++ [(alloc g od).2])) mid =
      some { dm with loc := some e } := by
    rw [heapGet_setCapturedOf, hgBheap, if_pos rfl]
  rw [hgmid4] at hen
  simp only at hen
  have hpair := Except.ok.inj hen
  have hcid2 : g.nextId = cid := congrArg Prod.snd hpair
  obtain rfl : g.nextId = cid := hcid2
  have hg1 : pieceMoveEffects (setCapturedOf (boardSet (boardSet (heapSetLoc
      (boardSet (alloc g od).1 SC none) mid (some e)) s none) e (some mid)) od.color
      (capturedOf (boardSet (boardSet (heapSetLoc (boardSet (alloc g od).1 SC none) mid
        (some e)) s none) e (some mid)) od.color ++ [g.nextId])) mid
      { dm with loc := some e } s e = g1 := congrArg Prod.fst hpair
  obtain rfl := hg1
  set G4 : GameState := setCapturedOf (boardSet (boardSet (heapSetLoc
      (boardSet (alloc g od).1 SC none) mid (some e)) s none) e (some mid)) od.color
      (capturedOf (boardSet (boardSet (heapSetLoc (boardSet (alloc g od).1 SC none) mid
        (some e)) s none) e (some mid)) od.color ++ [g.nextId]) with hG4def
  have hgmid4x : heapGet G4 mid = some { dm with loc := some e } := hgmid4
  obtain ⟨hp4b, hp4w, hp4bl, f2, hf2, hp4h⟩ :=
    pieceMoveEffects_parts G4 mid { dm with loc := some e } s e
  set G5 : GameState := pieceMoveEffects G4 mid { dm with loc := some e } s e with hG5def
  have hG5heap : ∀ j, heapGet G5 j =
      if j = mid then some (f2 { dm with loc := some e })
      else if j = g.nextId then some od else heapGet g j := by
    intro j
    rw [hp4h j]
    by_cases hj : j = mid
    · subst hj
      rw [if_pos rfl, if_pos rfl, hgmid4x]
      rfl
    · rw [if_neg hj, if_neg hj, hG4def, heapGet_setCapturedOf, hgBheap, if_neg hj]
  have hG5board : G5.board = aset e mid (aerase s (aerase SC g.board)) := by
    rw [hp4b, hG4def, board_setCapturedOf]
    rfl
  have hG5reg : ∀ c, piecesOf G5 c = piecesOf g c := by
    intro c
    cases c with
    | white =>
      rw [show piecesOf G5 Color.white = G5.whitePieces from rfl, hp4w,
        show G4.whitePieces = piecesOf G4 Color.white from rfl, hG4def,
        piecesOf_setCapturedOf]
      simp [piecesOf_alloc]
    | black =>
      rw [show piecesOf G5 Color.black = G5.blackPieces from rfl, hp4bl,
        show G4.blackPieces = piecesOf G4 Color.black from rfl, hG4def,
        piecesOf_setCapturedOf]
      simp [piecesOf_alloc]
  have hG5nid : heapGet G5 g.nextId = some od := by
    rw [hG5heap, if_neg (fun hh => hmidnid hh.symm), if_pos rfl]
  have hcb : captured_block G5 g.nextId =
      heapSetLoc (setPiecesOf (setCapturedOf G5 od.color (capturedOf G5 od.color ++
        [g.nextId])) od.color
        (pyRemoveLoop (setCapturedOf G5 od.color (capturedOf G5 od.color ++ [g.nextId])) od
          (piecesOf (setCapturedOf G5 od.color (capturedOf G5 od.color ++ [g.nextId]))
            od.color) 0)) g.nextId none := by
    unfold captured_block
    rw [hG5nid]
  have hg3reg : ∀ c, piecesOf (setCapturedOf G5 od.color (capturedOf G5 od.color ++
      [g.nextId])) c = piecesOf g c := by
    intro c
    rw [piecesOf_setCapturedOf, hG5reg]
  have hg3heap : ∀ j, heapGet (setCapturedOf G5 od.color (capturedOf G5 od.color ++
      [g.nextId])) j = heapGet G5 j := fun j => heapGet_setCapturedOf _ _ _ j
  have hmid_not_c0 : mid ∉ piecesOf g od.color := by
    apply not_mem_other_reg hinv hdm
    intro hh
    exact hocolor (hh.trans hdmcol)
  have hnomatch : ∀ j ∈ piecesOf g od.color, j ≠ o →
      pieceEqPy (setCapturedOf G5 od.color (capturedOf G5 od.color ++ [g.nextId])) j od
        = false := by
    intro j hj hjo
    have hjmid : j ≠ mid := fun hh => hmid_not_c0 (hh ▸ hj)
    have hjnid : j ≠ g.nextId := by
      have := reg_ref_lt hinv hw hj
      omega
    obtain ⟨dj, hgj, hjcol, sqj, hjloc, hjbq⟩ := regPieceOk_spec (inv_reg hinv _ hj)
    unfold pieceEqPy
    rw [hg3heap j, hG5heap j, if_neg hjmid, if_neg hjnid, hgj]
    simp only [decide_eq_false_iff_not]
    rintro ⟨-, hloceq⟩
    rw [hjloc, hodloc] at hloceq
    obtain rfl : sqj = SC := Option.some.inj hloceq
    rw [hjbq] at ho
    exact hjo (Option.some.inj ho)
  have hmatcho : pieceEqPy (setCapturedOf G5 od.color (capturedOf G5 od.color ++
      [g.nextId])) o od = true := by
    unfold pieceEqPy
    rw [hg3heap o, hG5heap o, if_neg (fun hh => hmido hh.symm), if_neg honid, hod]
    simp
  have ho_not_other : ∀ c, c ≠ od.color → o ∉ piecesOf g c := fun c hc =>
    not_mem_other_reg hinv hod c hc
  obtain ⟨L, hrem, hLsub, hLno_o, hLcount⟩ :
      ∃ L, pyRemoveLoop (setCapturedOf G5 od.color (capturedOf G5 od.color ++ [g.nextId]))
          od (piecesOf g od.color) 0 = L ∧
        (∀ j, j ∈ L → j ∈ piecesOf g od.color) ∧ o ∉ L ∧
        (L.filter (fun i => match heapGet g i with
          | some d => d.kind = Kind.king
          | none => false)).length =
          ((piecesOf g od.color).filter (fun i => match heapGet g i with
            | some d => d.kind = Kind.king
            | none => false)).length := by
    by_cases hoin : o ∈ piecesOf g od.color
    · obtain ⟨l1, l2, hsplit⟩ := List.append_of_mem hoin
      have hnodl := reg_nodup hw od.color
      rw [hsplit] at hnodl
      have hnd := List.nodup_append.mp hnodl
      have ho1 : o ∉ l1 := fun hh => hnd.2.2 hh (List.mem_cons_self _ _)
      have ho2 : o ∉ l2 := (List.nodup_cons.mp hnd.2.1).1
      have hm1 : ∀ i ∈ l1, pieceEqPy (setCapturedOf G5 od.color
          (capturedOf G5 od.color ++ [g.nextId])) i od = false := by
        intro i hi
        have hmem : i ∈ piecesOf g od.color := by
          rw [hsplit]
          exact List.mem_append_left _ hi
        apply hnomatch i hmem
        intro hh
        exact ho1 (hh ▸ hi)
      have hm2 : ∀ i ∈ l2, pieceEqPy (setCapturedOf G5 od.color
          (capturedOf G5 od.color ++ [g.nextId])) i od = false := by
        intro i hi
        have hmem : i ∈ piecesOf g od.color := by
          rw [hsplit]
          exact List.mem_append_right _ (List.mem_cons_of_mem _ hi)
        apply hnomatch i hmem
        intro hh
        exact ho2 (hh ▸ hi)
      refine ⟨l1 ++ l2, ?_, ?_, ?_, ?_⟩
      · rw [hsplit]
        exact pyRemoveLoop_unique _ od l1 l2 o hm1 hmatcho hm2
      · intro j hj
        rw [hsplit]
        rcases List.mem_append.mp hj with hj | hj
        · exact List.mem_append_left _ hj
        · exact List.mem_append_right _ (List.mem_cons_of_mem _ hj)
      · intro hh
        rcases List.mem_append.mp hh with hh | hh
        · exact ho1 hh
        · exact ho2 hh
      · rw [hsplit]
        simp only [List.filter_append, List.filter_cons, hod]
        simp [hoking]
    · refine ⟨piecesOf g od.color, ?_, fun j hj => hj, hoin, rfl⟩
      apply pyRemoveLoop_no_match
      intro i hi
      apply hnomatch i hi
      intro hh
      exact hoin (hh ▸ hi)
  have hrem2 : pyRemoveLoop (setCapturedOf G5 od.color (capturedOf G5 od.color ++
      [g.nextId])) od
      (piecesOf (setCapturedOf G5 od.color (capturedOf G5 od.color ++ [g.nextId]))
        od.color) 0 = L := by
    rw [hg3reg]
    exact hrem
  rw [hcb, hrem2]
  apply inv_finalize_move
  set G6 : GameState := setPiecesOf (setCapturedOf G5 od.color (capturedOf G5 od.color ++
    [g.nextId])) od.color L with hG6def
  have hem : e ∉ g.board.map Prod.fst := alookup_none_key_not_mem he
  have hnod1 : ((aerase SC g.board).map Prod.fst).Nodup :=
    aerase_map_fst_nodup _ _ hw.2.2.1
  have hnod2 : ((aerase s (aerase SC g.board)).map Prod.fst).Nodup :=
    aerase_map_fst_nodup _ _ hnod1
  have hGFb : (heapSetLoc (heapSetLoc G6 g.nextId none) mid (some e)).board =
      aset e mid (aerase s (aerase SC g.board)) := by
    rw [show (heapSetLoc (heapSetLoc G6 g.nextId none) mid (some e)).board = G6.board
      from rfl, hG6def, board_setPiecesOf, board_setCapturedOf, hG5board]
  have hheapF : ∀ j, heapGet (heapSetLoc (heapSetLoc G6 g.nextId none) mid (some e)) j =
      if j = mid then some { f2 { dm with loc := some e } with loc := some e }
      else if j = g.nextId then some { od with loc := none }
      else heapGet g j := by
    intro j
    rw [heapGet_heapSetLoc]
    by_cases hj : j = mid
    · subst hj
      rw [if_pos rfl, if_pos rfl, heapGet_heapSetLoc, if_neg hmidnid, hG6def,
        heapGet_setPiecesOf, hg3heap, hG5heap, if_pos rfl]
      rfl
    · rw [if_neg hj, if_neg hj, heapGet_heapSetLoc]
      by_cases hj2 : j = g.nextId
      · subst hj2
        rw [if_pos rfl, if_pos rfl, hG6def, heapGet_setPiecesOf, hg3heap, hG5heap,
          if_neg hj, if_pos rfl]
        rfl
      · rw [if_neg hj2, if_neg hj2, hG6def, heapGet_setPiecesOf, hg3heap, hG5heap,
          if_neg hj, if_neg hj2]
  have hpcF : ∀ c, piecesOf (heapSetLoc (heapSetLoc G6 g.nextId none) mid (some e)) c =
      if c = od.color then L else piecesOf g c := by
    intro c
    rw [piecesOf_heapSetLoc, piecesOf_heapSetLoc, hG6def]
    by_cases hc : c = od.color
    · subst hc
      rw [if_pos rfl, piecesOf_setPiecesOf_self]
    · rw [if_neg hc, piecesOf_setPiecesOf_ne _ _ _ _ hc, piecesOf_setCapturedOf, hG5reg]
  have hnid_notF : ∀ c, g.nextId ∉
      piecesOf (heapSetLoc (heapSetLoc G6 g.nextId none) mid (some e)) c := by
    intro c
    rw [hpcF c]
    by_cases hc : c = od.color
    · rw [if_pos hc]
      intro hmem
      have := reg_ref_lt hinv hw (hLsub _ hmem)
      omega
    · rw [if_neg hc]
      intro hmem
      have := reg_ref_lt hinv hw hmem
      omega
  have ho_notF : ∀ c, o ∉
      piecesOf (heapSetLoc (heapSetLoc G6 g.nextId none) mid (some e)) c := by
    intro c
    rw [hpcF c]
    by_cases hc : c = od.color
    · rw [if_pos hc]
      exact hLno_o
    · rw [if_neg hc]
      exact ho_not_other c hc
  have hkindF : ({ f2 { dm with loc := some e } with loc := some e } : PieceData).kind =
      dm.kind := by rw [(hf2 _).1]
  have hcolFh : ({ f2 { dm with loc := some e } with loc := some e } : PieceData).color =
      dm.color := by rw [(hf2 _).2.1]
  have hpred : ∀ j, j ≠ g.nextId →
      (match heapGet (heapSetLoc (heapSetLoc G6 g.nextId none) mid (some e)) j with
       | some d => decide (d.kind = Kind.king)
       | none => false) =
      (match heapGet g j with
       | some d => decide (d.kind = Kind.king)
       | none => false) := by
    intro j hj
    rw [hheapF]
    by_cases hjm : j = mid
    · subst hjm
      rw [if_pos rfl, hdm]
      show decide (({ f2 { dm with loc := some e } with loc := some e } : PieceData).kind
        = Kind.king) = decide (dm.kind = Kind.king)
      rw [hkindF]
    · rw [if_neg hjm, if_neg hj]
  have hkcF : ∀ c, kingCount (heapSetLoc (heapSetLoc G6 g.nextId none) mid (some e)) c =
      kingCount g c := by
    intro c
    unfold kingCount
    rw [hpcF c]
    by_cases hc : c = od.color
    · rw [if_pos hc]
      have h1 := List.filter_congr (fun j hj => hpred j (by
        intro hh
        have := reg_ref_lt hinv hw (hLsub _ hj)
        omega))
      rw [h1, hc]
      exact hLcount
    · rw [if_neg hc]
      congr 1
      apply List.filter_congr
      intro j hj
      apply hpred j
      intro hh
      have := reg_ref_lt hinv hw hj
      omega
  apply inv_final_master g _ s e mid dm
    { f2 { dm with loc := some e } with loc := some e } [g.nextId] [SC]
    hinv hs hdm
  · rw [hheapF, if_pos rfl]
  · exact hkindF
  · exact hcolFh
  · rfl
  · intro j hj hjC
    have hjnid : j ≠ g.nextId := by
      intro hh
      exact hjC (hh ▸ List.mem_singleton_self _)
    rw [hheapF, if_neg hj, if_neg hjnid]
  · intro j hj p hp
    rw [List.mem_singleton] at hj
    subst hj
    rw [hGFb] at hp
    rcases mem_aset_nodup hnod2 hp with h1 | ⟨h1, h2⟩
    · rw [h1]
      exact hmidnid
    · obtain ⟨h3, -⟩ := mem_aerase_nodup hnod1 h1
      obtain ⟨h5, -⟩ := mem_aerase_nodup hw.2.2.1 h3
      have := board_ref_lt hinv hw h5
      omega
  · intro j hj c
    rw [List.mem_singleton] at hj
    subst hj
    exact hnid_notF c
  · intro p hp
    rw [hGFb] at hp
    rcases mem_aset_nodup hnod2 hp with h1 | ⟨h1, h2⟩
    · exact Or.inl h1
    · obtain ⟨h3, h4⟩ := mem_aerase_nodup hnod1 h1
      obtain ⟨h5, h6⟩ := mem_aerase_nodup hw.2.2.1 h3
      refine Or.inr ⟨h5, h4, h2, ?_⟩
      simp [h6]
  · rw [show boardGet (heapSetLoc (heapSetLoc G6 g.nextId none) mid (some e)) e =
      alookup e (heapSetLoc (heapSetLoc G6 g.nextId none) mid (some e)).board from rfl,
      hGFb, alookup_aset_self]
  · intro t hts hte htR
    have htSC : t ≠ SC := by
      intro hh
      exact htR (hh ▸ List.mem_singleton_self _)
    rw [show boardGet (heapSetLoc (heapSetLoc G6 g.nextId none) mid (some e)) t =
      alookup t (heapSetLoc (heapSetLoc G6 g.nextId none) mid (some e)).board from rfl,
      hGFb, alookup_aset_ne _ _ _ _ hte, alookup_aerase_ne _ _ _ hts,
      alookup_aerase_ne _ _ _ htSC]
    rfl
  · intro j hj c
    rw [he] at hj
    cases hj
  · intro t ht j hjt c
    rw [List.mem_singleton] at ht
    subst ht
    rw [ho] at hjt
    obtain rfl : o = j := Option.some.inj hjt
    exact ho_notF c
  · intro c j hj
    rw [hpcF c] at hj
    by_cases hc : c = od.color
    · rw [if_pos hc] at hj
      rw [hc]
      exact hLsub j hj
    · rw [if_neg hc] at hj
      exact hj
  · rw [hkcF .white]
    exact hinv.2.2.2.1
  · rw [hkcF .black]
    exact hinv.2.2.2.2

/-- C1: amended invariant preservation.  From a well-formed state
satisfying the invariant, every SUCCESSFUL `Game.move` whose taken piece
(if any) is an opposing non-King — the condition `goodMoveB` — leaves the
invariant intact: board occupancy and live-piece locations agree
bidirectionally and each side keeps exactly one King.  (Without the side
condition the claim is false: see the counterexample, where a same-color
"capture" removes the moving Rook from the registry.) -/
theorem C1_inv_preservation (fuel : Nat) (g : GameState) (m : MoveInput)
    (hinv : inv g) (hw : wf g)
    (hok : isOkB (move fuel g m) = true)
    (hgood : goodMoveB g m = true) :
    inv (stepState (move fuel g m)) := by
  cases m with
  | castleIn ks =>
    cases hc : castle fuel g ks with
    | error p =>
      have hmv : move fuel g (.castleIn ks) = .error p := by
        simp only [move, hc]
      rw [hmv] at hok
      simp [isOkB] at hok
    | ok g1 =>
      have hmv : move fuel g (.castleIn ks) = .ok (finalize_move g1 (.castleIn ks)) := by
        simp only [move, hc]
      rw [hmv]
      simp only [stepState]
      exact inv_finalize_move _ (castle_inv fuel g ks hinv hw g1 hc)
  | stdIn s e =>
    cases hm : move_std fuel g s e with
    | error p =>
      have hmv : move fuel g (.stdIn s e) = .error p := hm
      rw [hmv] at hok
      simp [isOkB] at hok
    | ok gf =>
      have hmv : move fuel g (.stdIn s e) = .ok gf := hm
      rw [hmv]
      simp only [stepState]
      unfold move_std at hm
      dsimp only at hm
      split at hm
      · cases hm
      split at hm
      · cases hm
      split at hm
      · cases hm
      rename_i hbs
      obtain ⟨mid, hs⟩ : ∃ mid, boardGet g s = some mid := by
        cases hbsx : boardGet g s with
        | none => exact absurd hbsx hbs
        | some mid => exact ⟨mid, rfl⟩
      obtain ⟨dm, hdm, hdmloc⟩ := occLocOk_spec (inv_board hinv hs)
      split at hm
      · cases hm
      rename_i g2 cap heq
      split at hm
      · cases hm
      rename_i pp hppeq
      have hgf := Except.ok.inj hm
      rw [← hgf]
      clear hm hgf hok hmv
      simp only [goodMoveB] at hgood
      split at heq
      · rename_i hep
        rw [if_pos hep] at hgood
        rw [Bool.and_eq_true] at hgood
        obtain ⟨hgood1, hgood2⟩ := hgood
        have he : boardGet g e = none := of_decide_eq_true hgood1
        split at heq
        · cases heq
        rename_i g1 cid hen
        obtain hpair := Except.ok.inj heq
        have hg2 : g1 = g2 := congrArg Prod.fst hpair
        have hcap : some cid = cap := congrArg Prod.snd hpair
        subst hg2
        rw [← hcap]
        cases hosq : boardGet g ⟨e.file, if g.activePlayer = Color.white then (5 : Int)
            else 4⟩ with
        | none =>
          exfalso
          unfold handle_enpassant at hen
          dsimp only at hen
          rw [hosq] at hen
          simp only at hen
          split at hen <;> cases hen
        | some o =>
          obtain ⟨od, hod, hodloc⟩ := occLocOk_spec (inv_board hinv hosq)
          rw [hosq] at hgood2
          simp only at hgood2
          rw [hod] at hgood2
          simp only at hgood2
          rw [Bool.and_eq_true] at hgood2
          obtain ⟨hg3, hg4⟩ := hgood2
          exact enpassant_move_inv g s e mid o dm od hinv hw hs he hdm hosq hod
            (of_decide_eq_true hg3) (of_decide_eq_true hg4) pp hppeq g1 cid hen
      · rename_i hep
        rw [if_neg hep] at hgood
        split at heq
        · cases heq
        rename_i sd hsd
        split at heq
        · rename_i hne
          split at heq
          · cases heq
          split at heq
          · cases heq
          rename_i g2x hbrx
          obtain hpair := Except.ok.inj heq
          have hg2 : g2x = g2 := congrArg Prod.fst hpair
          have hcap : boardGet g e = cap := congrArg Prod.snd hpair
          subst hg2
          rw [← hcap]
          obtain ⟨cid, hecid⟩ : ∃ cid, boardGet g e = some cid := by
            cases hbe : boardGet g e with
            | none => exact absurd hbe hne
            | some cid => exact ⟨cid, rfl⟩
          obtain ⟨cdo, hcd, hcdloc⟩ := occLocOk_spec (inv_board hinv hecid)
          rw [hecid] at hgood
          simp only at hgood
          rw [hcd] at hgood
          simp only at hgood
          rw [Bool.and_eq_true] at hgood
          obtain ⟨hg3, hg4⟩ := hgood
          rw [hecid]
          exact capture_move_inv g s e mid cid dm cdo hinv hw hs hecid hdm hcd
            (of_decide_eq_true hg3) (of_decide_eq_true hg4) pp hppeq g2x hbrx
        · rename_i hne
          have he : boardGet g e = none := by
            by_cases hbe : boardGet g e = none
            · exact hbe
            · exact absurd (fun hh => hbe hh) hne
          split at heq
          · cases heq
          split at heq
          · cases heq
          rename_i g2x hbrx
          obtain hpair := Except.ok.inj heq
          have hg2 : g2x = g2 := congrArg Prod.fst hpair
          have hcap : (none : Option Nat) = cap := congrArg Prod.snd hpair
          subst hg2
          rw [← hcap]
          exact plain_move_inv g s e mid hinv hw hs he pp hppeq g2x hbrx

/-- Witness for C1: the Rook slide a1-b1 in the counterexample state. -/
theorem C1_inv_preservation_witness :
    (inv stSame ∧ wf stSame ∧ isOkB (move 4 stSame (.stdIn ⟨0, 1⟩ ⟨1, 1⟩)) = true ∧
      goodMoveB stSame (.stdIn ⟨0, 1⟩ ⟨1, 1⟩) = true) ∧
    inv (stepState (move 4 stSame (.stdIn ⟨0, 1⟩ ⟨1, 1⟩))) :=
  ⟨⟨by decide, by decide, by decide, by decide⟩,
    C1_inv_preservation 4 stSame (.stdIn ⟨0, 1⟩ ⟨1, 1⟩) (by decide) (by decide)
      (by decide) (by decide)⟩

/-! Captured-list projections, for tracking the double append of claim C8. -/

theorem capturedOf_boardSet (g : GameState) (sq : Square) (v : Option Nat) (c : Color) :
    capturedOf (boardSet g sq v) c = capturedOf g c := by
  cases v <;> cases c <;> rfl

theorem capturedOf_heapModify (g : GameState) (i : Nat) (f : PieceData → PieceData)
    (c : Color) : capturedOf (heapModify g i f) c = capturedOf g c := by
  cases c <;> rfl

theorem capturedOf_alloc (g : GameState) (d : PieceData) (c : Color) :
    capturedOf (alloc g d).1 c = capturedOf g c := by
  cases c <;> rfl

theorem capturedOf_setPiecesOf (g : GameState) (c1 : Color) (l : List Nat) (c : Color) :
    capturedOf (setPiecesOf g c1 l) c = capturedOf g c := by
  cases c1 <;> cases c <;> rfl

theorem capturedOf_setCapturedOf_self (g : GameState) (c : Color) (l : List Nat) :
    capturedOf (setCapturedOf g c l) c = l := by
  cases c <;> rfl

theorem pieceMoveEffects_captured (g : GameState) (i : Nat) (d : PieceData) (s e : Square)
    (c : Color) : capturedOf (pieceMoveEffects g i d s e) c = capturedOf g c := by
  unfold pieceMoveEffects
  cases hk : d.kind
  case pawn =>
    cases hl : d.loc
    · rfl
    · dsimp only
      rw [capturedOf_heapModify]
      split <;> (cases c <;> rfl)
  case rook => rw [capturedOf_heapModify]
  case king => rw [capturedOf_heapModify]
  all_goals cases c <;> rfl

theorem finalize_move_captured (g : GameState) (inp : MoveInput) (c : Color) :
    capturedOf (finalize_move g inp) c = capturedOf g c := by
  unfold finalize_move
  cases inp <;> dsimp only <;> split <;> (cases c <;> rfl)

theorem capturedOf_heapSetLoc (g : GameState) (i : Nat) (v : Option Square) (c : Color) :
    capturedOf (heapSetLoc g i v) c = capturedOf g c := by
  cases c <;> rfl

/-- Shared effect characterization of a successful en-passant capture:
the capture-rank square is vacated, the passed piece leaves the live
registries, the single fresh copy (id `nextId`, location nulled) is
appended twice to its color's captured list, and the capturer moves from
`s` onto `e`. -/
theorem enpassant_effects_aux (g : GameState) (s e : Square) (mid o : Nat)
    (od : PieceData)
    (hinv : inv g) (hw : wf g)
    (hs : boardGet g s = some mid) (he : boardGet g e = none)
    (ho : boardGet g ⟨e.file, if g.activePlayer = Color.white then (5 : Int) else 4⟩ = some o)
    (hod : heapGet g o = some od)
    (hocolor : od.color ≠ g.activePlayer)
    (pp : Nat) (hpp : findLastLoc g g.activePlayer s = some pp)
    (g1 : GameState) (cid : Nat) (hen : handle_enpassant g s e = .ok (g1, cid)) :
    boardGet (finalize_move (heapSetLoc (captured_block g1 cid) pp (some e)) (.stdIn s e))
      ⟨e.file, if g.activePlayer = Color.white then (5 : Int) else 4⟩ = none ∧
    (∀ c, o ∉ piecesOf (finalize_move (heapSetLoc (captured_block g1 cid) pp (some e))
      (.stdIn s e)) c) ∧
    capturedOf (finalize_move (heapSetLoc (captured_block g1 cid) pp (some e)) (.stdIn s e))
      od.color = capturedOf g od.color ++ [g.nextId, g.nextId] ∧
    heapGet (finalize_move (heapSetLoc (captured_block g1 cid) pp (some e)) (.stdIn s e))
      g.nextId = some { od with loc := none } ∧
    boardGet (finalize_move (heapSetLoc (captured_block g1 cid) pp (some e)) (.stdIn s e)) e
      = some mid ∧
    boardGet (finalize_move (heapSetLoc (captured_block g1 cid) pp (some e)) (.stdIn s e)) s
      = none := by
  obtain ⟨dm, hdm, hdmloc0⟩ := occLocOk_spec (inv_board hinv hs)

  obtain ⟨hbpp, hppmem⟩ := findLastLoc_char hinv hpp
  obtain rfl : mid = pp := by rw [hs] at hbpp; exact Option.some.inj hbpp
  obtain ⟨dm2, hdm2, hdmcol, sqm, hdmlq, hbmq⟩ := regPieceOk_spec (inv_reg hinv _ hppmem)
  obtain rfl : dm = dm2 := by rw [hdm] at hdm2; exact Option.some.inj hdm2
  obtain ⟨dmo, hdmo, hdmloc⟩ := occLocOk_spec (inv_board hinv hs)
  obtain rfl : dm = dmo := by rw [hdm] at hdmo; exact Option.some.inj hdmo
  set SC : Square := ⟨e.file, if g.activePlayer = Color.white then (5 : Int) else 4⟩
    with hSCdef
  obtain ⟨od2, hod2, hodloc⟩ := occLocOk_spec (inv_board hinv ho)
  obtain rfl : od = od2 := by rw [hod] at hod2; exact Option.some.inj hod2
  have hb : heapBound g := hw.2.1
  have hmido : mid ≠ o := by
    intro hh
    rw [hh, hod] at hdm
    obtain rfl : od = dm := Option.some.inj hdm
    exact hocolor hdmcol
  have hsSC : s ≠ SC := by
    intro hh
    rw [hh, ho] at hs
    exact hmido (Option.some.inj hs).symm
  have heSC : e ≠ SC := by
    intro hh
    rw [hh, ho] at he
    cases he
  have hse : s ≠ e := by
    intro hh
    rw [hh, he] at hs
    cases hs
  have hes : e ≠ s := fun hh => hse hh.symm
  have hmidnid : mid ≠ g.nextId := by
    have h1 : mid ∈ g.heap.map Prod.fst := List.mem_map_of_mem Prod.fst (alookup_mem hdm)
    have := hw.2.1 _ h1
    omega
  have honid : o ≠ g.nextId := by
    have h1 : o ∈ g.heap.map Prod.fst := List.mem_map_of_mem Prod.fst (alookup_mem hod)
    have := hw.2.1 _ h1
    omega
  unfold handle_enpassant at hen
  dsimp only at hen
  rw [← hSCdef, ho] at hen
  simp only at hen
  rw [hod] at hen
  simp only at hen
  have hgAheap : ∀ j, heapGet (boardSet (alloc g od).1 SC none) j =
      if j = g.nextId then some od else heapGet g j := by
    intro j
    rw [heapGet_boardSet_none]
    by_cases hj : j = g.nextId
    · subst hj
      rw [if_pos rfl]
      exact alloc_heapGet_self g od hb
    · rw [if_neg hj]
      exact alloc_heapGet_lt g od j hj
  have hflA : findLastLoc (boardSet (alloc g od).1 SC none)
      (boardSet (alloc g od).1 SC none).activePlayer s = some mid := by
    have hact : (boardSet (alloc g od).1 SC none).activePlayer = g.activePlayer := by
      rw [activePlayer_boardSet, activePlayer_alloc]
    have hregA : piecesOf (boardSet (alloc g od).1 SC none) g.activePlayer =
        piecesOf g g.activePlayer := by
      rw [piecesOf_boardSet, piecesOf_alloc]
    have hpt : ∀ i ∈ piecesOf g g.activePlayer,
        heapGet (boardSet (alloc g od).1 SC none) i = heapGet g i := by
      intro i hi
      rw [hgAheap i, if_neg]
      have := reg_ref_lt hinv hw hi
      omega
    rw [hact, findLastLoc_eq_foldl, hregA, foldl_flStep_congr s _ none hpt,
      ← findLastLoc_eq_foldl]
    exact hpp
  have hfm := force_move_ok (boardSet (alloc g od).1 SC none) s e mid hflA
  have hpcA : boardGet (heapSetLoc (boardSet (alloc g od).1 SC none) mid (some e)) s =
      some mid := by
    rw [boardGet_heapSetLoc,
      show boardGet (boardSet (alloc g od).1 SC none) s = alookup s (aerase SC g.board)
        from rfl,
      alookup_aerase_ne _ _ _ hsSC]
    exact hs
  rw [hpcA] at hfm
  rw [hfm] at hen
  simp only at hen
  have hgBheap : ∀ j, heapGet (boardSet (boardSet (heapSetLoc
      (boardSet (alloc g od).1 SC none) mid (some e)) s none) e (some mid)) j =
      if j = mid then some { dm with loc := some e }
      else if j = g.nextId then some od else heapGet g j := by
    intro j
    rw [heapGet_boardSet_some]
    by_cases hj : j = mid
    · subst hj
      rw [if_pos rfl, if_pos rfl, heapGet_boardSet_none, heapGet_heapSetLoc, if_pos rfl,
        hgAheap, if_neg hmidnid, hdm]
      rfl
    · rw [if_neg hj, if_neg hj, heapGet_boardSet_none, heapGet_heapSetLoc, if_neg hj,
        hgAheap]
  have hge : boardGet (setCapturedOf (boardSet (boardSet (heapSetLoc
      (boardSet (alloc g od).1 SC none) mid (some e)) s none) e (some mid)) od.color
      (capturedOf (boardSet (boardSet (heapSetLoc (boardSet (alloc g od).1 SC none) mid
        (some e)) s none) e (some mid)) od.color ++ [(alloc g od).2])) e = some mid := by
    rw [boardGet_setCapturedOf]
    exact boardGet_boardSet_some_self _ _ _
  rw [hge] at hen
  simp only at hen
  have hgmid4 : heapGet (setCapturedOf (boardSet (boardSet (heapSetLoc
      (boardSet (alloc g od).1 SC none) mid (some e)) s none) e (some mid)) od.color
      (capturedOf (boardSet (boardSet (heapSetLoc (boardSet (alloc g od).1 SC none) mid
        (some e)) s none) e (some mid)) od.color ++ [(alloc g od).2])) mid =
      some { dm with loc := some e } := by
    rw [heapGet_setCapturedOf, hgBheap, if_pos rfl]
  rw [hgmid4] at hen
  simp only at hen
  have hpair := Except.ok.inj hen
  have hcid2 : g.nextId = cid := congrArg Prod.snd hpair
  obtain rfl : g.nextId = cid := hcid2
  have hg1 : pieceMoveEffects (setCapturedOf (boardSet (boardSet (heapSetLoc
      (boardSet (alloc g od).1 SC none) mid (some e)) s none) e (some mid)) od.color
      (capturedOf (boardSet (boardSet (heapSetLoc (boardSet (alloc g od).1 SC none) mid
        (some e)) s none) e (some mid)) od.color ++ [g.nextId])) mid
      { dm with loc := some e } s e = g1 := congrArg Prod.fst hpair
  obtain rfl := hg1
  set G4 : GameState := setCapturedOf (boardSet (boardSet (heapSetLoc
      (boardSet (alloc g od).1 SC none) mid (some e)) s none) e (some mid)) od.color
      (capturedOf (boardSet (boardSet (heapSetLoc (boardSet (alloc g od).1 SC none) mid
        (some e)) s none) e (some mid)) od.color ++ [g.nextId]) with hG4def
  have hgmid4x : heapGet G4 mid = some { dm with loc := some e } := hgmid4
  obtain ⟨hp4b, hp4w, hp4bl, f2, hf2, hp4h⟩ :=
    pieceMoveEffects_parts G4 mid { dm with loc := some e } s e
  set G5 : GameState := pieceMoveEffects G4 mid { dm with loc := some e } s e with hG5def
  have hG5heap : ∀ j, heapGet G5 j =
      if j = mid then some (f2 { dm with loc := some e })
      else if j = g.nextId then some od else heapGet g j := by
    intro j
    rw [hp4h j]
    by_cases hj : j = mid
    · subst hj
      rw [if_pos rfl, if_pos rfl, hgmid4x]
      rfl
    · rw [if_neg hj, if_neg hj, hG4def, heapGet_setCapturedOf, hgBheap, if_neg hj]
  have hG5board : G5.board = aset e mid (aerase s (aerase SC g.board)) := by
    rw [hp4b, hG4def, board_setCapturedOf]
    rfl
  have hG5reg : ∀ c, piecesOf G5 c = piecesOf g c := by
    intro c
    cases c with
    | white =>
      rw [show piecesOf G5 Color.white = G5.whitePieces from rfl, hp4w,
        show G4.whitePieces = piecesOf G4 Color.white from rfl, hG4def,
        piecesOf_setCapturedOf]
      simp [piecesOf_alloc]
    | black =>
      rw [show piecesOf G5 Color.black = G5.blackPieces from rfl, hp4bl,
        show G4.blackPieces = piecesOf G4 Color.black from rfl, hG4def,
        piecesOf_setCapturedOf]
      simp [piecesOf_alloc]
  have hG5nid : heapGet G5 g.nextId = some od := by
    rw [hG5heap, if_neg (fun hh => hmidnid hh.symm), if_pos rfl]
  have hcb : captured_block G5 g.nextId =
      heapSetLoc (setPiecesOf (setCapturedOf G5 od.color (capturedOf G5 od.color ++
        [g.nextId])) od.color
        (pyRemoveLoop (setCapturedOf G5 od.color (capturedOf G5 od.color ++ [g.nextId])) od
          (piecesOf (setCapturedOf G5 od.color (capturedOf G5 od.color ++ [g.nextId]))
            od.color) 0)) g.nextId none := by
    unfold captured_block
    rw [hG5nid]
  have hg3reg : ∀ c, piecesOf (setCapturedOf G5 od.color (capturedOf G5 od.color ++
      [g.nextId])) c = piecesOf g c := by
    intro c
    rw [piecesOf_setCapturedOf, hG5reg]
  have hg3heap : ∀ j, heapGet (setCapturedOf G5 od.color (capturedOf G5 od.color ++
      [g.nextId])) j = heapGet G5 j := fun j => heapGet_setCapturedOf _ _ _ j
  have hmid_not_c0 : mid ∉ piecesOf g od.color := by
    apply not_mem_other_reg hinv hdm
    intro hh
    exact hocolor (hh.trans hdmcol)
  have hnomatch : ∀ j ∈ piecesOf g od.color, j ≠ o →
      pieceEqPy (setCapturedOf G5 od.color (capturedOf G5 od.color ++ [g.nextId])) j od
        = false := by
    intro j hj hjo
    have hjmid : j ≠ mid := fun hh => hmid_not_c0 (hh ▸ hj)
    have hjnid : j ≠ g.nextId := by
      have := reg_ref_lt hinv hw hj
      omega
    obtain ⟨dj, hgj, hjcol, sqj, hjloc, hjbq⟩ := regPieceOk_spec (inv_reg hinv _ hj)
    unfold pieceEqPy
    rw [hg3heap j, hG5heap j, if_neg hjmid, if_neg hjnid, hgj]
    simp only [decide_eq_false_iff_not]
    rintro ⟨-, hloceq⟩
    rw [hjloc, hodloc] at hloceq
    obtain rfl : sqj = SC := Option.some.inj hloceq
    rw [hjbq] at ho
    exact hjo (Option.some.inj ho)
  have hmatcho : pieceEqPy (setCapturedOf G5 od.color (capturedOf G5 od.color ++
      [g.nextId])) o od = true := by
    unfold pieceEqPy
    rw [hg3heap o, hG5heap o, if_neg (fun hh => hmido hh.symm), if_neg honid, hod]
    simp
  have ho_not_other : ∀ c, c ≠ od.color → o ∉ piecesOf g c := fun c hc =>
    not_mem_other_reg hinv hod c hc
  obtain ⟨L, hrem, hLsub, hLno_o⟩ :
      ∃ L, pyRemoveLoop (setCapturedOf G5 od.color (capturedOf G5 od.color ++ [g.nextId]))
          od (piecesOf g od.color) 0 = L ∧
        (∀ j, j ∈ L → j ∈ piecesOf g od.color) ∧ o ∉ L := by
    by_cases hoin : o ∈ piecesOf g od.color
    · obtain ⟨l1, l2, hsplit⟩ := List.append_of_mem hoin
      have hnodl := reg_nodup hw od.color
      rw [hsplit] at hnodl
      have hnd := List.nodup_append.mp hnodl
      have ho1 : o ∉ l1 := fun hh => hnd.2.2 hh (List.mem_cons_self _ _)
      have ho2 : o ∉ l2 := (List.nodup_cons.mp hnd.2.1).1
      have hm1 : ∀ i ∈ l1, pieceEqPy (setCapturedOf G5 od.color
          (capturedOf G5 od.color ++ [g.nextId])) i od = false := by
        intro i hi
        have hmem : i ∈ piecesOf g od.color := by
          rw [hsplit]
          exact List.mem_append_left _ hi
        apply hnomatch i hmem
        intro hh
        exact ho1 (hh ▸ hi)
      have hm2 : ∀ i ∈ l2, pieceEqPy (setCapturedOf G5 od.color
          (capturedOf G5 od.color ++ [g.nextId])) i od = false := by
        intro i hi
        have hmem : i ∈ piecesOf g od.color := by
          rw [hsplit]
          exact List.mem_append_right _ (List.mem_cons_of_mem _ hi)
        apply hnomatch i hmem
        intro hh
        exact ho2 (hh ▸ hi)
      refine ⟨l1 ++ l2, ?_, ?_, ?_⟩
      · rw [hsplit]
        exact pyRemoveLoop_unique _ od l1 l2 o hm1 hmatcho hm2
      · intro j hj
        rw [hsplit]
        rcases List.mem_append.mp hj with hj | hj
        · exact List.mem_append_left _ hj
        · exact List.mem_append_right _ (List.mem_cons_of_mem _ hj)
      · intro hh
        rcases List.mem_append.mp hh with hh | hh
        · exact ho1 hh
        · exact ho2 hh
    · refine ⟨piecesOf g od.color, ?_, fun j hj => hj, hoin⟩
      apply pyRemoveLoop_no_match
      intro i hi
      apply hnomatch i hi
      intro hh
      exact hoin (hh ▸ hi)
  have hrem2 : pyRemoveLoop (setCapturedOf G5 od.color (capturedOf G5 od.color ++
      [g.nextId])) od
      (piecesOf (setCapturedOf G5 od.color (capturedOf G5 od.color ++ [g.nextId]))
        od.color) 0 = L := by
    rw [hg3reg]
    exact hrem
  rw [hcb, hrem2]
  set G6 : GameState := setPiecesOf (setCapturedOf G5 od.color (capturedOf G5 od.color ++
    [g.nextId])) od.color L with hG6def
  have hnod1 : ((aerase SC g.board).map Prod.fst).Nodup :=
    aerase_map_fst_nodup _ _ hw.2.2.1
  have hGFb : (heapSetLoc (heapSetLoc G6 g.nextId none) mid (some e)).board =
      aset e mid (aerase s (aerase SC g.board)) := by
    rw [show (heapSetLoc (heapSetLoc G6 g.nextId none) mid (some e)).board = G6.board
      from rfl, hG6def, board_setPiecesOf, board_setCapturedOf, hG5board]
  have hheapF : ∀ j, heapGet (heapSetLoc (heapSetLoc G6 g.nextId none) mid (some e)) j =
      if j = mid then some { f2 { dm with loc := some e } with loc := some e }
      else if j = g.nextId then some { od with loc := none }
      else heapGet g j := by
    intro j
    rw [heapGet_heapSetLoc]
    by_cases hj : j = mid
    · subst hj
      rw [if_pos rfl, if_pos rfl, heapGet_heapSetLoc, if_neg hmidnid, hG6def,
        heapGet_setPiecesOf, hg3heap, hG5heap, if_pos rfl]
      rfl
    · rw [if_neg hj, if_neg hj, heapGet_heapSetLoc]
      by_cases hj2 : j = g.nextId
      · subst hj2
        rw [if_pos rfl, if_pos rfl, hG6def, heapGet_setPiecesOf, hg3heap, hG5heap,
          if_neg hj, if_pos rfl]
        rfl
      · rw [if_neg hj2, if_neg hj2, hG6def, heapGet_setPiecesOf, hg3heap, hG5heap,
          if_neg hj, if_neg hj2]
  have hpcF : ∀ c, piecesOf (heapSetLoc (heapSetLoc G6 g.nextId none) mid (some e)) c =
      if c = od.color then L else piecesOf g c := by
    intro c
    rw [piecesOf_heapSetLoc, piecesOf_heapSetLoc, hG6def]
    by_cases hc : c = od.color
    · subst hc
      rw [if_pos rfl, piecesOf_setPiecesOf_self]
    · rw [if_neg hc, piecesOf_setPiecesOf_ne _ _ _ _ hc, piecesOf_setCapturedOf, hG5reg]
  have ho_notF : ∀ c, o ∉
      piecesOf (heapSetLoc (heapSetLoc G6 g.nextId none) mid (some e)) c := by
    intro c
    rw [hpcF c]
    by_cases hc : c = od.color
    · rw [if_pos hc]
      exact hLno_o
    · rw [if_neg hc]
      exact ho_not_other c hc
  obtain ⟨hfh, hfb, hfw, hfbl⟩ := finalize_move_parts
    (heapSetLoc (heapSetLoc G6 g.nextId none) mid (some e)) (.stdIn s e)
  have hFMbg : ∀ t, boardGet (finalize_move
      (heapSetLoc (heapSetLoc G6 g.nextId none) mid (some e)) (.stdIn s e)) t =
      alookup t (aset e mid (aerase s (aerase SC g.board))) := by
    intro t
    unfold boardGet
    rw [hfb, hGFb]
  have hFMheap : ∀ j, heapGet (finalize_move
      (heapSetLoc (heapSetLoc G6 g.nextId none) mid (some e)) (.stdIn s e)) j =
      heapGet (heapSetLoc (heapSetLoc G6 g.nextId none) mid (some e)) j := by
    intro j
    unfold heapGet
    rw [hfh]
  refine ⟨?_, ?_, ?_, ?_, ?_, ?_⟩
  · rw [hFMbg, alookup_aset_ne _ _ _ _ (fun hh => heSC hh.symm),
      alookup_aerase_ne _ _ _ (fun hh => hsSC hh.symm),
      alookup_aerase_self _ _ hw.2.2.1]
  · intro c
    cases c with
    | white =>
      rw [show piecesOf (finalize_move (heapSetLoc (heapSetLoc G6 g.nextId none) mid
        (some e)) (.stdIn s e)) Color.white = (finalize_move (heapSetLoc (heapSetLoc G6
        g.nextId none) mid (some e)) (.stdIn s e)).whitePieces from rfl, hfw]
      exact ho_notF .white
    | black =>
      rw [show piecesOf (finalize_move (heapSetLoc (heapSetLoc G6 g.nextId none) mid
        (some e)) (.stdIn s e)) Color.black = (finalize_move (heapSetLoc (heapSetLoc G6
        g.nextId none) mid (some e)) (.stdIn s e)).blackPieces from rfl, hfbl]
      exact ho_notF .black
  · rw [finalize_move_captured, capturedOf_heapSetLoc, capturedOf_heapSetLoc, hG6def,
      capturedOf_setPiecesOf, capturedOf_setCapturedOf_self]
    have hG5cap : capturedOf G5 od.color = capturedOf g od.color ++ [g.nextId] := by
      rw [hG5def, pieceMoveEffects_captured, hG4def, capturedOf_setCapturedOf_self]
      congr 1
    rw [hG5cap, List.append_assoc]
    rfl
  · rw [hFMheap, hheapF, if_neg (fun hh => hmidnid hh.symm), if_pos rfl]
  · rw [hFMbg, alookup_aset_self]
  · rw [hFMbg, alookup_aset_ne _ _ _ _ hse, alookup_aerase_self _ _ hnod1]

/-- C8 (amended): in every position satisfying the state invariant and
well-formedness where the recorded en-passant target square `e` is empty,
the mover's pawn stands on `s`, and the square directly behind `e` on the
capture rank holds an opposing piece `o`, every successful `Game.move`
from `s` to `e` performs the en-passant capture as the source does: the
passed piece is removed from the board and from every live-piece registry,
exactly ONE deep copy of it is allocated (id `g.nextId`, with its own
`location` finally set to `None`), TWO references to that single copy are
appended to its colour's captured list — one by `handle_enpassant`
(game.py 347) and one by the captured-piece block of `Game.move`
(game.py 210) — and the capturing piece moves from `s` onto the now
`some`-occupied `e` while `s` is vacated. -/
theorem C8_enpassant_effects (fuel : Nat) (g : GameState) (s e : Square) (mid o : Nat)
    (od : PieceData)
    (hinv : inv g) (hw : wf g)
    (hs : boardGet g s = some mid) (he : boardGet g e = none)
    (ho : boardGet g ⟨e.file, if g.activePlayer = Color.white then (5 : Int) else 4⟩
      = some o)
    (hod : heapGet g o = some od)
    (hocolor : od.color ≠ g.activePlayer)
    (hep : some e = g.enpassants)
    (hok : isOkB (move fuel g (.stdIn s e)) = true) :
    boardGet (stepState (move fuel g (.stdIn s e)))
      ⟨e.file, if g.activePlayer = Color.white then (5 : Int) else 4⟩ = none ∧
    (∀ c, o ∉ piecesOf (stepState (move fuel g (.stdIn s e))) c) ∧
    capturedOf (stepState (move fuel g (.stdIn s e))) od.color =
      capturedOf g od.color ++ [g.nextId, g.nextId] ∧
    heapGet (stepState (move fuel g (.stdIn s e))) g.nextId =
      some { od with loc := none } ∧
    boardGet (stepState (move fuel g (.stdIn s e))) e = some mid ∧
    boardGet (stepState (move fuel g (.stdIn s e))) s = none := by
  cases hm : move_std fuel g s e with
  | error p =>
    have hmv : move fuel g (.stdIn s e) = .error p := hm
    rw [hmv] at hok
    simp [isOkB] at hok
  | ok gf =>
    have hmv : move fuel g (.stdIn s e) = .ok gf := hm
    rw [hmv]
    simp only [stepState]
    unfold move_std at hm
    dsimp only at hm
    split at hm
    · cases hm
    split at hm
    · cases hm
    split at hm
    · cases hm
    split at hm
    · cases hm
    rename_i g1x cidx henx
    split at hm
    · cases hm
    rename_i pp hppeq
    have hgf := Except.ok.inj hm
    rw [← hgf]
    split at henx
    · cases henx
    rename_i g1 cid hen
    obtain hpair := Except.ok.inj henx
    have hg1 : g1 = g1x := congrArg Prod.fst hpair
    have hcid : some cid = cidx := congrArg Prod.snd hpair
    subst hg1
    rw [← hcid]
    exact enpassant_effects_aux g s e mid o od hinv hw hs he ho hod hocolor
      pp hppeq g1 cid hen

theorem C8_enpassant_effects_witness :
    (inv stScenBK1 ∧ wf stScenBK1 ∧
      some (⟨3, 6⟩ : Square) = stScenBK1.enpassants ∧
      isOkB (move 4 stScenBK1 (.stdIn ⟨4, 5⟩ ⟨3, 6⟩)) = true) ∧
    capturedOf (stepState (move 4 stScenBK1 (.stdIn ⟨4, 5⟩ ⟨3, 6⟩))) Color.black =
      capturedOf stScenBK1 Color.black ++ [stScenBK1.nextId, stScenBK1.nextId] ∧
    boardGet (stepState (move 4 stScenBK1 (.stdIn ⟨4, 5⟩ ⟨3, 6⟩))) ⟨3, 5⟩ = none ∧
    (∀ c, 1 ∉ piecesOf (stepState (move 4 stScenBK1 (.stdIn ⟨4, 5⟩ ⟨3, 6⟩))) c) ∧
    heapGet (stepState (move 4 stScenBK1 (.stdIn ⟨4, 5⟩ ⟨3, 6⟩))) stScenBK1.nextId =
      some ⟨Kind.pawn, Color.black, none, true⟩ ∧
    boardGet (stepState (move 4 stScenBK1 (.stdIn ⟨4, 5⟩ ⟨3, 6⟩))) ⟨3, 6⟩ = some 0 ∧
    boardGet (stepState (move 4 stScenBK1 (.stdIn ⟨4, 5⟩ ⟨3, 6⟩))) ⟨4, 5⟩ = none := by
  have h := C8_enpassant_effects 4 stScenBK1 ⟨4, 5⟩ ⟨3, 6⟩ 0 1
    ⟨Kind.pawn, Color.black, some ⟨3, 5⟩, true⟩
    (by decide) (by decide) (by decide) (by decide) (by decide) (by decide)
    (by decide) (by decide) (by decide)
  exact ⟨⟨by decide, by decide, by decide, by decide⟩,
    h.2.2.1, h.1, h.2.1, h.2.2.2.1, h.2.2.2.2.1, h.2.2.2.2.2⟩

end PyChess
